import Mathlib

/-!
Verification development for the quiz-authoring web application.

The application's strings (JavaScript strings) are modelled as `List Char`
(`JSStr`).  The client-side scoring engine, the gap parser, the storage-URL
path extraction and the server-side quiz reconciliation actions are embedded
as executable Lean functions over this representation; external collaborators
(the URL parser of the platform, percent-decoding, the blob store, the
identity provider) are supplied as components of an `Env` value.
-/

namespace Quiz

/-- JavaScript strings are modelled as lists of characters. -/
abbrev JSStr := List Char

/-- Model of `String.prototype.trim`: drop whitespace from both ends. -/
def jsTrim (s : JSStr) : JSStr :=
  ((s.dropWhile Char.isWhitespace).reverse.dropWhile Char.isWhitespace).reverse

/-- Model of `String.prototype.toLowerCase` (ASCII case folding). -/
def jsToLower (s : JSStr) : JSStr := s.map Char.toLower

/-- Prepend a character to the first piece of a split result
(used to build up `jsSplit`). -/
def prependHead (c : Char) : List JSStr → List JSStr
  | [] => [[c]]
  | p :: ps => (c :: p) :: ps

/-- Fuel-driven worker for `jsSplit`.  Each step consumes at least one
character of `s` when `sep` is nonempty, so `fuel = s.length` suffices. -/
def splitGo (sep : JSStr) : Nat → JSStr → List JSStr
  | _, [] => [[]]
  | 0, s => [s]
  | fuel + 1, c :: rest =>
    if sep ≠ [] ∧ sep.isPrefixOf (c :: rest) then
      [] :: splitGo sep fuel ((c :: rest).drop sep.length)
    else
      prependHead c (splitGo sep fuel rest)

/-- Model of `String.prototype.split` with a string separator:
non-overlapping, leftmost-first occurrences.  `"aXbXc".split("X") =
["a","b","c"]`, `"".split("X") = [""]`, `"abc".split("") = ["a","b","c"]`. -/
def jsSplit (sep s : JSStr) : List JSStr :=
  if sep = [] then s.map (fun c => [c]) else splitGo sep s.length s

/-- Number of non-overlapping occurrences of a nonempty token in a string,
counted leftmost-first.  This is the specification-side notion of
"count of occurrences of the placeholder token". -/
def countOccGo (sep : JSStr) : Nat → JSStr → Nat
  | _, [] => 0
  | 0, _ => 0
  | fuel + 1, c :: rest =>
    if sep ≠ [] ∧ sep.isPrefixOf (c :: rest) then
      countOccGo sep fuel ((c :: rest).drop sep.length) + 1
    else
      countOccGo sep fuel rest

/-- Count of non-overlapping occurrences of `sep` in `s`. -/
def countOcc (sep s : JSStr) : Nat := countOccGo sep s.length s

/-- The fixed gap placeholder token `[[]]` of the question templates. -/
def gapToken : JSStr := "[[]]".toList

/-- Gap Parser of the quiz editor
(`Math.max(1, Math.max(0, (q.question_title || "").split("[[]]").length - 1))`).
A template with no placeholder occurrence counts as a single implicit gap. -/
def gapCount (template : JSStr) : Nat :=
  max 1 (max 0 ((jsSplit gapToken template).length - 1))

/-! ### Scoring engine

These functions embed the per-question branches of `getScore` in the
quiz-taking screens, and the helper `isTextAnswerCorrect`.  Option rows carry
the fields of the `options` table; identifiers are `Nat`. -/

/-- Question type tag of a quiz page. -/
inductive TestType where
  | single
  | multiple
  | input
  | select_gaps
deriving DecidableEq, Repr

/-- Theory block type tag. -/
inductive TheoryBlockType where
  | text
  | image
deriving DecidableEq, Repr

/-- Row of the `options` table. -/
structure OptionRow where
  id : Nat
  question_id : Nat
  option_text : JSStr
  is_correct : Bool
  gap_index : Option Nat
deriving DecidableEq, Repr

/-- Normalization applied to text answers before comparison:
`.trim().toLowerCase()`. -/
def normalizeAnswer (s : JSStr) : JSStr := jsToLower (jsTrim s)

/-- Scoring of a `single` question
(`chosen.length === 1 && correctOption && chosen[0] === correctOption.id`
where `correctOption = q.options.find(o => o.is_correct)`). -/
def scoreSingle (options : List OptionRow) (chosen : List Nat) : Bool :=
  match options.find? (fun o => o.is_correct) with
  | some correctOption => chosen.length == 1 && chosen.head? == some correctOption.id
  | none => false

/-- Scoring of a `multiple` question: the sorted list of chosen identifiers is
compared with the sorted list of correct-option identifiers
(`correctIds.length === chosenIds.length && correctIds.every((id, i) => id === chosenIds[i])`). -/
def scoreMultiple (options : List OptionRow) (chosen : List Nat) : Bool :=
  let correctIds := List.insertionSort (fun a b => a ≤ b)
      ((options.filter (fun o => o.is_correct)).map (fun o => o.id))
  let chosenIds := List.insertionSort (fun a b => a ≤ b) chosen
  correctIds.length == chosenIds.length && correctIds == chosenIds

/-- Scoring of an `input` question (`isTextAnswerCorrect` and the `input`
branch of `getScore`): the normalized submission must be nonempty and equal to
one of the nonempty normalized option texts. -/
def isTextAnswerCorrect (options : List OptionRow) (textAnswer : JSStr) : Bool :=
  let user := normalizeAnswer textAnswer
  let correctTexts :=
    (options.map (fun o => normalizeAnswer o.option_text)).filter (fun t => !t.isEmpty)
  !user.isEmpty && !correctTexts.isEmpty && correctTexts.contains user

/-- Two options of one question that are both flagged correct (the editor
normally prevents this for `single` pages, but the model does not forbid it). -/
def twoCorrectOptions : List OptionRow :=
  [⟨1, 10, "London".toList, true, none⟩, ⟨2, 10, "Paris".toList, true, none⟩]

/-- A question with a single correct option, for the `multiple` scoring
counterexample. -/
def oneCorrectOption : List OptionRow :=
  [⟨1, 20, "Paris".toList, true, none⟩]

/-- Accepted answers of a demo `input` question. -/
def parisAnswers : List OptionRow :=
  [⟨1, 30, "Paris".toList, true, some 0⟩, ⟨2, 30, "paris ".toList, true, some 0⟩]

/-! ### External collaborators and the storage-URL path extraction -/

/-- Model of `String.prototype.includes`: scan for an occurrence of the
needle at every position. -/
def jsIncludes (needle : JSStr) : JSStr → Bool
  | [] => needle.isEmpty
  | c :: rest => needle.isPrefixOf (c :: rest) || jsIncludes needle rest

/-- External collaborators of the server actions: the identity provider
(administrator check), the platform URL parser, percent-decoding (which can
fail), and the blob store.  Each fallible external call yields
`none` on success or `some message` on failure. -/
structure Env where
  isAdmin : Bool
  parseUrlPathname : JSStr → Option JSStr
  decodeURIComponent : JSStr → Option JSStr
  storageRemove : List JSStr → Option JSStr
  storageUpload : JSStr → Option JSStr
  publicUrl : JSStr → JSStr
  uuid : JSStr

/-- Storage bucket for quiz theory images. -/
def THEORY_IMAGES_BUCKET : JSStr := "Eanglish".toList

/-- The pathname marker in front of a public object path:
`/storage/v1/object/public/BUCKET/`. -/
def storagePublicMarker (bucket : JSStr) : JSStr :=
  "/storage/v1/object/public/".toList ++ bucket ++ "/".toList

/-- Extract the Storage file path from a public URL
(`getStoragePathFromPublicUrl`): parse the URL (null on failure), require the
bucket marker to occur in the pathname, take the split piece after its first
occurrence, require it nonempty, and percent-decode it (null on a decoding
failure, which the source catches). -/
def getStoragePathFromPublicUrl (env : Env) (url bucket : JSStr) : Option JSStr :=
  let pfx := storagePublicMarker bucket
  match env.parseUrlPathname url with
  | none => none
  | some pathname =>
    if !(jsIncludes pfx pathname) then none
    else
      match (jsSplit pfx pathname).get? 1 with
      | none => none
      | some after => if after.isEmpty then none else env.decodeURIComponent after

/-! ### Data store model

Rows of the five tables; identifiers are natural numbers, freshly allocated
from a counter (`nextId`).  Deleting pages or questions cascades to their
descendants, as in the schema. -/

/-- Row of the `quizzes` table. -/
structure QuizRow where
  id : Nat
  title : JSStr
  description : Option JSStr
  slug : JSStr
deriving DecidableEq, Repr

/-- Row of the `quiz_pages` table. -/
structure PageRow where
  id : Nat
  quiz_id : Nat
  type : TestType
  title : Option JSStr
  order_index : Int
deriving DecidableEq, Repr

/-- Row of the `questions` table. -/
structure QuestionRow where
  id : Nat
  page_id : Nat
  question_title : JSStr
  explanation : Option JSStr
  order_index : Int
deriving DecidableEq, Repr

/-- Row of the `theory_blocks` table. -/
structure TheoryRow where
  id : Nat
  quiz_id : Nat
  type : TheoryBlockType
  content : JSStr
  order_index : Int
deriving DecidableEq, Repr

/-- State of the external data store. -/
structure DB where
  quizzes : List QuizRow
  pages : List PageRow
  questions : List QuestionRow
  options : List OptionRow
  theory_blocks : List TheoryRow
  nextId : Nat
deriving DecidableEq, Repr

/-- Write statements issued against the store (reads are not recorded). -/
inductive Op where
  | updateQuizRow (id : Nat)
  | insertPage (id : Nat)
  | updatePage (id : Nat)
  | deletePages (ids : List Nat)
  | insertQuestion (id : Nat)
  | updateQuestion (id : Nat)
  | deleteQuestions (ids : List Nat)
  | insertOption (id : Nat)
  | updateOption (id : Nat)
  | deleteOptions (ids : List Nat)
  | insertTheoryBlock (id : Nat)
  | updateTheoryBlock (id : Nat)
  | deleteTheoryBlocks (ids : List Nat)
  | storageRemove (paths : List JSStr)
  | storageUpload (path : JSStr)
deriving DecidableEq, Repr

/-- An update statement (as opposed to an insert, a delete or a storage
call). -/
def Op.isUpdate : Op → Bool
  | updateQuizRow _ => true
  | updatePage _ => true
  | updateQuestion _ => true
  | updateOption _ => true
  | updateTheoryBlock _ => true
  | _ => false

/-- Identifiers of the pages of a quiz, in row order. -/
def DB.pageIdsOf (db : DB) (quizId : Nat) : List Nat :=
  (db.pages.filter (fun p => p.quiz_id == quizId)).map (fun p => p.id)

/-- Identifiers of the questions of a page, in row order. -/
def DB.questionIdsOf (db : DB) (pageId : Nat) : List Nat :=
  (db.questions.filter (fun q => q.page_id == pageId)).map (fun q => q.id)

/-- Identifiers of the options of a question, in row order. -/
def DB.optionIdsOf (db : DB) (questionId : Nat) : List Nat :=
  (db.options.filter (fun o => o.question_id == questionId)).map (fun o => o.id)

/-- Theory block rows of a quiz (the reconciler fetches id, type and
content). -/
def DB.theoryRowsOf (db : DB) (quizId : Nat) : List TheoryRow :=
  db.theory_blocks.filter (fun b => b.quiz_id == quizId)

/-- Update of the quiz row (title, description, slug). -/
def DB.writeQuizRow (db : DB) (quizId : Nat) (title : JSStr)
    (description : Option JSStr) (slug : JSStr) : DB :=
  { db with quizzes := db.quizzes.map (fun r =>
      if r.id == quizId then { r with title := title, description := description, slug := slug }
      else r) }

/-- Insert a page row; returns the fresh identifier. -/
def DB.insertPageRow (db : DB) (quizId : Nat) (t : TestType) (title : Option JSStr)
    (oi : Int) : Nat × DB :=
  (db.nextId,
    { db with
        pages := db.pages ++ [PageRow.mk db.nextId quizId t title oi],
        nextId := db.nextId + 1 })

/-- Update a page row in place (type, title, order index). -/
def DB.updatePageRow (db : DB) (pid : Nat) (t : TestType) (title : Option JSStr)
    (oi : Int) : DB :=
  { db with pages := db.pages.map (fun r =>
      if r.id == pid then { r with type := t, title := title, order_index := oi } else r) }

/-- Delete page rows by identifier; cascades to their questions and options. -/
def DB.deletePageRows (db : DB) (pids : List Nat) : DB :=
  let qids := (db.questions.filter (fun q => pids.contains q.page_id)).map (fun q => q.id)
  { db with pages := db.pages.filter (fun p => !(pids.contains p.id)),
            questions := db.questions.filter (fun q => !(pids.contains q.page_id)),
            options := db.options.filter (fun o => !(qids.contains o.question_id)) }

/-- Insert a question row; returns the fresh identifier. -/
def DB.insertQuestionRow (db : DB) (pageId : Nat) (title : JSStr)
    (explanation : Option JSStr) (oi : Int) : Nat × DB :=
  (db.nextId,
    { db with
        questions := db.questions ++ [QuestionRow.mk db.nextId pageId title explanation oi],
        nextId := db.nextId + 1 })

/-- Update a question row in place. -/
def DB.updateQuestionRow (db : DB) (qid : Nat) (title : JSStr)
    (explanation : Option JSStr) (oi : Int) : DB :=
  { db with questions := db.questions.map (fun r =>
      if r.id == qid then { r with question_title := title, explanation := explanation,
                                   order_index := oi } else r) }

/-- Delete question rows by identifier; cascades to their options. -/
def DB.deleteQuestionRows (db : DB) (qids : List Nat) : DB :=
  { db with questions := db.questions.filter (fun q => !(qids.contains q.id)),
            options := db.options.filter (fun o => !(qids.contains o.question_id)) }

/-- Insert an option row; returns the fresh identifier. -/
def DB.insertOptionRow (db : DB) (questionId : Nat) (text : JSStr) (isC : Bool)
    (gap : Option Nat) : Nat × DB :=
  (db.nextId,
    { db with
        options := db.options ++ [OptionRow.mk db.nextId questionId text isC gap],
        nextId := db.nextId + 1 })

/-- Update an option row in place; the gap index column is written only for
gap-based pages. -/
def DB.updateOptionRow (db : DB) (oid : Nat) (text : JSStr) (isC : Bool)
    (setGap : Bool) (gap : Nat) : DB :=
  { db with options := db.options.map (fun r =>
      if r.id == oid then { r with option_text := text, is_correct := isC,
                                   gap_index := if setGap then some gap else r.gap_index }
      else r) }

/-- Delete option rows by identifier. -/
def DB.deleteOptionRows (db : DB) (oids : List Nat) : DB :=
  { db with options := db.options.filter (fun o => !(oids.contains o.id)) }

/-- Insert a theory block row; returns the fresh identifier. -/
def DB.insertTheoryRow (db : DB) (quizId : Nat) (t : TheoryBlockType) (content : JSStr)
    (oi : Int) : Nat × DB :=
  (db.nextId,
    { db with
        theory_blocks := db.theory_blocks ++ [TheoryRow.mk db.nextId quizId t content oi],
        nextId := db.nextId + 1 })

/-- Update a theory block row in place. -/
def DB.updateTheoryRow (db : DB) (bid : Nat) (t : TheoryBlockType) (content : JSStr)
    (oi : Int) : DB :=
  { db with theory_blocks := db.theory_blocks.map (fun r =>
      if r.id == bid then { r with type := t, content := content, order_index := oi } else r) }

/-- Delete theory block rows by identifier (no dependents). -/
def DB.deleteTheoryRows (db : DB) (bids : List Nat) : DB :=
  { db with theory_blocks := db.theory_blocks.filter (fun b => !(bids.contains b.id)) }

/-! ### Reconciler input (the `UpdateQuizInput` shape of the server action) -/

/-- Option of the desired tree. -/
structure OptionInput where
  id : Option Nat
  option_text : JSStr
  is_correct : Bool
  gap_index : Option Nat
deriving DecidableEq, Repr

/-- Question of the desired tree. -/
structure QuestionInput where
  id : Option Nat
  question_title : JSStr
  explanation : Option JSStr
  order_index : Int
  options : List OptionInput
deriving DecidableEq, Repr

/-- Page of the desired tree. -/
structure PageInput where
  id : Option Nat
  type : TestType
  title : Option JSStr
  order_index : Int
  questions : List QuestionInput
deriving DecidableEq, Repr

/-- Theory block of the desired tree. -/
structure TheoryBlockInput where
  id : Option Nat
  type : TheoryBlockType
  content : JSStr
  order_index : Int
deriving DecidableEq, Repr

/-- Full desired tree of `updateQuiz` (`theoryBlocks ?? []` is modelled as a
plain list). -/
structure UpdateQuizInput where
  quizId : Nat
  title : JSStr
  description : JSStr
  slug : JSStr
  pages : List PageInput
  theoryBlocks : List TheoryBlockInput
deriving DecidableEq, Repr

/-- Model of the JavaScript `x || null` coercion on an optional string. -/
def jsOrNull (s : Option JSStr) : Option JSStr :=
  match s with
  | some t => if t = [] then none else some t
  | none => none

/-- Model of `x || null` on a plain string field. -/
def jsStrOrNull (s : JSStr) : Option JSStr :=
  if s = [] then none else some s

/-- Validation message for a choice question without options. -/
def choiceErrMsg : JSStr := "Choice page must have at least one option per question".toList

/-- Unauthorized message of the guarded actions. -/
def unauthorizedMsg : JSStr := "Unauthorized".toList

/-- Kept identifiers of one reconciled question: its identifier and the kept
identifiers of its options, in processing order. -/
structure KeptQuestion where
  qid : Nat
  opts : List Nat
deriving DecidableEq, Repr

/-- Kept identifiers of one reconciled page. -/
structure KeptPage where
  pid : Nat
  questions : List KeptQuestion
deriving DecidableEq, Repr

/-- Kept identifiers of one reconciled quiz tree. -/
structure KeptQuiz where
  pages : List KeptPage
  blocks : List Nat
deriving DecidableEq, Repr

/-- Result of `updateQuiz`: first error (if any), store state after the
partial writes (no rollback), issued write statements in order, and the kept
identifiers. -/
structure UpdateResult where
  err : Option JSStr
  db : DB
  trace : List Op
  kept : KeptQuiz
deriving Repr

/-- The `optionsToSync` list of the source: for `input` pages, options with
blank text are dropped, texts are trimmed, correctness is forced to true and
the gap index is defaulted to 0; for `select_gaps` the submitted correctness
is kept; for choice pages the list is passed through unchanged. -/
def optionsToSyncOf (ptype : TestType) (opts : List OptionInput) : List OptionInput :=
  if ptype == TestType.input then
    (opts.filter (fun o => !(jsTrim o.option_text).isEmpty)).map
      (fun o => { o with option_text := jsTrim o.option_text, is_correct := true,
                         gap_index := some (o.gap_index.getD 0) })
  else if ptype == TestType.select_gaps then
    (opts.filter (fun o => !(jsTrim o.option_text).isEmpty)).map
      (fun o => { o with option_text := jsTrim o.option_text,
                         gap_index := some (o.gap_index.getD 0) })
  else opts

/-- Option loop of `updateQuiz`: update options carrying a known identifier,
insert the others, collect the kept identifiers. -/
def syncOptionsLoop (isInput isGapBased : Bool) (questionId : Nat)
    (existingOptIds : List Nat) :
    List OptionInput → DB → DB × List Op × List Nat
  | [], db => (db, [], [])
  | o :: rest, db =>
    match o.id.bind (fun oid => if existingOptIds.contains oid then some oid else none) with
    | some oid =>
      let db1 := db.updateOptionRow oid o.option_text
        (if isInput then true else o.is_correct) isGapBased (o.gap_index.getD 0)
      let r := syncOptionsLoop isInput isGapBased questionId existingOptIds rest db1
      (r.1, Op.updateOption oid :: r.2.1, oid :: r.2.2)
    | none =>
      let p := db.insertOptionRow questionId o.option_text
        (if isInput then true else o.is_correct)
        (if isGapBased then some (o.gap_index.getD 0) else none)
      let r := syncOptionsLoop isInput isGapBased questionId existingOptIds rest p.2
      (r.1, Op.insertOption p.1 :: r.2.1, p.1 :: r.2.2)

/-- Option phase of one question of `updateQuiz`: fetch existing options,
validate that choice questions keep at least one option (error before any
option write), run the loop, delete the options no longer present.  Returns
the first error, the new store state, the issued statements and the kept
option identifiers. -/
def syncOptions (ptype : TestType) (questionId : Nat) (opts : List OptionInput)
    (db : DB) : Option JSStr × DB × List Op × List Nat :=
  let existingOptIds := db.optionIdsOf questionId
  let isInput := ptype == TestType.input
  let isSelectGaps := ptype == TestType.select_gaps
  let isGapBased := isInput || isSelectGaps
  let optionsToSync := optionsToSyncOf ptype opts
  if !isGapBased && optionsToSync.length == 0 then
    (some choiceErrMsg, db, [], [])
  else
    let r := syncOptionsLoop isInput isGapBased questionId existingOptIds optionsToSync db
    let toDel := existingOptIds.filter (fun x => !(r.2.2.contains x))
    if toDel.length != 0 then
      (none, r.1.deleteOptionRows toDel, r.2.1 ++ [Op.deleteOptions toDel], r.2.2)
    else
      (none, r.1, r.2.1, r.2.2)

/-- Question loop of one page of `updateQuiz`. -/
def syncQuestionsLoop (ptype : TestType) (pageId : Nat) (existingQuestionIds : List Nat) :
    List QuestionInput → DB → Option JSStr × DB × List Op × List KeptQuestion
  | [], db => (none, db, [], [])
  | q :: rest, db =>
    let step : Nat × DB × Op :=
      match q.id.bind (fun qid => if existingQuestionIds.contains qid then some qid else none) with
      | some qid =>
        (qid, db.updateQuestionRow qid q.question_title (jsOrNull q.explanation) q.order_index,
          Op.updateQuestion qid)
      | none =>
        let r := db.insertQuestionRow pageId q.question_title (jsOrNull q.explanation) q.order_index
        (r.1, r.2, Op.insertQuestion r.1)
    match syncOptions ptype step.1 q.options step.2.1 with
    | (some e, db2, ops2, _) => (some e, db2, step.2.2 :: ops2, [])
    | (none, db2, ops2, keptOpts) =>
      let r := syncQuestionsLoop ptype pageId existingQuestionIds rest db2
      (r.1, r.2.1, step.2.2 :: ops2 ++ r.2.2.1, ⟨step.1, keptOpts⟩ :: r.2.2.2)

/-- Question phase of one page of `updateQuiz`: run the loop, then delete the
questions no longer present (cascading to their options). -/
def syncQuestions (ptype : TestType) (pageId : Nat) (qs : List QuestionInput)
    (db : DB) : Option JSStr × DB × List Op × List KeptQuestion :=
  let existingQuestionIds := db.questionIdsOf pageId
  match syncQuestionsLoop ptype pageId existingQuestionIds qs db with
  | (some e, db1, ops1, kept) => (some e, db1, ops1, kept)
  | (none, db1, ops1, kept) =>
    let keptIds := kept.map (fun k => k.qid)
    let toDelQ := existingQuestionIds.filter (fun x => !(keptIds.contains x))
    if toDelQ.length != 0 then
      (none, db1.deleteQuestionRows toDelQ, ops1 ++ [Op.deleteQuestions toDelQ], kept)
    else
      (none, db1, ops1, kept)

/-- Page loop of `updateQuiz`. -/
def syncPagesLoop (quizId : Nat) (existingPageIds : List Nat) :
    List PageInput → DB → Option JSStr × DB × List Op × List KeptPage
  | [], db => (none, db, [], [])
  | p :: rest, db =>
    let step : Nat × DB × Op :=
      match p.id.bind (fun pid => if existingPageIds.contains pid then some pid else none) with
      | some pid =>
        (pid, db.updatePageRow pid p.type (jsOrNull p.title) p.order_index,
          Op.updatePage pid)
      | none =>
        let r := db.insertPageRow quizId p.type (jsOrNull p.title) p.order_index
        (r.1, r.2, Op.insertPage r.1)
    match syncQuestions p.type step.1 p.questions step.2.1 with
    | (some e, db2, ops2, _) => (some e, db2, step.2.2 :: ops2, [])
    | (none, db2, ops2, keptQs) =>
      let r := syncPagesLoop quizId existingPageIds rest db2
      (r.1, r.2.1, step.2.2 :: ops2 ++ r.2.2.1, ⟨step.1, keptQs⟩ :: r.2.2.2)

/-- Theory block loop of `updateQuiz` (`(b.content ?? "").trim() || " "`
normalizes the stored content; blocks carrying a known identifier are updated,
the others inserted). -/
def syncTheoryLoop (quizId : Nat) (existingBlockIds : List Nat) :
    List TheoryBlockInput → DB → DB × List Op × List Nat
  | [], db => (db, [], [])
  | b :: rest, db =>
    let content := if (jsTrim b.content).isEmpty then " ".toList else jsTrim b.content
    match b.id.bind (fun bid => if existingBlockIds.contains bid then some bid else none) with
    | some bid =>
      let r := syncTheoryLoop quizId existingBlockIds rest
        (db.updateTheoryRow bid b.type content b.order_index)
      (r.1, Op.updateTheoryBlock bid :: r.2.1, bid :: r.2.2)
    | none =>
      let p := db.insertTheoryRow quizId b.type content b.order_index
      let r := syncTheoryLoop quizId existingBlockIds rest p.2
      (r.1, Op.insertTheoryBlock p.1 :: r.2.1, p.1 :: r.2.2)

/-- The server action `updateQuiz`: update the quiz row, reconcile pages,
questions and options by identifier, delete what is no longer present, then
reconcile theory blocks; dropped image blocks also get their stored asset
removed (a storage failure aborts before the rows are deleted).  Writes are
applied independently; the first failure is returned without rollback. -/
def updateQuiz (env : Env) (data : UpdateQuizInput) (db : DB) : UpdateResult :=
  let db0 := db.writeQuizRow data.quizId data.title (jsStrOrNull data.description)
    (jsTrim data.slug)
  let existingPageIds := db0.pageIdsOf data.quizId
  match syncPagesLoop data.quizId existingPageIds data.pages db0 with
  | (some e, db1, ops1, keptP) =>
    ⟨some e, db1, Op.updateQuizRow data.quizId :: ops1, ⟨keptP, []⟩⟩
  | (none, db1, ops1, keptP) =>
    let tr1 := Op.updateQuizRow data.quizId :: ops1
    let keptPageIds := keptP.map (fun k => k.pid)
    let toDelP := existingPageIds.filter (fun x => !(keptPageIds.contains x))
    let db2 := if toDelP.length != 0 then db1.deletePageRows toDelP else db1
    let tr2 := if toDelP.length != 0 then tr1 ++ [Op.deletePages toDelP] else tr1
    let existingBlocks := db2.theoryRowsOf data.quizId
    let existingBlockIds := existingBlocks.map (fun b => b.id)
    let r3 := syncTheoryLoop data.quizId existingBlockIds data.theoryBlocks db2
    let tr3 := tr2 ++ r3.2.1
    let toDelB := existingBlocks.filter (fun x => !(r3.2.2.contains x.id))
    if toDelB.length != 0 then
      let pathsToRemove := toDelB.filterMap (fun b =>
        if b.type == TheoryBlockType.image && !b.content.isEmpty then
          getStoragePathFromPublicUrl env b.content THEORY_IMAGES_BUCKET
        else none)
      if pathsToRemove.length != 0 then
        match env.storageRemove pathsToRemove with
        | some e => ⟨some e, r3.1, tr3 ++ [Op.storageRemove pathsToRemove], ⟨keptP, r3.2.2⟩⟩
        | none =>
          ⟨none, (r3.1.deleteTheoryRows (toDelB.map (fun x => x.id))),
            tr3 ++ [Op.storageRemove pathsToRemove,
              Op.deleteTheoryBlocks (toDelB.map (fun x => x.id))], ⟨keptP, r3.2.2⟩⟩
      else
        ⟨none, (r3.1.deleteTheoryRows (toDelB.map (fun x => x.id))),
          tr3 ++ [Op.deleteTheoryBlocks (toDelB.map (fun x => x.id))], ⟨keptP, r3.2.2⟩⟩
    else ⟨none, r3.1, tr3, ⟨keptP, r3.2.2⟩⟩

/-! ### The guarded delete and upload actions -/

/-- The server action `deleteTheoryBlock`: admin check, fetch the block
(`Block not found` when absent), remove the stored image asset first (a
storage failure aborts and is reported, leaving the row in place), then delete
the row. -/
def deleteTheoryBlock (env : Env) (blockId : Nat) (db : DB) :
    Option JSStr × DB × List Op :=
  if !env.isAdmin then (some unauthorizedMsg, db, [])
  else
    match db.theory_blocks.find? (fun b => b.id == blockId) with
    | none => (some "Block not found".toList, db, [])
    | some block =>
      let removal : Option JSStr × List Op :=
        if block.type == TheoryBlockType.image && !block.content.isEmpty then
          match getStoragePathFromPublicUrl env block.content THEORY_IMAGES_BUCKET with
          | some path =>
            match env.storageRemove [path] with
            | some e => (some e, [Op.storageRemove [path]])
            | none => (none, [Op.storageRemove [path]])
          | none => (none, [])
        else (none, [])
      match removal with
      | (some e, ops) => (some e, db, ops)
      | (none, ops) =>
        (none, db.deleteTheoryRows [blockId], ops ++ [Op.deleteTheoryBlocks [blockId]])

/-- The server action `deleteQuizPage` (cascade deletes questions and
options). -/
def deleteQuizPage (env : Env) (pageId : Nat) (db : DB) :
    Option JSStr × DB × List Op :=
  if !env.isAdmin then (some unauthorizedMsg, db, [])
  else (none, db.deletePageRows [pageId], [Op.deletePages [pageId]])

/-- The server action `deleteQuestion` (cascade deletes options). -/
def deleteQuestion (env : Env) (questionId : Nat) (db : DB) :
    Option JSStr × DB × List Op :=
  if !env.isAdmin then (some unauthorizedMsg, db, [])
  else (none, db.deleteQuestionRows [questionId], [Op.deleteQuestions [questionId]])

/-- The server action `deleteOption`. -/
def deleteOption (env : Env) (optionId : Nat) (db : DB) :
    Option JSStr × DB × List Op :=
  if !env.isAdmin then (some unauthorizedMsg, db, [])
  else (none, db.deleteOptionRows [optionId], [Op.deleteOptions [optionId]])

/-- Uploaded file handed to `uploadTheoryImage` through the form data. -/
structure UploadFile where
  name : JSStr
  mime : JSStr
  size : Nat
deriving DecidableEq, Repr

/-- Form data of `uploadTheoryImage`. -/
structure UploadForm where
  file : Option UploadFile
  quizId : Option JSStr
deriving DecidableEq, Repr

/-- Allowed MIME types of theory images. -/
def allowedMimes : List JSStr :=
  ["image/jpeg".toList, "image/png".toList, "image/gif".toList, "image/webp".toList]

/-- Characters kept untouched by the file name sanitizer
(`[^a-zA-Z0-9._-]` replaced by an underscore). -/
def isSafeNameChar (c : Char) : Bool :=
  (('a' ≤ c && c ≤ 'z') || ('A' ≤ c && c ≤ 'Z') || ('0' ≤ c && c ≤ '9')
    || c == '.' || c == '_' || c == '-')

/-- Extension of the sanitized name: from the last dot when present,
".jpg" otherwise. -/
def extOf (safeName : JSStr) : JSStr :=
  if safeName.contains '.' then
    '.' :: ((safeName.reverse.takeWhile (fun c => c != '.')).reverse)
  else ".jpg".toList

/-- The server action `uploadTheoryImage`: admin check, file presence and MIME
validation, then a storage upload under `theory/QUIZ/UUID.EXT` and the public
URL of the new path.  Returns (error?, url?, issued statements). -/
def uploadTheoryImage (env : Env) (fd : UploadForm) :
    Option JSStr × Option JSStr × List Op :=
  if !env.isAdmin then (some unauthorizedMsg, none, [])
  else
    match fd.file with
    | none => (some "No file provided".toList, none, [])
    | some f =>
      if f.size == 0 then (some "No file provided".toList, none, [])
      else if !(allowedMimes.contains f.mime) then
        (some "Allowed types: JPEG, PNG, GIF, WebP".toList, none, [])
      else
        let quizId := match fd.quizId with
          | some q => if (jsTrim q).isEmpty then "draft".toList else jsTrim q
          | none => "draft".toList
        let sanitized := (f.name.map (fun c => if isSafeNameChar c then c else '_')).take 80
        let safeName := if sanitized.isEmpty then "image".toList else sanitized
        let path := "theory/".toList ++ quizId ++ "/".toList ++ env.uuid ++ extOf safeName
        match env.storageUpload path with
        | some e => (some e, none, [Op.storageUpload path])
        | none => (none, some (env.publicUrl path), [Op.storageUpload path])

/-! ### Well-formedness, input distinctness and canonical re-submission -/

/-- Well-formed store: identifiers are unique per table and below the
allocation counter. -/
def DB.wf (db : DB) : Prop :=
  (db.pages.map (fun p => p.id)).Nodup ∧
  (db.questions.map (fun q => q.id)).Nodup ∧
  (db.options.map (fun o => o.id)).Nodup ∧
  (db.theory_blocks.map (fun b => b.id)).Nodup ∧
  (∀ r ∈ db.pages, r.id < db.nextId) ∧
  (∀ r ∈ db.questions, r.id < db.nextId) ∧
  (∀ r ∈ db.options, r.id < db.nextId) ∧
  (∀ r ∈ db.theory_blocks, r.id < db.nextId)

instance (db : DB) : Decidable db.wf := by
  unfold DB.wf
  infer_instance

/-- Identifiers carried by a list of desired entities. -/
def carriedIds {α : Type} (getId : α → Option Nat) (l : List α) : List Nat :=
  l.filterMap getId

/-- The desired tree is a tree: within every sibling group, the carried
identifiers are pairwise distinct. -/
def UpdateQuizInput.wf (data : UpdateQuizInput) : Prop :=
  (carriedIds (fun p => p.id) data.pages).Nodup ∧
  (∀ p ∈ data.pages, (carriedIds (fun q => q.id) p.questions).Nodup) ∧
  (∀ p ∈ data.pages, ∀ q ∈ p.questions, (carriedIds (fun o => o.id) q.options).Nodup) ∧
  (carriedIds (fun b => b.id) data.theoryBlocks).Nodup

instance (data : UpdateQuizInput) : Decidable data.wf := by
  unfold UpdateQuizInput.wf
  infer_instance

/-- Attach a kept identifier to a desired option. -/
def setOptionId (o : OptionInput) (k : Nat) : OptionInput := { o with id := some k }

/-- Canonical re-submission of a question's options: the options that were
synced (for gap-based pages, those with non-blank text) now carry the kept
identifiers. -/
def canonOptions (ptype : TestType) (opts : List OptionInput) (ks : List Nat) :
    List OptionInput :=
  if ptype == TestType.input || ptype == TestType.select_gaps then
    List.zipWith setOptionId (opts.filter (fun o => !(jsTrim o.option_text).isEmpty)) ks
  else
    List.zipWith setOptionId opts ks

/-- Canonical re-submission of a question. -/
def canonQuestion (ptype : TestType) (q : QuestionInput) (k : KeptQuestion) : QuestionInput :=
  { q with id := some k.qid, options := canonOptions ptype q.options k.opts }

/-- Canonical re-submission of a page. -/
def canonPage (p : PageInput) (k : KeptPage) : PageInput :=
  { p with id := some k.pid,
           questions := List.zipWith (canonQuestion p.type) p.questions k.questions }

/-- Attach a kept identifier to a desired theory block. -/
def setBlockId (b : TheoryBlockInput) (k : Nat) : TheoryBlockInput := { b with id := some k }

/-- Canonical re-submission of the whole desired tree, carrying the
identifiers kept or produced by a previous `updateQuiz` call. -/
def canonInput (data : UpdateQuizInput) (k : KeptQuiz) : UpdateQuizInput :=
  { data with pages := List.zipWith canonPage data.pages k.pages,
              theoryBlocks := List.zipWith setBlockId data.theoryBlocks k.blocks }

/-- The two fetch-relevant tables agree between two store states: every
parent sees the same child identifier lists.  Pure-update runs preserve
this relation. -/
def FetchEq (db db' : DB) : Prop :=
  (∀ z, db'.pageIdsOf z = db.pageIdsOf z) ∧
  (∀ z, db'.questionIdsOf z = db.questionIdsOf z) ∧
  (∀ z, db'.optionIdsOf z = db.optionIdsOf z) ∧
  (∀ z, (db'.theoryRowsOf z).map (fun r => r.id) = (db.theoryRowsOf z).map (fun r => r.id))

/-- Gap-based page type (options are filtered and stamped with gap indexes). -/
def gapBased (ptype : TestType) : Bool :=
  ptype == TestType.input || ptype == TestType.select_gaps

/-- The synced options of a question all carry identifiers of existing options
of `qid`, every existing option of `qid` is carried, and a choice question
keeps at least one option. -/
def OptsAligned (ptype : TestType) (opts : List OptionInput) (db : DB) (qid : Nat) : Prop :=
  (∀ o ∈ optionsToSyncOf ptype opts, ∃ k, o.id = some k ∧ k ∈ db.optionIdsOf qid) ∧
  (∀ x ∈ db.optionIdsOf qid, ∃ o ∈ optionsToSyncOf ptype opts, o.id = some x) ∧
  (gapBased ptype = false → optionsToSyncOf ptype opts ≠ [])

/-- A desired question carries the identifier of an existing question of the
page and its options are aligned. -/
def QAligned (ptype : TestType) (pid : Nat) (q : QuestionInput) (db : DB) : Prop :=
  ∃ qid, q.id = some qid ∧ qid ∈ db.questionIdsOf pid ∧
    OptsAligned ptype q.options db qid

/-- A desired page carries the identifier of an existing page of the quiz, its
questions are aligned, and every existing question of the page is carried. -/
def PageAligned (quizId : Nat) (p : PageInput) (db : DB) : Prop :=
  ∃ pid, p.id = some pid ∧ pid ∈ db.pageIdsOf quizId ∧
    (∀ q ∈ p.questions, QAligned p.type pid q db) ∧
    (∀ x ∈ db.questionIdsOf pid, ∃ q ∈ p.questions, q.id = some x)

/-- The whole desired tree re-submits exactly the persisted tree's
identifiers: every entity carries an existing identifier and every existing
identifier is carried. -/
def InputAligned (data : UpdateQuizInput) (db : DB) : Prop :=
  (∀ p ∈ data.pages, PageAligned data.quizId p db) ∧
  (∀ x ∈ db.pageIdsOf data.quizId, ∃ p ∈ data.pages, p.id = some x) ∧
  (∀ b ∈ data.theoryBlocks,
    ∃ k, b.id = some k ∧ k ∈ (db.theoryRowsOf data.quizId).map (fun r => r.id)) ∧
  (∀ x ∈ (db.theoryRowsOf data.quizId).map (fun r => r.id),
    ∃ b ∈ data.theoryBlocks, b.id = some x)

/-- Option-level write statement. -/
def Op.isOptionOp : Op → Bool
  | insertOption _ => true
  | updateOption _ => true
  | deleteOptions _ => true
  | _ => false

/-- Question-level write statement (a question write or one of its options'
writes). -/
def Op.isQuestionLevelOp : Op → Bool
  | insertQuestion _ => true
  | updateQuestion _ => true
  | deleteQuestions _ => true
  | insertOption _ => true
  | updateOption _ => true
  | deleteOptions _ => true
  | _ => false

/-- Page-level write statement (page, question or option writes, but no quiz
row, theory block or storage statements). -/
def Op.isPageLevelOp : Op → Bool
  | insertPage _ => true
  | updatePage _ => true
  | deletePages _ => true
  | insertQuestion _ => true
  | updateQuestion _ => true
  | deleteQuestions _ => true
  | insertOption _ => true
  | updateOption _ => true
  | deleteOptions _ => true
  | _ => false

/-- Invariant produced by reconciling one question: the kept option
identifiers are exactly the question's options in the store, they are as many
as the synced options, a choice question kept at least one, and all involved
identifiers are below the allocation counter. -/
def KeptQOk (ptype : TestType) (db : DB) (q : QuestionInput) (k : KeptQuestion) : Prop :=
  (∀ x, x ∈ db.optionIdsOf k.qid ↔ x ∈ k.opts) ∧
  k.opts.length = (optionsToSyncOf ptype q.options).length ∧
  (gapBased ptype = false → k.opts ≠ []) ∧
  k.qid < db.nextId ∧ (∀ x ∈ k.opts, x < db.nextId)

/-- Invariant produced by reconciling one page. -/
def KeptPOk (quizId : Nat) (db : DB) (p : PageInput) (k : KeptPage) : Prop :=
  k.pid ∈ db.pageIdsOf quizId ∧ k.pid < db.nextId ∧
  (∀ x, x ∈ db.questionIdsOf k.pid ↔ ∃ kq ∈ k.questions, x = kq.qid) ∧
  List.Forall₂ (KeptQOk p.type db) p.questions k.questions

/-- Invariant produced by a successful `updateQuiz` run: the kept identifier
tree describes exactly the resulting persisted tree. -/
def KeptOk (data : UpdateQuizInput) (db : DB) (k : KeptQuiz) : Prop :=
  (∀ x, x ∈ db.pageIdsOf data.quizId ↔ ∃ kp ∈ k.pages, x = kp.pid) ∧
  List.Forall₂ (KeptPOk data.quizId db) data.pages k.pages ∧
  (∀ x, x ∈ (db.theoryRowsOf data.quizId).map (fun r => r.id) ↔ x ∈ k.blocks) ∧
  k.blocks.length = data.theoryBlocks.length

/-! ### Demo data for concrete runs -/

/-- Benign environment: administrator, storage always succeeds, URL parsing
disabled. -/
def demoEnv : Env :=
  ⟨true, fun _ => none, fun s => some s, fun _ => none, fun _ => none, fun s => s,
    "uuid".toList⟩

/-- Environment of a caller who is not an administrator. -/
def nonAdminEnv : Env :=
  ⟨false, fun _ => none, fun s => some s, fun _ => none, fun _ => none, fun s => s,
    "uuid".toList⟩

/-- Store holding a single quiz row with identifier 7 and no children. -/
def demoDb : DB := ⟨[⟨7, "old".toList, none, "s".toList⟩], [], [], [], [], 100⟩

/-- Desired tree: one fresh `single` page with one fresh question and one
fresh option. -/
def demoData : UpdateQuizInput :=
  UpdateQuizInput.mk 7 "t".toList [] "s".toList
    [PageInput.mk none TestType.single none 0
      [QuestionInput.mk none "q".toList none 0
        [OptionInput.mk none "o".toList true none]]]
    []

/-- Desired tree variant whose only (choice) question has zero options. -/
def demoBadData : UpdateQuizInput :=
  UpdateQuizInput.mk 7 "t".toList [] "s".toList
    [PageInput.mk none TestType.single none 0
      [QuestionInput.mk none "q".toList none 0 []]]
    []

/-- Store with two pages of quiz 7; the second page owns a question and an
option. -/
def twoPageDb : DB :=
  ⟨[⟨7, "t".toList, none, "s".toList⟩],
    [⟨1, 7, TestType.single, none, 0⟩, ⟨2, 7, TestType.single, none, 1⟩],
    [⟨3, 2, "qq".toList, none, 0⟩], [⟨4, 3, "oo".toList, true, none⟩], [], 100⟩

/-- Desired tree retaining only page 1 of `twoPageDb` (by its identifier). -/
def keepPage1Data : UpdateQuizInput :=
  UpdateQuizInput.mk 7 "t".toList [] "s".toList
    [PageInput.mk (some 1) TestType.single none 0
      [QuestionInput.mk none "q".toList none 0
        [OptionInput.mk none "o".toList true none]]]
    []

/-- Store holding one image theory block (id 5) of quiz 7 whose content is a
public storage URL. -/
def imageBlockDb : DB :=
  ⟨[], [], [], [],
    [⟨5, 7, TheoryBlockType.image,
      "https://h/storage/v1/object/public/Eanglish/pic.png".toList, 0⟩], 10⟩

/-- Environment whose URL parser returns the pathname of the image block URL
and whose storage removal fails. -/
def storageFailEnv : Env :=
  ⟨true, fun _ => some "/storage/v1/object/public/Eanglish/pic.png".toList,
    fun s => some s, fun _ => some "storage down".toList, fun _ => none,
    fun s => s, "uuid".toList⟩

/-- Same as `storageFailEnv` but storage removal succeeds. -/
def storageOkEnv : Env :=
  ⟨true, fun _ => some "/storage/v1/object/public/Eanglish/pic.png".toList,
    fun s => some s, fun _ => none, fun _ => none, fun s => s, "uuid".toList⟩

/-- Desired tree consisting of one fresh `single` page with one fresh
question without options, with arbitrary scalar fields (used to state where
the zero-option validation fires). -/
def singleEmptyQuestionInput (quizId : Nat) (title descr slug : JSStr)
    (ptitle : Option JSStr) (poi : Int) (qtitle : JSStr) (expl : Option JSStr)
    (qoi : Int) : UpdateQuizInput :=
  UpdateQuizInput.mk quizId title descr slug
    [PageInput.mk none TestType.single ptitle poi
      [QuestionInput.mk none qtitle expl qoi []]]
    []

/-! ### Basic list lemmas -/

theorem contains_iff_mem (l : List Nat) (x : Nat) : l.contains x = true ↔ x ∈ l :=
  List.elem_iff

theorem length_one_head?_iff {α : Type} (l : List α) (x : α) :
    l.length = 1 ∧ l.head? = some x ↔ l = [x] := by
  cases l with
  | nil => simp
  | cons c t => cases t <;> simp [eq_comm]

theorem splitGo_ne_nil (sep : JSStr) :
    ∀ fuel s, splitGo sep fuel s ≠ [] := by
  intro fuel
  induction fuel with
  | zero => intro s; cases s <;> simp [splitGo]
  | succ n ih =>
    intro s
    cases s with
    | nil => simp [splitGo]
    | cons c rest =>
      by_cases h : sep ≠ [] ∧ sep.isPrefixOf (c :: rest)
      · simp [splitGo, h]
      · simp only [splitGo, if_neg h]
        cases hx : splitGo sep n rest with
        | nil => exact absurd hx (ih rest)
        | cons a b => simp [prependHead]

theorem splitGo_length_eq_countOccGo (sep : JSStr) :
    ∀ fuel s, (splitGo sep fuel s).length = countOccGo sep fuel s + 1 := by
  intro fuel
  induction fuel with
  | zero => intro s; cases s <;> simp [splitGo, countOccGo]
  | succ n ih =>
    intro s
    cases s with
    | nil => simp [splitGo, countOccGo]
    | cons c rest =>
      by_cases h : sep ≠ [] ∧ sep.isPrefixOf (c :: rest)
      · simp [splitGo, countOccGo, h, ih]
      · simp only [splitGo, countOccGo, if_neg h]
        cases hx : splitGo sep n rest with
        | nil => exact absurd hx (splitGo_ne_nil sep n rest)
        | cons a b =>
          have hlen := ih rest
          rw [hx] at hlen
          simp only [prependHead, List.length_cons] at hlen ⊢
          exact hlen

theorem intercalate_cons₂ (sep x y : JSStr) (zs : List JSStr) :
    List.intercalate sep (x :: y :: zs) = x ++ sep ++ List.intercalate sep (y :: zs) := by
  simp [List.intercalate, List.intersperse]

theorem intercalate_prependHead (sep : JSStr) (c : Char) (parts : List JSStr)
    (h : parts ≠ []) :
    List.intercalate sep (prependHead c parts) = c :: List.intercalate sep parts := by
  cases parts with
  | nil => exact absurd rfl h
  | cons p ps =>
    cases ps with
    | nil => simp [prependHead, List.intercalate]
    | cons q qs =>
      rw [prependHead, intercalate_cons₂, intercalate_cons₂]
      simp

theorem isPrefixOf_append_drop (l s : JSStr) (h : l.isPrefixOf s) :
    l ++ s.drop l.length = s := by
  have h2 := List.prefix_iff_eq_take.mp (List.isPrefixOf_iff_prefix.mp h)
  conv_rhs => rw [← List.take_append_drop l.length s]
  rw [← h2]

theorem intercalate_splitGo (sep : JSStr) :
    ∀ fuel s, List.intercalate sep (splitGo sep fuel s) = s := by
  intro fuel
  induction fuel with
  | zero =>
    intro s
    cases s <;> simp [splitGo, List.intercalate]
  | succ n ih =>
    intro s
    cases s with
    | nil => simp [splitGo, List.intercalate]
    | cons c rest =>
      by_cases h : sep ≠ [] ∧ sep.isPrefixOf (c :: rest)
      · simp only [splitGo, if_pos h]
        cases hx : splitGo sep n ((c :: rest).drop sep.length) with
        | nil => exact absurd hx (splitGo_ne_nil sep n _)
        | cons p ps =>
          rw [intercalate_cons₂]
          have hr := ih ((c :: rest).drop sep.length)
          rw [hx] at hr
          rw [hr]
          simpa using isPrefixOf_append_drop sep (c :: rest) h.2
      · simp only [splitGo, if_neg h]
        rw [intercalate_prependHead sep c _ (splitGo_ne_nil sep n rest)]
        rw [ih rest]

/-! ### Claims about the scoring engine and the gap parser -/

/-- C1 counterexample: with two options flagged correct, submitting exactly the
identifier of the first flagged option scores the question as correct, while
the claim demands that a question with more than one flagged option be treated
as incorrect. -/
theorem scoreSingle_two_correct_counterexample :
    (twoCorrectOptions.filter (fun o => o.is_correct)).length = 2 ∧
      scoreSingle twoCorrectOptions [1] = true := by
  decide

/-- C1 (amended): a `single` question is scored correct iff the submission is
exactly one identifier and it equals the identifier of the first option (in
list order) flagged correct; in particular with zero flagged options the
result is always incorrect, and with a unique flagged option this is the
behavior the claim describes.  Scoring is a total function (never throws). -/
theorem scoreSingle_spec (options : List OptionRow) (chosen : List Nat) :
    scoreSingle options chosen = true ↔
      ∃ co, options.find? (fun o => o.is_correct) = some co ∧ chosen = [co.id] := by
  unfold scoreSingle
  cases h : options.find? (fun o => o.is_correct) with
  | none => simp
  | some co =>
    simp only [Bool.and_eq_true, beq_iff_eq, Option.some.injEq]
    constructor
    · intro hb
      exact ⟨co, rfl, (length_one_head?_iff chosen co.id).mp hb⟩
    · rintro ⟨co2, rfl, rfl⟩
      simp

/-- C2 counterexample: the submissions `[1]` and `[1, 1]` denote the same set
of identifiers, yet the first is scored correct and the second incorrect —
duplicate submitted identifiers are not irrelevant. -/
theorem scoreMultiple_duplicates_counterexample :
    scoreMultiple oneCorrectOption [1] = true ∧
      scoreMultiple oneCorrectOption [1, 1] = false := by
  decide

/-- C2 (amended): a `multiple` question is scored correct iff the submitted
list of identifiers is a permutation of the list of identifiers of the options
flagged correct (equal as multisets): order of submission is irrelevant, but
duplicate submitted identifiers are counted.  For duplicate-free submissions
this coincides with set equality. -/
theorem scoreMultiple_spec (options : List OptionRow) (chosen : List Nat) :
    scoreMultiple options chosen = true ↔
      chosen.Perm ((options.filter (fun o => o.is_correct)).map (fun o => o.id)) := by
  unfold scoreMultiple
  simp only [Bool.and_eq_true, beq_iff_eq]
  constructor
  · rintro ⟨-, hsort⟩
    have h1 : chosen.Perm (List.insertionSort (fun a b => a ≤ b) chosen) :=
      (List.perm_insertionSort _ chosen).symm
    rw [← hsort] at h1
    exact h1.trans (List.perm_insertionSort _ _)
  · intro hperm
    have hsorted1 := List.sorted_insertionSort (fun a b => a ≤ b)
      ((options.filter (fun o => o.is_correct)).map (fun o => o.id))
    have hsorted2 := List.sorted_insertionSort (fun a b => a ≤ b) chosen
    have hp : (List.insertionSort (fun a b => a ≤ b)
        ((options.filter (fun o => o.is_correct)).map (fun o => o.id))).Perm
        (List.insertionSort (fun a b => a ≤ b) chosen) :=
      (List.perm_insertionSort _ _).trans
        (hperm.symm.trans (List.perm_insertionSort _ chosen).symm)
    have heq := List.eq_of_perm_of_sorted hp hsorted1 hsorted2
    exact ⟨by rw [heq], heq⟩

/-- C3: an `input` submission is scored correct iff its trimmed, case-folded
text is nonempty and equals the trimmed, case-folded text of at least one of
the question's options (such an option text is then itself nonempty after
normalization, so empty accepted answers never match); an empty or
whitespace-only submission never scores correct; a question with zero options
always scores incorrect. -/
theorem isTextAnswerCorrect_spec (options : List OptionRow) (textAnswer : JSStr) :
    (isTextAnswerCorrect options textAnswer = true ↔
      normalizeAnswer textAnswer ≠ [] ∧
        ∃ o ∈ options, normalizeAnswer o.option_text = normalizeAnswer textAnswer) ∧
    (normalizeAnswer textAnswer = [] → isTextAnswerCorrect options textAnswer = false) ∧
    isTextAnswerCorrect [] textAnswer = false := by
  have main : isTextAnswerCorrect options textAnswer = true ↔
      normalizeAnswer textAnswer ≠ [] ∧
        ∃ o ∈ options, normalizeAnswer o.option_text = normalizeAnswer textAnswer := by
    unfold isTextAnswerCorrect
    simp only [Bool.and_eq_true, Bool.not_eq_true', List.isEmpty_eq_false,
      List.isEmpty_iff, List.elem_iff, List.mem_filter, List.mem_map]
    constructor
    · rintro ⟨⟨hu, -⟩, hex, -⟩
      exact ⟨hu, hex⟩
    · rintro ⟨hu, o, ho, heq⟩
      have hmem : normalizeAnswer textAnswer ∈
          (options.map (fun o => normalizeAnswer o.option_text)).filter
            (fun t => !t.isEmpty) := by
        refine List.mem_filter.mpr ⟨List.mem_map.mpr ⟨o, ho, heq⟩, ?_⟩
        simp [List.isEmpty_iff, hu]
      exact ⟨⟨hu, List.ne_nil_of_mem hmem⟩, ⟨o, ho, heq⟩, hu⟩
  refine ⟨main, ?_, ?_⟩
  · intro h
    cases hb : isTextAnswerCorrect options textAnswer
    · rfl
    · exact absurd (main.mp hb).1 (not_not_intro h)
  · cases hb : isTextAnswerCorrect [] textAnswer
    · rfl
    · exfalso
      unfold isTextAnswerCorrect at hb
      simp at hb

/-- C3 witness: the accepted answers ["Paris", "paris "] make the submissions
"PARIS" and "  Paris  " correct, while a whitespace-only submission is not. -/
theorem isTextAnswerCorrect_spec_witness :
    isTextAnswerCorrect parisAnswers "   ".toList = false :=
  (isTextAnswerCorrect_spec parisAnswers ("   ".toList)).2.1 (by decide)

/-- C8: the gap count of a question template is the number of non-overlapping
occurrences of the placeholder token "[[]]", except that a template with zero
occurrences is treated as having exactly one gap; in particular a template
containing the token twice yields gap count 2. -/
theorem gapCount_spec (template : JSStr) :
    gapCount template = max 1 (countOcc gapToken template) ∧
      gapCount ("He ".toList ++ gapToken ++ " to school ".toList ++ gapToken ++
        " day.".toList) = 2 := by
  constructor
  · unfold gapCount jsSplit countOcc
    have htok : gapToken ≠ [] := by decide
    rw [if_neg htok]
    rw [splitGo_length_eq_countOccGo]
    omega
  · decide

/-- C10: `getStoragePathFromPublicUrl` is total — it returns `none` (never
throwing) when the URL does not parse, when the parsed pathname does not
contain the `/storage/v1/object/public/BUCKET/` marker, or when the split
piece after the marker is empty; otherwise it returns the percent-decoding of
a nonempty piece of the pathname that directly follows an occurrence of the
marker (percent-decoding failures are also caught and yield `none`). -/
theorem getStoragePathFromPublicUrl_spec (env : Env) (url bucket : JSStr) :
    (getStoragePathFromPublicUrl env url bucket = none ∨
      ∃ pathname pre after post,
        env.parseUrlPathname url = some pathname ∧
        pathname = pre ++ storagePublicMarker bucket ++ after ++ post ∧
        after ≠ [] ∧
        getStoragePathFromPublicUrl env url bucket = env.decodeURIComponent after) ∧
    (env.parseUrlPathname url = none →
      getStoragePathFromPublicUrl env url bucket = none) ∧
    (∀ pathname, env.parseUrlPathname url = some pathname →
      jsIncludes (storagePublicMarker bucket) pathname = false →
      getStoragePathFromPublicUrl env url bucket = none) := by
  have hmark : storagePublicMarker bucket ≠ [] := by
    unfold storagePublicMarker
    simp
  refine ⟨?_, ?_, ?_⟩
  · unfold getStoragePathFromPublicUrl
    cases hp : env.parseUrlPathname url with
    | none => exact Or.inl rfl
    | some pathname =>
      by_cases hinc : jsIncludes (storagePublicMarker bucket) pathname = true
      · simp only [hinc, Bool.not_true, Bool.false_eq_true, if_false, if_neg]
        cases hsplit : (jsSplit (storagePublicMarker bucket) pathname).get? 1 with
        | none => exact Or.inl rfl
        | some after =>
          by_cases hemp : after.isEmpty
          · simp [hemp]
          · simp only [hemp, if_false, Bool.false_eq_true]
            refine Or.inr ⟨pathname, ?_⟩
            have hget := hsplit
            unfold jsSplit at hget
            rw [if_neg hmark] at hget
            rcases hxs : splitGo (storagePublicMarker bucket) pathname.length pathname with
              _ | ⟨p0, ps⟩
            · exact absurd hxs (splitGo_ne_nil _ _ _)
            rw [hxs] at hget
            rcases ps with _ | ⟨p1, rest⟩
            · simp at hget
            · simp only [List.get?] at hget
              have hp1 : p1 = after := by simpa using hget
              subst hp1
              have hint := intercalate_splitGo (storagePublicMarker bucket)
                pathname.length pathname
              rw [hxs, intercalate_cons₂] at hint
              refine ⟨p0, p1, ?_⟩
              have hne : p1 ≠ [] := by
                intro hnil
                rw [hnil] at hemp
                simp at hemp
              cases rest with
              | nil =>
                refine ⟨[], rfl, ?_, hne, ?_⟩
                · simp only [List.intercalate] at hint
                  simp only [List.intersperse, List.flatten] at hint
                  rw [← hint]
                  simp
                · simp [hemp]
              | cons q qs =>
                rw [intercalate_cons₂] at hint
                refine ⟨storagePublicMarker bucket ++
                  List.intercalate (storagePublicMarker bucket) (q :: qs), rfl, ?_, hne, ?_⟩
                · rw [← hint]
                  simp
                · simp [hemp]
      · simp only [Bool.not_eq_true] at hinc
        simp [hinc]
  · intro hp
    unfold getStoragePathFromPublicUrl
    rw [hp]
  · intro pathname hp hinc
    unfold getStoragePathFromPublicUrl
    rw [hp]
    simp [hinc]

/-- C10 witness: on a URL whose pathname the platform URL parser rejects, the
extraction yields `none`. -/
theorem getStoragePathFromPublicUrl_spec_witness :
    getStoragePathFromPublicUrl
      ⟨true, fun _ => none, fun s => some s, fun _ => none, fun _ => none,
        fun s => s, []⟩ "not a url".toList THEORY_IMAGES_BUCKET = none :=
  (getStoragePathFromPublicUrl_spec _ _ _).2.1 rfl

/-! ### Claims about validation order, authorization and theory block
deletion -/

/-- C6 counterexample: saving a `single` page whose only question has zero
options reports the validation failure, but only after the row for that very
question has been inserted (`insertQuestion 101` precedes the error). -/
theorem updateQuiz_question_written_before_validation_counterexample :
    (updateQuiz demoEnv demoBadData demoDb).err = some choiceErrMsg ∧
    (updateQuiz demoEnv demoBadData demoDb).trace =
      [Op.updateQuizRow 7, Op.insertPage 100, Op.insertQuestion 101] := by
  decide

/-- C6 (amended): for a `single` page containing a question with zero options,
the save rejects the question before any *option* write and before any
subsequent write, but after the page and the question row themselves have been
written — the trace of the failing run is exactly the quiz update, the page
insert and the question insert, followed by the validation error. -/
theorem updateQuiz_choice_validation_order (env : Env) (db : DB) (quizId : Nat)
    (title descr slug qtitle : JSStr) (ptitle expl : Option JSStr) (poi qoi : Int) :
    (updateQuiz env
        (singleEmptyQuestionInput quizId title descr slug ptitle poi qtitle expl qoi)
        db).err = some choiceErrMsg ∧
    (updateQuiz env
        (singleEmptyQuestionInput quizId title descr slug ptitle poi qtitle expl qoi)
        db).trace =
      [Op.updateQuizRow quizId, Op.insertPage db.nextId,
        Op.insertQuestion (db.nextId + 1)] := by
  constructor <;> rfl

/-- C7 counterexample: `updateQuiz` performs no administrator check — invoked
by a non-administrator it succeeds and issues writes instead of returning
`Unauthorized` without writes. -/
theorem updateQuiz_no_admin_check_counterexample :
    nonAdminEnv.isAdmin = false ∧
    (updateQuiz nonAdminEnv demoData demoDb).err = none ∧
    (updateQuiz nonAdminEnv demoData demoDb).trace ≠ [] := by
  decide

/-- C7 (amended): the delete operations (page, question, option, theory
block) and the image upload check administrator status before any write and
return `Unauthorized` without issuing any write when the check fails; the
create and update quiz operations perform no application-level administrator
check and issue their writes regardless of administrator status (authorization
for them rests on the external row-level policies). -/
theorem guarded_actions_check_admin (env : Env) (h : env.isAdmin = false)
    (blockId pageId questionId optionId : Nat) (db : DB) (fd : UploadForm) :
    deleteTheoryBlock env blockId db = (some unauthorizedMsg, db, []) ∧
    deleteQuizPage env pageId db = (some unauthorizedMsg, db, []) ∧
    deleteQuestion env questionId db = (some unauthorizedMsg, db, []) ∧
    deleteOption env optionId db = (some unauthorizedMsg, db, []) ∧
    uploadTheoryImage env fd = (some unauthorizedMsg, none, []) := by
  refine ⟨?_, ?_, ?_, ?_, ?_⟩ <;>
    simp [deleteTheoryBlock, deleteQuizPage, deleteQuestion, deleteOption,
      uploadTheoryImage, h]

/-- C7 witness: a concrete non-administrator call of each guarded action. -/
theorem guarded_actions_check_admin_witness :
    deleteTheoryBlock nonAdminEnv 5 imageBlockDb =
      (some unauthorizedMsg, imageBlockDb, []) ∧
    deleteQuizPage nonAdminEnv 1 imageBlockDb =
      (some unauthorizedMsg, imageBlockDb, []) ∧
    deleteQuestion nonAdminEnv 2 imageBlockDb =
      (some unauthorizedMsg, imageBlockDb, []) ∧
    deleteOption nonAdminEnv 3 imageBlockDb =
      (some unauthorizedMsg, imageBlockDb, []) ∧
    uploadTheoryImage nonAdminEnv ⟨none, none⟩ = (some unauthorizedMsg, none, []) :=
  guarded_actions_check_admin nonAdminEnv rfl 5 1 2 3 imageBlockDb ⟨none, none⟩

/-- C9 counterexample: when removing the stored asset of an image theory
block fails, `deleteTheoryBlock` reports the storage error and never attempts
the database row deletion (the store is unchanged and no delete statement is
issued) — asset deletion and row deletion are sequential and dependent, not
independent best-effort steps. -/
theorem deleteTheoryBlock_storage_failure_counterexample :
    deleteTheoryBlock storageFailEnv 5 imageBlockDb =
      (some "storage down".toList, imageBlockDb,
        [Op.storageRemove ["pic.png".toList]]) := by
  decide

/-- C9 (amended): for an image theory block whose public URL resolves to a
storage path, the asset removal is attempted first; if it fails, its error is
reported as the operation's failure and the database row is not deleted; only
when it succeeds is the row deletion issued.  The row/asset deletions are
sequential and dependent, not independently reported. -/
theorem deleteTheoryBlock_sequential_spec (env : Env) (blockId : Nat) (db : DB)
    (block : TheoryRow) (path e : JSStr)
    (hadmin : env.isAdmin = true)
    (hfind : db.theory_blocks.find? (fun b => b.id == blockId) = some block)
    (htype : block.type = TheoryBlockType.image)
    (hcontent : block.content ≠ [])
    (hpath : getStoragePathFromPublicUrl env block.content THEORY_IMAGES_BUCKET
      = some path) :
    (env.storageRemove [path] = some e →
      deleteTheoryBlock env blockId db = (some e, db, [Op.storageRemove [path]])) ∧
    (env.storageRemove [path] = none →
      deleteTheoryBlock env blockId db =
        (none, db.deleteTheoryRows [blockId],
          [Op.storageRemove [path], Op.deleteTheoryBlocks [blockId]])) := by
  constructor <;> intro hrem <;>
    simp [deleteTheoryBlock, hadmin, hfind, htype, hcontent, hpath, hrem]

/-- C9 witness: a concrete successful asset removal followed by the row
deletion. -/
theorem deleteTheoryBlock_sequential_spec_witness :
    deleteTheoryBlock storageOkEnv 5 imageBlockDb =
      (none, imageBlockDb.deleteTheoryRows [5],
        [Op.storageRemove ["pic.png".toList], Op.deleteTheoryBlocks [5]]) :=
  (deleteTheoryBlock_sequential_spec storageOkEnv 5 imageBlockDb
    ⟨5, 7, TheoryBlockType.image,
      "https://h/storage/v1/object/public/Eanglish/pic.png".toList, 0⟩
    "pic.png".toList [] rfl rfl rfl (by decide) (by decide)).2 rfl

/-! ### Reconciler lemmas: in-place updates preserve the fetched identifier
lists -/

theorem idsOf_map_preserve {α : Type} (f : α → α) (getId getPar : α → Nat)
    (hId : ∀ a, getId (f a) = getId a) (hPar : ∀ a, getPar (f a) = getPar a)
    (l : List α) (z : Nat) :
    (((l.map f).filter (fun a => getPar a == z)).map getId) =
      ((l.filter (fun a => getPar a == z)).map getId) := by
  induction l with
  | nil => simp
  | cons a t ih =>
    by_cases h : (getPar a == z) = true
    · simp only [List.map_cons, List.filter_cons, hPar, h, if_true, List.map_cons, hId, ih]
    · simp only [List.map_cons, List.filter_cons, hPar, h, Bool.false_eq_true, if_false, ih]

theorem FetchEq.refl (db : DB) : FetchEq db db :=
  ⟨fun _ => rfl, fun _ => rfl, fun _ => rfl, fun _ => rfl⟩

theorem FetchEq.trans {a b c : DB} (h1 : FetchEq a b) (h2 : FetchEq b c) :
    FetchEq a c :=
  ⟨fun z => (h2.1 z).trans (h1.1 z),
    fun z => (h2.2.1 z).trans (h1.2.1 z),
    fun z => (h2.2.2.1 z).trans (h1.2.2.1 z),
    fun z => (h2.2.2.2 z).trans (h1.2.2.2 z)⟩

theorem writeQuizRow_fetchEq (db : DB) (quizId : Nat) (title : JSStr)
    (descr : Option JSStr) (slug : JSStr) :
    FetchEq db (db.writeQuizRow quizId title descr slug) :=
  ⟨fun _ => rfl, fun _ => rfl, fun _ => rfl, fun _ => rfl⟩

theorem updatePageRow_fetchEq (db : DB) (pid : Nat) (t : TestType)
    (title : Option JSStr) (oi : Int) :
    FetchEq db (db.updatePageRow pid t title oi) := by
  refine ⟨fun z => ?_, fun _ => rfl, fun _ => rfl, fun _ => rfl⟩
  unfold DB.updatePageRow DB.pageIdsOf
  exact idsOf_map_preserve _ _ _
    (fun a => by by_cases h : (a.id == pid) = true <;> simp [h])
    (fun a => by by_cases h : (a.id == pid) = true <;> simp [h]) _ _

theorem updateQuestionRow_fetchEq (db : DB) (qid : Nat) (title : JSStr)
    (explanation : Option JSStr) (oi : Int) :
    FetchEq db (db.updateQuestionRow qid title explanation oi) := by
  refine ⟨fun _ => rfl, fun z => ?_, fun _ => rfl, fun _ => rfl⟩
  unfold DB.updateQuestionRow DB.questionIdsOf
  exact idsOf_map_preserve _ _ _
    (fun a => by by_cases h : (a.id == qid) = true <;> simp [h])
    (fun a => by by_cases h : (a.id == qid) = true <;> simp [h]) _ _

theorem updateOptionRow_fetchEq (db : DB) (oid : Nat) (text : JSStr) (isC : Bool)
    (setGap : Bool) (gap : Nat) :
    FetchEq db (db.updateOptionRow oid text isC setGap gap) := by
  refine ⟨fun _ => rfl, fun _ => rfl, fun z => ?_, fun _ => rfl⟩
  unfold DB.updateOptionRow DB.optionIdsOf
  exact idsOf_map_preserve _ _ _
    (fun a => by by_cases h : (a.id == oid) = true <;> simp [h])
    (fun a => by by_cases h : (a.id == oid) = true <;> simp [h]) _ _

theorem updateTheoryRow_fetchEq (db : DB) (bid : Nat) (t : TheoryBlockType)
    (content : JSStr) (oi : Int) :
    FetchEq db (db.updateTheoryRow bid t content oi) := by
  refine ⟨fun _ => rfl, fun _ => rfl, fun _ => rfl, fun z => ?_⟩
  unfold DB.updateTheoryRow DB.theoryRowsOf
  exact idsOf_map_preserve _ _ _
    (fun a => by by_cases h : (a.id == bid) = true <;> simp [h])
    (fun a => by by_cases h : (a.id == bid) = true <;> simp [h]) _ _

/-! ### Reconciler lemmas: an aligned desired tree is reconciled by pure
updates -/

theorem OptsAligned_congr {db db' : DB} (h : FetchEq db db') (ptype : TestType)
    (opts : List OptionInput) (qid : Nat) :
    OptsAligned ptype opts db qid → OptsAligned ptype opts db' qid := by
  unfold OptsAligned
  rw [h.2.2.1 qid]
  exact id

theorem syncOptionsLoop_pure (isIn isGap : Bool) (qid : Nat) (ex : List Nat) :
    ∀ (opts : List OptionInput) (db : DB),
      (∀ o ∈ opts, ∃ k, o.id = some k ∧ k ∈ ex) →
      FetchEq db (syncOptionsLoop isIn isGap qid ex opts db).1 ∧
      (∀ op ∈ (syncOptionsLoop isIn isGap qid ex opts db).2.1, op.isUpdate = true) ∧
      (syncOptionsLoop isIn isGap qid ex opts db).2.2 =
        opts.filterMap (fun o => o.id) := by
  intro opts
  induction opts with
  | nil =>
    intro db _
    exact ⟨FetchEq.refl db, by simp [syncOptionsLoop], by simp [syncOptionsLoop]⟩
  | cons o rest ih =>
    intro db h
    obtain ⟨k, hk, hkex⟩ := h o (List.mem_cons_self o rest)
    have hcont : ex.contains k = true := (contains_iff_mem ex k).mpr hkex
    have hbind : o.id.bind
        (fun oid => if ex.contains oid then some oid else none) = some k := by
      rw [hk]
      simp [hcont, hkex]
    have ih' := ih (db.updateOptionRow k o.option_text
        (if isIn then true else o.is_correct) isGap (o.gap_index.getD 0))
      (fun o2 ho2 => h o2 (List.mem_cons_of_mem _ ho2))
    simp only [syncOptionsLoop, hbind]
    refine ⟨FetchEq.trans (updateOptionRow_fetchEq db k o.option_text
      (if isIn then true else o.is_correct) isGap (o.gap_index.getD 0)) ih'.1, ?_, ?_⟩
    · intro op hop
      rcases List.mem_cons.mp hop with hop | hop
      · rw [hop]; rfl
      · exact ih'.2.1 op hop
    · rw [List.filterMap_cons, hk]
      simp only [ih'.2.2]

theorem syncOptions_pure (ptype : TestType) (qid : Nat) (opts : List OptionInput)
    (db : DB) (hal : OptsAligned ptype opts db qid) :
    (syncOptions ptype qid opts db).1 = none ∧
    FetchEq db (syncOptions ptype qid opts db).2.1 ∧
    (∀ op ∈ (syncOptions ptype qid opts db).2.2.1, op.isUpdate = true) := by
  obtain ⟨h1, h2, h3⟩ := hal
  have hloop := syncOptionsLoop_pure (ptype == TestType.input)
    (ptype == TestType.input || ptype == TestType.select_gaps) qid
    (db.optionIdsOf qid) (optionsToSyncOf ptype opts) db h1
  have hcond : (!(ptype == TestType.input || ptype == TestType.select_gaps) &&
      (optionsToSyncOf ptype opts).length == 0) = false := by
    by_cases hg : (ptype == TestType.input || ptype == TestType.select_gaps) = true
    · simp [hg]
    · have hne := h3 (by
        unfold gapBased
        simpa using hg)
      have : (optionsToSyncOf ptype opts).length ≠ 0 := by
        intro h0
        exact hne (List.length_eq_zero.mp h0)
      simp [this]
  have htoDel : (db.optionIdsOf qid).filter (fun x =>
      !((syncOptionsLoop (ptype == TestType.input)
          (ptype == TestType.input || ptype == TestType.select_gaps) qid
          (db.optionIdsOf qid) (optionsToSyncOf ptype opts) db).2.2.contains x)) = [] := by
    rw [List.filter_eq_nil_iff]
    intro x hx
    obtain ⟨o, ho, hid⟩ := h2 x hx
    have hmem : x ∈ (syncOptionsLoop (ptype == TestType.input)
        (ptype == TestType.input || ptype == TestType.select_gaps) qid
        (db.optionIdsOf qid) (optionsToSyncOf ptype opts) db).2.2 := by
      rw [hloop.2.2]
      exact List.mem_filterMap.mpr ⟨o, ho, hid⟩
    simp [hmem]
  unfold syncOptions
  simp only [hcond, Bool.false_eq_true, if_false, htoDel, List.length_nil, if_neg, bne_self_eq_false]
  exact ⟨trivial, hloop.1, hloop.2.1⟩

theorem QAligned_congr {db db' : DB} (h : FetchEq db db') (ptype : TestType)
    (pid : Nat) (q : QuestionInput) :
    QAligned ptype pid q db → QAligned ptype pid q db' := by
  rintro ⟨qid, hid, hmem, hopts⟩
  refine ⟨qid, hid, ?_, OptsAligned_congr h _ _ _ hopts⟩
  rw [h.2.1 pid]
  exact hmem

theorem syncQuestionsLoop_pure (ptype : TestType) (pid : Nat) (ex : List Nat) :
    ∀ (qs : List QuestionInput) (db dbRef : DB),
      FetchEq dbRef db →
      (∀ q ∈ qs, QAligned ptype pid q dbRef) →
      (∀ k, k ∈ ex ↔ k ∈ dbRef.questionIdsOf pid) →
      (syncQuestionsLoop ptype pid ex qs db).1 = none ∧
      FetchEq dbRef (syncQuestionsLoop ptype pid ex qs db).2.1 ∧
      (∀ op ∈ (syncQuestionsLoop ptype pid ex qs db).2.2.1, op.isUpdate = true) ∧
      (syncQuestionsLoop ptype pid ex qs db).2.2.2.map (fun k => k.qid) =
        qs.filterMap (fun q => q.id) := by
  intro qs
  induction qs with
  | nil =>
    intro db dbRef hFE _ _
    exact ⟨rfl, hFE, by simp [syncQuestionsLoop], by simp [syncQuestionsLoop]⟩
  | cons q rest ih =>
    intro db dbRef hFE hq hex
    obtain ⟨qid, hid, hmem, hopts⟩ := hq q (List.mem_cons_self q rest)
    have hcont : ex.contains qid = true :=
      (contains_iff_mem ex qid).mpr ((hex qid).mpr hmem)
    have hbind : q.id.bind
        (fun k => if ex.contains k then some k else none) = some qid := by
      rw [hid]
      simp [hcont, (hex qid).mpr hmem]
    have hFE1 : FetchEq dbRef (db.updateQuestionRow qid q.question_title
        (jsOrNull q.explanation) q.order_index) :=
      hFE.trans (updateQuestionRow_fetchEq db qid _ _ _)
    have hsyncP := syncOptions_pure ptype qid q.options
      (db.updateQuestionRow qid q.question_title (jsOrNull q.explanation) q.order_index)
      (OptsAligned_congr hFE1 ptype q.options qid hopts)
    rcases hsync : syncOptions ptype qid q.options
        (db.updateQuestionRow qid q.question_title (jsOrNull q.explanation)
          q.order_index) with ⟨err2, db2, ops2, kept2⟩
    rw [hsync] at hsyncP
    obtain ⟨herr2, hFE2, hops2⟩ := hsyncP
    simp only at herr2 hFE2 hops2
    subst herr2
    have hFEr : FetchEq dbRef db2 := hFE1.trans hFE2
    have ih' := ih db2 dbRef hFEr (fun q2 hq2 => hq q2 (List.mem_cons_of_mem _ hq2)) hex
    simp only [syncQuestionsLoop, hbind, hsync]
    refine ⟨ih'.1, ih'.2.1, ?_, ?_⟩
    · intro op hop
      rcases List.mem_cons.mp hop with hop | hop
      · rw [hop]; rfl
      · rcases List.mem_append.mp hop with hop | hop
        · exact hops2 op hop
        · exact ih'.2.2.1 op hop
    · simp only [List.map_cons, List.filterMap_cons, hid, ih'.2.2.2]

theorem syncQuestions_pure (ptype : TestType) (pid : Nat) (qs : List QuestionInput)
    (db dbRef : DB) (hFE : FetchEq dbRef db)
    (hq : ∀ q ∈ qs, QAligned ptype pid q dbRef)
    (hcover : ∀ x ∈ dbRef.questionIdsOf pid, ∃ q ∈ qs, q.id = some x) :
    (syncQuestions ptype pid qs db).1 = none ∧
    FetchEq dbRef (syncQuestions ptype pid qs db).2.1 ∧
    (∀ op ∈ (syncQuestions ptype pid qs db).2.2.1, op.isUpdate = true) := by
  have hex : ∀ k, k ∈ db.questionIdsOf pid ↔ k ∈ dbRef.questionIdsOf pid := by
    intro k
    rw [hFE.2.1 pid]
  have hloopP := syncQuestionsLoop_pure ptype pid (db.questionIdsOf pid) qs db dbRef
    hFE hq hex
  rcases hloop : syncQuestionsLoop ptype pid (db.questionIdsOf pid) qs db with
    ⟨err1, db1, ops1, kept1⟩
  rw [hloop] at hloopP
  obtain ⟨herr1, hFE1, hops1, hkept1⟩ := hloopP
  simp only at herr1 hFE1 hops1 hkept1
  subst herr1
  have htoDel : (db.questionIdsOf pid).filter (fun x =>
      !((kept1.map (fun k => k.qid)).contains x)) = [] := by
    rw [List.filter_eq_nil_iff]
    intro x hx
    obtain ⟨q2, hq2, hid2⟩ := hcover x ((hex x).mp hx)
    have : x ∈ kept1.map (fun k => k.qid) := by
      rw [hkept1]
      exact List.mem_filterMap.mpr ⟨q2, hq2, hid2⟩
    simp [this]
  unfold syncQuestions
  simp only [hloop, htoDel, List.length_nil, bne_self_eq_false, Bool.false_eq_true, if_false]
  exact ⟨trivial, hFE1, hops1⟩

theorem PageAligned_congr {db db' : DB} (h : FetchEq db db') (quizId : Nat)
    (p : PageInput) :
    PageAligned quizId p db → PageAligned quizId p db' := by
  rintro ⟨pid, hid, hmem, hqs, hcover⟩
  refine ⟨pid, hid, ?_, fun q hq => QAligned_congr h _ _ _ (hqs q hq), ?_⟩
  · rw [h.1 quizId]
    exact hmem
  · intro x hx
    rw [h.2.1 pid] at hx
    exact hcover x hx

theorem syncPagesLoop_pure (quizId : Nat) (ex : List Nat) :
    ∀ (ps : List PageInput) (db dbRef : DB),
      FetchEq dbRef db →
      (∀ p ∈ ps, PageAligned quizId p dbRef) →
      (∀ k, k ∈ ex ↔ k ∈ dbRef.pageIdsOf quizId) →
      (syncPagesLoop quizId ex ps db).1 = none ∧
      FetchEq dbRef (syncPagesLoop quizId ex ps db).2.1 ∧
      (∀ op ∈ (syncPagesLoop quizId ex ps db).2.2.1, op.isUpdate = true) ∧
      (syncPagesLoop quizId ex ps db).2.2.2.map (fun k => k.pid) =
        ps.filterMap (fun p => p.id) := by
  intro ps
  induction ps with
  | nil =>
    intro db dbRef hFE _ _
    exact ⟨rfl, hFE, by simp [syncPagesLoop], by simp [syncPagesLoop]⟩
  | cons p rest ih =>
    intro db dbRef hFE hp hex
    obtain ⟨pid, hid, hmem, hqs, hcover⟩ := hp p (List.mem_cons_self p rest)
    have hcont : ex.contains pid = true :=
      (contains_iff_mem ex pid).mpr ((hex pid).mpr hmem)
    have hbind : p.id.bind
        (fun k => if ex.contains k then some k else none) = some pid := by
      rw [hid]
      simp [hcont, (hex pid).mpr hmem]
    have hFE1 : FetchEq dbRef (db.updatePageRow pid p.type (jsOrNull p.title)
        p.order_index) :=
      hFE.trans (updatePageRow_fetchEq db pid _ _ _)
    have hsyncP := syncQuestions_pure p.type pid p.questions
      (db.updatePageRow pid p.type (jsOrNull p.title) p.order_index) dbRef hFE1 hqs hcover
    rcases hsync : syncQuestions p.type pid p.questions
        (db.updatePageRow pid p.type (jsOrNull p.title) p.order_index) with
      ⟨err2, db2, ops2, kept2⟩
    rw [hsync] at hsyncP
    obtain ⟨herr2, hFE2, hops2⟩ := hsyncP
    simp only at herr2 hFE2 hops2
    subst herr2
    have ih' := ih db2 dbRef hFE2 (fun p2 hp2 => hp p2 (List.mem_cons_of_mem _ hp2)) hex
    simp only [syncPagesLoop, hbind, hsync]
    refine ⟨ih'.1, ih'.2.1, ?_, ?_⟩
    · intro op hop
      rcases List.mem_cons.mp hop with hop | hop
      · rw [hop]; rfl
      · rcases List.mem_append.mp hop with hop | hop
        · exact hops2 op hop
        · exact ih'.2.2.1 op hop
    · simp only [List.map_cons, List.filterMap_cons, hid, ih'.2.2.2]

theorem syncTheoryLoop_pure (quizId : Nat) (ex : List Nat) :
    ∀ (bs : List TheoryBlockInput) (db dbRef : DB),
      FetchEq dbRef db →
      (∀ b ∈ bs, ∃ k, b.id = some k ∧ k ∈ ex) →
      FetchEq dbRef (syncTheoryLoop quizId ex bs db).1 ∧
      (∀ op ∈ (syncTheoryLoop quizId ex bs db).2.1, op.isUpdate = true) ∧
      (syncTheoryLoop quizId ex bs db).2.2 = bs.filterMap (fun b => b.id) := by
  intro bs
  induction bs with
  | nil =>
    intro db dbRef hFE _
    exact ⟨hFE, by simp [syncTheoryLoop], by simp [syncTheoryLoop]⟩
  | cons b rest ih =>
    intro db dbRef hFE h
    obtain ⟨k, hk, hkex⟩ := h b (List.mem_cons_self b rest)
    have hcont : ex.contains k = true := (contains_iff_mem ex k).mpr hkex
    have hbind : b.id.bind
        (fun bid => if ex.contains bid then some bid else none) = some k := by
      rw [hk]
      simp [hcont, hkex]
    have ih' := ih ((db.updateTheoryRow k b.type
        (if (jsTrim b.content).isEmpty then " ".toList else jsTrim b.content)
        b.order_index)) dbRef
      (hFE.trans (updateTheoryRow_fetchEq db k _ _ _))
      (fun b2 hb2 => h b2 (List.mem_cons_of_mem _ hb2))
    simp only [syncTheoryLoop, hbind]
    refine ⟨ih'.1, ?_, ?_⟩
    · intro op hop
      rcases List.mem_cons.mp hop with hop | hop
      · rw [hop]; rfl
      · exact ih'.2.1 op hop
    · rw [List.filterMap_cons, hk]
      simp only [ih'.2.2]

/-- A desired tree aligned with the persisted tree is reconciled without any
error, without any insert or delete, and without any storage call: the run is
pure updates.  This holds for every environment (the environment is consulted
only on the delete path). -/
theorem updateQuiz_aligned (env : Env) (data : UpdateQuizInput) (db : DB)
    (hal : InputAligned data db) :
    (updateQuiz env data db).err = none ∧
    ((updateQuiz env data db).trace.all Op.isUpdate) = true := by
  obtain ⟨hpages, hpcover, hblocks, hbcover⟩ := hal
  have hFE0 : FetchEq db (db.writeQuizRow data.quizId data.title
      (jsStrOrNull data.description) (jsTrim data.slug)) :=
    writeQuizRow_fetchEq db _ _ _ _
  have hex : ∀ k, k ∈ (db.writeQuizRow data.quizId data.title
      (jsStrOrNull data.description) (jsTrim data.slug)).pageIdsOf data.quizId ↔
      k ∈ db.pageIdsOf data.quizId := by
    intro k
    rw [hFE0.1 data.quizId]
  have hloopP := syncPagesLoop_pure data.quizId
    ((db.writeQuizRow data.quizId data.title (jsStrOrNull data.description)
      (jsTrim data.slug)).pageIdsOf data.quizId) data.pages
    (db.writeQuizRow data.quizId data.title (jsStrOrNull data.description)
      (jsTrim data.slug)) db hFE0 hpages hex
  rcases hloop : syncPagesLoop data.quizId
      ((db.writeQuizRow data.quizId data.title (jsStrOrNull data.description)
        (jsTrim data.slug)).pageIdsOf data.quizId) data.pages
      (db.writeQuizRow data.quizId data.title (jsStrOrNull data.description)
        (jsTrim data.slug)) with ⟨err1, db1, ops1, keptP⟩
  rw [hloop] at hloopP
  obtain ⟨herr1, hFE1, hops1, hkept1⟩ := hloopP
  simp only at herr1 hFE1 hops1 hkept1
  subst herr1
  have htoDelP : ((db.writeQuizRow data.quizId data.title
      (jsStrOrNull data.description) (jsTrim data.slug)).pageIdsOf
        data.quizId).filter (fun x =>
      !((keptP.map (fun k => k.pid)).contains x)) = [] := by
    rw [List.filter_eq_nil_iff]
    intro x hx
    obtain ⟨p2, hp2, hid2⟩ := hpcover x ((hex x).mp hx)
    have : x ∈ keptP.map (fun k => k.pid) := by
      rw [hkept1]
      exact List.mem_filterMap.mpr ⟨p2, hp2, hid2⟩
    simp [this]
  have hbex : ∀ b ∈ data.theoryBlocks, ∃ k, b.id = some k ∧
      k ∈ (db1.theoryRowsOf data.quizId).map (fun r => r.id) := by
    intro b hb
    obtain ⟨k, hk, hkmem⟩ := hblocks b hb
    refine ⟨k, hk, ?_⟩
    rw [hFE1.2.2.2 data.quizId]
    exact hkmem
  have hthP := syncTheoryLoop_pure data.quizId
    ((db1.theoryRowsOf data.quizId).map (fun r => r.id)) data.theoryBlocks db1 db1
    (FetchEq.refl db1) hbex
  rcases hth : syncTheoryLoop data.quizId
      ((db1.theoryRowsOf data.quizId).map (fun r => r.id)) data.theoryBlocks db1 with
    ⟨db3, ops3, kept3⟩
  rw [hth] at hthP
  obtain ⟨hFE3, hops3, hkept3⟩ := hthP
  simp only at hFE3 hops3 hkept3
  have htoDelB : (db1.theoryRowsOf data.quizId).filter (fun x =>
      !(kept3.contains x.id)) = [] := by
    rw [List.filter_eq_nil_iff]
    intro r hr
    have hrid : r.id ∈ (db1.theoryRowsOf data.quizId).map (fun r2 => r2.id) :=
      List.mem_map.mpr ⟨r, hr, rfl⟩
    rw [hFE1.2.2.2 data.quizId] at hrid
    obtain ⟨b2, hb2, hid2⟩ := hbcover r.id hrid
    have : r.id ∈ kept3 := by
      rw [hkept3]
      exact List.mem_filterMap.mpr ⟨b2, hb2, hid2⟩
    simp [this]
  unfold updateQuiz
  simp only [hloop, htoDelP, List.length_nil, bne_self_eq_false, Bool.false_eq_true,
    if_false, hth, htoDelB]
  refine ⟨trivial, ?_⟩
  rw [List.all_eq_true]
  intro op hop
  rcases List.mem_cons.mp hop with hop | hop
  · rw [hop]; rfl
  · rcases List.mem_append.mp hop with hop | hop
    · exact hops1 op hop
    · exact hops3 op hop

/-! ### Reconciler lemmas: characterization of the row mutations -/

theorem map_ids_map_preserve {α : Type} (f : α → α) (getId : α → Nat)
    (hId : ∀ a, getId (f a) = getId a) (l : List α) :
    (l.map f).map getId = l.map getId := by
  induction l with
  | nil => rfl
  | cons a t ih => simp [hId, ih]

theorem map_filter_comm {α : Type} (getId : α → Nat) (p : Nat → Bool) (l : List α) :
    ((l.filter (fun a => p (getId a))).map getId) = (l.map getId).filter p := by
  induction l with
  | nil => rfl
  | cons a t ih =>
    by_cases h : p (getId a) = true
    · simp [List.filter_cons, h, ih]
    · simp [List.filter_cons, h, ih]

theorem insertPageRow_pageIdsOf (db : DB) (quizId : Nat) (t : TestType)
    (title : Option JSStr) (oi : Int) (z : Nat) :
    (db.insertPageRow quizId t title oi).2.pageIdsOf z =
      db.pageIdsOf z ++ (if quizId == z then [db.nextId] else []) := by
  unfold DB.insertPageRow DB.pageIdsOf
  by_cases h : (quizId == z) = true <;>
    simp [List.filter_append, List.filter_cons, h]

theorem insertQuestionRow_questionIdsOf (db : DB) (pageId : Nat) (title : JSStr)
    (explanation : Option JSStr) (oi : Int) (z : Nat) :
    (db.insertQuestionRow pageId title explanation oi).2.questionIdsOf z =
      db.questionIdsOf z ++ (if pageId == z then [db.nextId] else []) := by
  unfold DB.insertQuestionRow DB.questionIdsOf
  by_cases h : (pageId == z) = true <;>
    simp [List.filter_append, List.filter_cons, h]

theorem insertOptionRow_optionIdsOf (db : DB) (qid : Nat) (text : JSStr) (isC : Bool)
    (gap : Option Nat) (z : Nat) :
    (db.insertOptionRow qid text isC gap).2.optionIdsOf z =
      db.optionIdsOf z ++ (if qid == z then [db.nextId] else []) := by
  unfold DB.insertOptionRow DB.optionIdsOf
  by_cases h : (qid == z) = true <;>
    simp [List.filter_append, List.filter_cons, h]

theorem insertTheoryRow_theoryIdsOf (db : DB) (quizId : Nat) (t : TheoryBlockType)
    (content : JSStr) (oi : Int) (z : Nat) :
    ((db.insertTheoryRow quizId t content oi).2.theoryRowsOf z).map (fun r => r.id) =
      (db.theoryRowsOf z).map (fun r => r.id) ++
        (if quizId == z then [db.nextId] else []) := by
  unfold DB.insertTheoryRow DB.theoryRowsOf
  by_cases h : (quizId == z) = true <;>
    simp [List.filter_append, List.filter_cons, h]

theorem filter_map_filter_comm {α : Type} (getPar getId : α → Nat) (p : Nat → Bool)
    (l : List α) (z : Nat) :
    ((l.filter (fun a => !(p (getId a)))).filter (fun a => getPar a == z)).map getId =
      ((l.filter (fun a => getPar a == z)).map getId).filter (fun x => !(p x)) := by
  induction l with
  | nil => rfl
  | cons a t ih =>
    by_cases h1 : p (getId a) = true <;> by_cases h2 : (getPar a == z) = true <;>
      simp only [List.filter_cons, List.map_cons, h1, h2, Bool.not_true, Bool.not_false,
        if_true, if_false, Bool.false_eq_true, ih]

theorem filter_par_map_const {α : Type} (getPar getId : α → Nat) (p : Nat → Bool)
    (l : List α) (z : Nat) :
    ((l.filter (fun a => !(p (getPar a)))).filter (fun a => getPar a == z)).map getId =
      if p z then [] else (l.filter (fun a => getPar a == z)).map getId := by
  induction l with
  | nil => cases hp : p z <;> simp [hp]
  | cons a t ih =>
    by_cases h2 : (getPar a == z) = true
    · have hz2 : getPar a = z := eq_of_beq h2
      by_cases hp : p z = true
      · have h1 : p (getPar a) = true := by rw [hz2]; exact hp
        simp only [List.filter_cons, List.map_cons, h1, h2, hp, Bool.not_true,
          Bool.not_false, if_true, if_false, Bool.false_eq_true, ih]
      · have h1 : p (getPar a) = false := by
          rw [hz2]
          exact Bool.eq_false_iff.mpr hp
        simp only [List.filter_cons, List.map_cons, h1, h2, hp, Bool.not_true,
          Bool.not_false, if_true, if_false, Bool.false_eq_true, ih]
    · by_cases h1 : p (getPar a) = true <;>
        simp only [List.filter_cons, List.map_cons, h1, h2, Bool.not_true, Bool.not_false,
          if_true, if_false, Bool.false_eq_true, ih]

theorem deleteOptionRows_optionIdsOf (db : DB) (oids : List Nat) (z : Nat) :
    (db.deleteOptionRows oids).optionIdsOf z =
      (db.optionIdsOf z).filter (fun x => !(oids.contains x)) := by
  unfold DB.deleteOptionRows DB.optionIdsOf
  exact filter_map_filter_comm (fun o => o.question_id) (fun o => o.id)
    (fun x => oids.contains x) db.options z

theorem deleteQuestionRows_questionIdsOf (db : DB) (qids : List Nat) (z : Nat) :
    (db.deleteQuestionRows qids).questionIdsOf z =
      (db.questionIdsOf z).filter (fun x => !(qids.contains x)) := by
  unfold DB.deleteQuestionRows DB.questionIdsOf
  exact filter_map_filter_comm (fun q => q.page_id) (fun q => q.id)
    (fun x => qids.contains x) db.questions z

theorem deleteQuestionRows_optionIdsOf (db : DB) (qids : List Nat) (z : Nat) :
    (db.deleteQuestionRows qids).optionIdsOf z =
      if qids.contains z then [] else db.optionIdsOf z := by
  unfold DB.deleteQuestionRows DB.optionIdsOf
  exact filter_par_map_const (fun o => o.question_id) (fun o => o.id)
    (fun x => qids.contains x) db.options z

theorem deletePageRows_pageIdsOf (db : DB) (pids : List Nat) (z : Nat) :
    (db.deletePageRows pids).pageIdsOf z =
      (db.pageIdsOf z).filter (fun x => !(pids.contains x)) := by
  unfold DB.deletePageRows DB.pageIdsOf
  exact filter_map_filter_comm (fun p => p.quiz_id) (fun p => p.id)
    (fun x => pids.contains x) db.pages z

theorem deletePageRows_questionIdsOf (db : DB) (pids : List Nat) (z : Nat) :
    (db.deletePageRows pids).questionIdsOf z =
      if pids.contains z then [] else db.questionIdsOf z := by
  unfold DB.deletePageRows DB.questionIdsOf
  exact filter_par_map_const (fun q => q.page_id) (fun q => q.id)
    (fun x => pids.contains x) db.questions z

theorem deletePageRows_optionIdsOf (db : DB) (pids : List Nat) (z : Nat) :
    (db.deletePageRows pids).optionIdsOf z =
      if ((db.questions.filter (fun q => pids.contains q.page_id)).map
          (fun q => q.id)).contains z then []
      else db.optionIdsOf z := by
  unfold DB.deletePageRows DB.optionIdsOf
  exact filter_par_map_const (fun o => o.question_id) (fun o => o.id)
    (fun x => ((db.questions.filter (fun q => pids.contains q.page_id)).map
      (fun q => q.id)).contains x) db.options z

theorem deleteTheoryRows_theoryIdsOf (db : DB) (bids : List Nat) (z : Nat) :
    ((db.deleteTheoryRows bids).theoryRowsOf z).map (fun r => r.id) =
      ((db.theoryRowsOf z).map (fun r => r.id)).filter (fun x => !(bids.contains x)) := by
  unfold DB.deleteTheoryRows DB.theoryRowsOf
  exact filter_map_filter_comm (fun b => b.quiz_id) (fun b => b.id)
    (fun x => bids.contains x) db.theory_blocks z

/-! ### Reconciler lemmas: the mutations preserve store well-formedness -/

theorem nodup_append_fresh (xs : List Nat) (n : Nat) (hnd : xs.Nodup)
    (hb : ∀ x ∈ xs, x < n) : (xs ++ [n]).Nodup := by
  rw [List.nodup_append]
  refine ⟨hnd, List.nodup_singleton n, ?_⟩
  intro a ha han
  rw [List.mem_singleton.mp han] at ha
  exact absurd (hb n ha) (lt_irrefl n)

theorem nodup_filter_ids {α : Type} (p : α → Bool) (getId : α → Nat) (l : List α)
    (h : (l.map getId).Nodup) : ((l.filter p).map getId).Nodup :=
  ((List.filter_sublist l).map getId).nodup h

theorem bound_ids_of_rows {α : Type} (getId : α → Nat) (n : Nat) (l : List α)
    (h : ∀ r ∈ l, getId r < n) : ∀ x ∈ l.map getId, x < n := by
  intro x hx
  obtain ⟨a, ha, rfl⟩ := List.mem_map.mp hx
  exact h a ha

theorem updatePageRow_wf (db : DB) (pid : Nat) (t : TestType) (title : Option JSStr)
    (oi : Int) (h : db.wf) : (db.updatePageRow pid t title oi).wf := by
  obtain ⟨n1, n2, n3, n4, b1, b2, b3, b4⟩ := h
  have hfid : ∀ a : PageRow,
      ((fun r => if r.id == pid then { r with type := t, title := title, order_index := oi } else r) a).id = a.id := by
    intro a
    by_cases hh : (a.id == pid) = true <;> simp [hh]
  unfold DB.updatePageRow DB.wf
  refine ⟨?_, n2, n3, n4, ?_, b2, b3, b4⟩
  · rw [map_ids_map_preserve _ _ hfid]
    exact n1
  · intro r hr
    obtain ⟨a, ha, rfl⟩ := List.mem_map.mp hr
    rw [hfid a]
    exact b1 a ha

theorem updateQuestionRow_wf (db : DB) (qid : Nat) (title : JSStr)
    (explanation : Option JSStr) (oi : Int) (h : db.wf) :
    (db.updateQuestionRow qid title explanation oi).wf := by
  obtain ⟨n1, n2, n3, n4, b1, b2, b3, b4⟩ := h
  have hfid : ∀ a : QuestionRow,
      ((fun r => if r.id == qid then { r with question_title := title, explanation := explanation, order_index := oi } else r) a).id = a.id := by
    intro a
    by_cases hh : (a.id == qid) = true <;> simp [hh]
  unfold DB.updateQuestionRow DB.wf
  refine ⟨n1, ?_, n3, n4, b1, ?_, b3, b4⟩
  · rw [map_ids_map_preserve _ _ hfid]
    exact n2
  · intro r hr
    obtain ⟨a, ha, rfl⟩ := List.mem_map.mp hr
    rw [hfid a]
    exact b2 a ha

theorem updateOptionRow_wf (db : DB) (oid : Nat) (text : JSStr) (isC : Bool)
    (setGap : Bool) (gap : Nat) (h : db.wf) :
    (db.updateOptionRow oid text isC setGap gap).wf := by
  obtain ⟨n1, n2, n3, n4, b1, b2, b3, b4⟩ := h
  have hfid : ∀ a : OptionRow,
      ((fun r => if r.id == oid then { r with option_text := text, is_correct := isC, gap_index := if setGap then some gap else r.gap_index } else r) a).id = a.id := by
    intro a
    by_cases hh : (a.id == oid) = true <;> simp [hh]
  unfold DB.updateOptionRow DB.wf
  refine ⟨n1, n2, ?_, n4, b1, b2, ?_, b4⟩
  · rw [map_ids_map_preserve _ _ hfid]
    exact n3
  · intro r hr
    obtain ⟨a, ha, rfl⟩ := List.mem_map.mp hr
    rw [hfid a]
    exact b3 a ha

theorem updateTheoryRow_wf (db : DB) (bid : Nat) (t : TheoryBlockType)
    (content : JSStr) (oi : Int) (h : db.wf) :
    (db.updateTheoryRow bid t content oi).wf := by
  obtain ⟨n1, n2, n3, n4, b1, b2, b3, b4⟩ := h
  have hfid : ∀ a : TheoryRow,
      ((fun r => if r.id == bid then { r with type := t, content := content, order_index := oi } else r) a).id = a.id := by
    intro a
    by_cases hh : (a.id == bid) = true <;> simp [hh]
  unfold DB.updateTheoryRow DB.wf
  refine ⟨n1, n2, n3, ?_, b1, b2, b3, ?_⟩
  · rw [map_ids_map_preserve _ _ hfid]
    exact n4
  · intro r hr
    obtain ⟨a, ha, rfl⟩ := List.mem_map.mp hr
    rw [hfid a]
    exact b4 a ha

theorem insertPageRow_wf (db : DB) (quizId : Nat) (t : TestType)
    (title : Option JSStr) (oi : Int) (h : db.wf) :
    (db.insertPageRow quizId t title oi).2.wf := by
  obtain ⟨n1, n2, n3, n4, b1, b2, b3, b4⟩ := h
  unfold DB.insertPageRow DB.wf
  refine ⟨?_, n2, n3, n4, ?_, ?_, ?_, ?_⟩
  · rw [List.map_append]
    exact nodup_append_fresh _ db.nextId n1 (bound_ids_of_rows _ _ _ b1)
  · intro r hr
    rcases List.mem_append.mp hr with hr | hr
    · exact Nat.lt_succ_of_lt (b1 r hr)
    · rw [List.mem_singleton.mp hr]
      exact Nat.lt_succ_self db.nextId
  · exact fun r hr => Nat.lt_succ_of_lt (b2 r hr)
  · exact fun r hr => Nat.lt_succ_of_lt (b3 r hr)
  · exact fun r hr => Nat.lt_succ_of_lt (b4 r hr)

theorem insertQuestionRow_wf (db : DB) (pageId : Nat) (title : JSStr)
    (explanation : Option JSStr) (oi : Int) (h : db.wf) :
    (db.insertQuestionRow pageId title explanation oi).2.wf := by
  obtain ⟨n1, n2, n3, n4, b1, b2, b3, b4⟩ := h
  unfold DB.insertQuestionRow DB.wf
  refine ⟨n1, ?_, n3, n4, fun r hr => Nat.lt_succ_of_lt (b1 r hr), ?_,
    fun r hr => Nat.lt_succ_of_lt (b3 r hr), fun r hr => Nat.lt_succ_of_lt (b4 r hr)⟩
  · rw [List.map_append]
    exact nodup_append_fresh _ db.nextId n2 (bound_ids_of_rows _ _ _ b2)
  · intro r hr
    rcases List.mem_append.mp hr with hr | hr
    · exact Nat.lt_succ_of_lt (b2 r hr)
    · rw [List.mem_singleton.mp hr]
      exact Nat.lt_succ_self db.nextId

theorem insertOptionRow_wf (db : DB) (qid : Nat) (text : JSStr) (isC : Bool)
    (gap : Option Nat) (h : db.wf) : (db.insertOptionRow qid text isC gap).2.wf := by
  obtain ⟨n1, n2, n3, n4, b1, b2, b3, b4⟩ := h
  unfold DB.insertOptionRow DB.wf
  refine ⟨n1, n2, ?_, n4, fun r hr => Nat.lt_succ_of_lt (b1 r hr),
    fun r hr => Nat.lt_succ_of_lt (b2 r hr), ?_,
    fun r hr => Nat.lt_succ_of_lt (b4 r hr)⟩
  · rw [List.map_append]
    exact nodup_append_fresh _ db.nextId n3 (bound_ids_of_rows _ _ _ b3)
  · intro r hr
    rcases List.mem_append.mp hr with hr | hr
    · exact Nat.lt_succ_of_lt (b3 r hr)
    · rw [List.mem_singleton.mp hr]
      exact Nat.lt_succ_self db.nextId

theorem insertTheoryRow_wf (db : DB) (quizId : Nat) (t : TheoryBlockType)
    (content : JSStr) (oi : Int) (h : db.wf) :
    (db.insertTheoryRow quizId t content oi).2.wf := by
  obtain ⟨n1, n2, n3, n4, b1, b2, b3, b4⟩ := h
  unfold DB.insertTheoryRow DB.wf
  refine ⟨n1, n2, n3, ?_, fun r hr => Nat.lt_succ_of_lt (b1 r hr),
    fun r hr => Nat.lt_succ_of_lt (b2 r hr),
    fun r hr => Nat.lt_succ_of_lt (b3 r hr), ?_⟩
  · rw [List.map_append]
    exact nodup_append_fresh _ db.nextId n4 (bound_ids_of_rows _ _ _ b4)
  · intro r hr
    rcases List.mem_append.mp hr with hr | hr
    · exact Nat.lt_succ_of_lt (b4 r hr)
    · rw [List.mem_singleton.mp hr]
      exact Nat.lt_succ_self db.nextId

theorem deleteOptionRows_wf (db : DB) (oids : List Nat) (h : db.wf) :
    (db.deleteOptionRows oids).wf := by
  obtain ⟨n1, n2, n3, n4, b1, b2, b3, b4⟩ := h
  unfold DB.deleteOptionRows DB.wf
  exact ⟨n1, n2, nodup_filter_ids _ _ _ n3, n4, b1, b2,
    fun r hr => b3 r (List.mem_of_mem_filter hr), b4⟩

theorem deleteQuestionRows_wf (db : DB) (qids : List Nat) (h : db.wf) :
    (db.deleteQuestionRows qids).wf := by
  obtain ⟨n1, n2, n3, n4, b1, b2, b3, b4⟩ := h
  unfold DB.deleteQuestionRows DB.wf
  exact ⟨n1, nodup_filter_ids _ _ _ n2, nodup_filter_ids _ _ _ n3, n4, b1,
    fun r hr => b2 r (List.mem_of_mem_filter hr),
    fun r hr => b3 r (List.mem_of_mem_filter hr), b4⟩

theorem deletePageRows_wf (db : DB) (pids : List Nat) (h : db.wf) :
    (db.deletePageRows pids).wf := by
  obtain ⟨n1, n2, n3, n4, b1, b2, b3, b4⟩ := h
  unfold DB.deletePageRows DB.wf
  exact ⟨nodup_filter_ids _ _ _ n1, nodup_filter_ids _ _ _ n2,
    nodup_filter_ids _ _ _ n3, n4,
    fun r hr => b1 r (List.mem_of_mem_filter hr),
    fun r hr => b2 r (List.mem_of_mem_filter hr),
    fun r hr => b3 r (List.mem_of_mem_filter hr), b4⟩

theorem deleteTheoryRows_wf (db : DB) (bids : List Nat) (h : db.wf) :
    (db.deleteTheoryRows bids).wf := by
  obtain ⟨n1, n2, n3, n4, b1, b2, b3, b4⟩ := h
  unfold DB.deleteTheoryRows DB.wf
  exact ⟨n1, n2, n3, nodup_filter_ids _ _ _ n4, b1, b2, b3,
    fun r hr => b4 r (List.mem_of_mem_filter hr)⟩

theorem writeQuizRow_wf (db : DB) (quizId : Nat) (title : JSStr)
    (descr : Option JSStr) (slug : JSStr) (h : db.wf) :
    (db.writeQuizRow quizId title descr slug).wf := h

/-! ### Reconciler lemmas: characterization of a successful first run -/

theorem bind_match_some (oid : Nat) (ex : List Nat) (x : Option Nat)
    (h : x.bind (fun k => if ex.contains k then some k else none) = some oid) :
    x = some oid ∧ oid ∈ ex := by
  cases x with
  | none => simp at h
  | some y =>
    by_cases hc : (ex.contains y) = true
    · simp only [Option.some_bind, if_pos hc, Option.some.injEq] at h
      subst h
      exact ⟨rfl, (contains_iff_mem ex y).mp hc⟩
    · simp only [Option.some_bind, if_neg hc] at h
      exact absurd h (by simp)

theorem syncOptionsLoop_spec (isIn isGap : Bool) (qid : Nat) (ex : List Nat) :
    ∀ (opts : List OptionInput) (db : DB),
      (∀ x ∈ ex, x < db.nextId) →
      (syncOptionsLoop isIn isGap qid ex opts db).1.pages = db.pages ∧
      (syncOptionsLoop isIn isGap qid ex opts db).1.questions = db.questions ∧
      (syncOptionsLoop isIn isGap qid ex opts db).1.theory_blocks = db.theory_blocks ∧
      db.nextId ≤ (syncOptionsLoop isIn isGap qid ex opts db).1.nextId ∧
      (∀ q', q' ≠ qid →
        (syncOptionsLoop isIn isGap qid ex opts db).1.optionIdsOf q' =
          db.optionIdsOf q') ∧
      (∃ fresh,
        (syncOptionsLoop isIn isGap qid ex opts db).1.optionIdsOf qid =
          db.optionIdsOf qid ++ fresh ∧
        (∀ x ∈ fresh, db.nextId ≤ x) ∧
        (∀ x ∈ fresh, x ∈ (syncOptionsLoop isIn isGap qid ex opts db).2.2) ∧
        (∀ x ∈ (syncOptionsLoop isIn isGap qid ex opts db).2.2, x ∈ ex ∨ x ∈ fresh)) ∧
      (∀ x ∈ (syncOptionsLoop isIn isGap qid ex opts db).2.2,
        x < (syncOptionsLoop isIn isGap qid ex opts db).1.nextId) ∧
      (syncOptionsLoop isIn isGap qid ex opts db).2.2.length = opts.length ∧
      (∀ op ∈ (syncOptionsLoop isIn isGap qid ex opts db).2.1, op.isOptionOp = true) ∧
      (db.wf → (syncOptionsLoop isIn isGap qid ex opts db).1.wf) := by
  intro opts
  induction opts with
  | nil =>
    intro db hex
    refine ⟨rfl, rfl, rfl, le_refl _, fun q' _ => rfl,
      ⟨[], by simp [syncOptionsLoop], by simp, by simp [syncOptionsLoop],
        by simp [syncOptionsLoop]⟩,
      by simp [syncOptionsLoop], by simp [syncOptionsLoop],
      by simp [syncOptionsLoop], fun h => h⟩
  | cons o rest ih =>
    intro db hex
    cases hm : o.id.bind (fun k => if ex.contains k then some k else none) with
    | some oid =>
      obtain ⟨hoid, hoidex⟩ := bind_match_some oid ex o.id hm
      have hfe := updateOptionRow_fetchEq db oid o.option_text
        (if isIn then true else o.is_correct) isGap (o.gap_index.getD 0)
      have ih' := ih (db.updateOptionRow oid o.option_text
        (if isIn then true else o.is_correct) isGap (o.gap_index.getD 0))
        (fun x hx => hex x hx)
      rcases hr : syncOptionsLoop isIn isGap qid ex rest
          (db.updateOptionRow oid o.option_text (if isIn then true else o.is_correct)
            isGap (o.gap_index.getD 0)) with ⟨dbF, opsF, keptF⟩
      rw [hr] at ih'
      obtain ⟨p1, p2, p3, p4, p5, ⟨fresh, f1, f2, f3, f4⟩, k1, k2, o1, w1⟩ := ih'
      simp only at p1 p2 p3 p4 p5 f1 f3 f4 k1 k2 o1 w1
      simp only [syncOptionsLoop, hm, hr]
      refine ⟨p1, p2, p3, p4, ?_, ⟨fresh, ?_, f2, ?_, ?_⟩, ?_, ?_, ?_, ?_⟩
      · intro q' hq'
        rw [p5 q' hq']
        exact hfe.2.2.1 q'
      · rw [f1]
        rw [hfe.2.2.1 qid]
      · intro x hx
        exact List.mem_cons_of_mem _ (f3 x hx)
      · intro x hx
        rcases List.mem_cons.mp hx with rfl | hx
        · exact Or.inl hoidex
        · exact f4 x hx
      · intro x hx
        rcases List.mem_cons.mp hx with rfl | hx
        · exact lt_of_lt_of_le (hex x hoidex) p4
        · exact k1 x hx
      · simp [k2]
      · intro op hop
        rcases List.mem_cons.mp hop with rfl | hop
        · rfl
        · exact o1 op hop
      · intro hwf
        exact w1 (updateOptionRow_wf db oid _ _ _ _ hwf)
    | none =>
      have hids := insertOptionRow_optionIdsOf db qid o.option_text
        (if isIn then true else o.is_correct)
        (if isGap then some (o.gap_index.getD 0) else none)
      have ih' := ih (db.insertOptionRow qid o.option_text
        (if isIn then true else o.is_correct)
        (if isGap then some (o.gap_index.getD 0) else none)).2
        (fun x hx => Nat.lt_succ_of_lt (hex x hx))
      rcases hr : syncOptionsLoop isIn isGap qid ex rest
          (db.insertOptionRow qid o.option_text (if isIn then true else o.is_correct)
            (if isGap then some (o.gap_index.getD 0) else none)).2 with ⟨dbF, opsF, keptF⟩
      rw [hr] at ih'
      obtain ⟨p1, p2, p3, p4, p5, ⟨fresh, f1, f2, f3, f4⟩, k1, k2, o1, w1⟩ := ih'
      simp only at p1 p2 p3 p4 p5 f1 f3 f4 k1 k2 o1 w1
      simp only [syncOptionsLoop, hm, hr]
      have hnext1 : (db.insertOptionRow qid o.option_text
          (if isIn then true else o.is_correct)
          (if isGap then some (o.gap_index.getD 0) else none)).2.nextId =
          db.nextId + 1 := rfl
      refine ⟨p1, p2, p3, ?_, ?_, ⟨db.nextId :: fresh, ?_, ?_, ?_, ?_⟩, ?_, ?_, ?_, ?_⟩
      · calc db.nextId ≤ db.nextId + 1 := Nat.le_succ _
          _ ≤ dbF.nextId := p4
      · intro q' hq'
        rw [p5 q' hq', hids q']
        have : (qid == q') = false := beq_eq_false_iff_ne.mpr (Ne.symm hq')
        simp [this]
      · rw [f1, hids qid]
        simp
      · intro x hx
        rcases List.mem_cons.mp hx with rfl | hx
        · exact le_refl _
        · calc db.nextId ≤ db.nextId + 1 := Nat.le_succ _
            _ ≤ x := f2 x hx
      · intro x hx
        rcases List.mem_cons.mp hx with rfl | hx
        · exact List.mem_cons_self _ _
        · exact List.mem_cons_of_mem _ (f3 x hx)
      · intro x hx
        rcases List.mem_cons.mp hx with rfl | hx
        · exact Or.inr (List.mem_cons_self _ _)
        · rcases f4 x hx with h | h
          · exact Or.inl h
          · exact Or.inr (List.mem_cons_of_mem _ h)
      · intro x hx
        rcases List.mem_cons.mp hx with rfl | hx
        · exact lt_of_lt_of_le (Nat.lt_succ_self db.nextId) p4
        · exact k1 x hx
      · simp [k2]
      · intro op hop
        rcases List.mem_cons.mp hop with rfl | hop
        · rfl
        · exact o1 op hop
      · intro hwf
        exact w1 (insertOptionRow_wf db qid _ _ _ hwf)

theorem idsOf_disjoint_generic {α : Type} (getId getPar : α → Nat) (l : List α)
    (hnd : (l.map getId).Nodup) {z1 z2 : Nat} (hne : z1 ≠ z2) :
    ∀ x ∈ ((l.filter (fun a => getPar a == z1)).map getId),
      x ∉ ((l.filter (fun a => getPar a == z2)).map getId) := by
  intro x h1 h2
  obtain ⟨r1, hr1, hx1⟩ := List.mem_map.mp h1
  obtain ⟨r2, hr2, hx2⟩ := List.mem_map.mp h2
  have heq : r1 = r2 := List.inj_on_of_nodup_map hnd
    (List.mem_of_mem_filter hr1) (List.mem_of_mem_filter hr2) (by rw [hx1, hx2])
  have hq1 := List.of_mem_filter hr1
  have hq2 := List.of_mem_filter hr2
  rw [heq] at hq1
  exact hne (by rw [← eq_of_beq hq1, ← eq_of_beq hq2])

theorem optionIdsOf_bound (db : DB) (hwf : db.wf) (z : Nat) :
    ∀ x ∈ db.optionIdsOf z, x < db.nextId := by
  intro x hx
  unfold DB.optionIdsOf at hx
  obtain ⟨r, hr, rfl⟩ := List.mem_map.mp hx
  exact hwf.2.2.2.2.2.2.1 r (List.mem_of_mem_filter hr)

theorem questionIdsOf_bound (db : DB) (hwf : db.wf) (z : Nat) :
    ∀ x ∈ db.questionIdsOf z, x < db.nextId := by
  intro x hx
  unfold DB.questionIdsOf at hx
  obtain ⟨r, hr, rfl⟩ := List.mem_map.mp hx
  exact hwf.2.2.2.2.2.1 r (List.mem_of_mem_filter hr)

theorem pageIdsOf_bound (db : DB) (hwf : db.wf) (z : Nat) :
    ∀ x ∈ db.pageIdsOf z, x < db.nextId := by
  intro x hx
  unfold DB.pageIdsOf at hx
  obtain ⟨r, hr, rfl⟩ := List.mem_map.mp hx
  exact hwf.2.2.2.2.1 r (List.mem_of_mem_filter hr)

theorem theoryIdsOf_bound (db : DB) (hwf : db.wf) (z : Nat) :
    ∀ x ∈ (db.theoryRowsOf z).map (fun r => r.id), x < db.nextId := by
  intro x hx
  unfold DB.theoryRowsOf at hx
  obtain ⟨r, hr, rfl⟩ := List.mem_map.mp hx
  exact hwf.2.2.2.2.2.2.2 r (List.mem_of_mem_filter hr)

theorem optionIdsOf_disjoint (db : DB) (hwf : db.wf) {z1 z2 : Nat} (hne : z1 ≠ z2) :
    ∀ x ∈ db.optionIdsOf z1, x ∉ db.optionIdsOf z2 := by
  unfold DB.optionIdsOf
  exact idsOf_disjoint_generic (fun o => o.id) (fun o => o.question_id) db.options
    hwf.2.2.1 hne

theorem questionIdsOf_disjoint (db : DB) (hwf : db.wf) {z1 z2 : Nat} (hne : z1 ≠ z2) :
    ∀ x ∈ db.questionIdsOf z1, x ∉ db.questionIdsOf z2 := by
  unfold DB.questionIdsOf
  exact idsOf_disjoint_generic (fun q => q.id) (fun q => q.page_id) db.questions
    hwf.2.1 hne

theorem not_contains_eq_true (l : List Nat) (x : Nat) (h : x ∉ l) :
    (!(l.contains x)) = true := by
  rw [Bool.not_eq_true']
  cases hb : l.contains x
  · rfl
  · exact absurd ((contains_iff_mem l x).mp hb) h

theorem not_mem_of_not_contains (l : List Nat) (x : Nat) (h : (!(l.contains x)) = true) :
    x ∉ l := by
  rw [Bool.not_eq_true'] at h
  intro hmem
  rw [(contains_iff_mem l x).mpr hmem] at h
  exact absurd h (by simp)

theorem syncOptions_spec (ptype : TestType) (qid : Nat) (opts : List OptionInput)
    (db : DB) (hwf : db.wf) :
    (syncOptions ptype qid opts db).2.1.pages = db.pages ∧
    (syncOptions ptype qid opts db).2.1.questions = db.questions ∧
    (syncOptions ptype qid opts db).2.1.theory_blocks = db.theory_blocks ∧
    db.nextId ≤ (syncOptions ptype qid opts db).2.1.nextId ∧
    (∀ q', q' ≠ qid →
      (syncOptions ptype qid opts db).2.1.optionIdsOf q' = db.optionIdsOf q') ∧
    (syncOptions ptype qid opts db).2.1.wf ∧
    (∀ op ∈ (syncOptions ptype qid opts db).2.2.1, op.isOptionOp = true) ∧
    ((syncOptions ptype qid opts db).1 = none →
      (∀ x, x ∈ (syncOptions ptype qid opts db).2.1.optionIdsOf qid ↔
        x ∈ (syncOptions ptype qid opts db).2.2.2) ∧
      (syncOptions ptype qid opts db).2.2.2.length =
        (optionsToSyncOf ptype opts).length ∧
      (gapBased ptype = false → (syncOptions ptype qid opts db).2.2.2 ≠ []) ∧
      (∀ x ∈ (syncOptions ptype qid opts db).2.2.2,
        x < (syncOptions ptype qid opts db).2.1.nextId)) := by
  have hex := optionIdsOf_bound db hwf qid
  have hL := syncOptionsLoop_spec (ptype == TestType.input)
    (ptype == TestType.input || ptype == TestType.select_gaps) qid
    (db.optionIdsOf qid) (optionsToSyncOf ptype opts) db hex
  rcases hr : syncOptionsLoop (ptype == TestType.input)
      (ptype == TestType.input || ptype == TestType.select_gaps) qid
      (db.optionIdsOf qid) (optionsToSyncOf ptype opts) db with ⟨dbF, opsF, keptF⟩
  rw [hr] at hL
  obtain ⟨p1, p2, p3, p4, p5, ⟨fresh, f1, f2, f3, f4⟩, k1, k2, o1, w1⟩ := hL
  simp only at p1 p2 p3 p4 p5 f1 f3 f4 k1 k2 o1 w1
  unfold syncOptions
  by_cases hc : (!(ptype == TestType.input || ptype == TestType.select_gaps) &&
      (optionsToSyncOf ptype opts).length == 0) = true
  · simp only [hc, if_true]
    exact ⟨by simp, by simp, by simp, by simp, by simp, hwf, by simp, by simp⟩
  · rw [Bool.not_eq_true] at hc
    simp only [hc, Bool.false_eq_true, if_false, hr]
    have hchoice : gapBased ptype = false → keptF ≠ [] := by
      intro hg
      unfold gapBased at hg
      have hlen0 : (optionsToSyncOf ptype opts).length ≠ 0 := by
        intro h0
        rw [Bool.and_eq_false_iff] at hc
        rcases hc with hc | hc
        · rw [Bool.not_eq_false'] at hc
          rw [hg] at hc
          exact Bool.false_ne_true hc
        · rw [beq_eq_false_iff_ne] at hc
          exact hc h0
      intro hk
      apply hlen0
      rw [← k2, hk]
      rfl
    by_cases hd : ((db.optionIdsOf qid).filter (fun x => !(keptF.contains x))) = []
    · simp only [hd, List.length_nil, bne_self_eq_false, Bool.false_eq_true, if_false]
      refine ⟨p1, p2, p3, p4, p5, w1 hwf, o1, fun _ => ⟨?_, k2, hchoice, k1⟩⟩
      intro x
      rw [f1]
      constructor
      · intro hx
        rcases List.mem_append.mp hx with hx | hx
        · have := List.filter_eq_nil_iff.mp hd x hx
          rw [Bool.not_eq_true, Bool.not_eq_false'] at this
          exact (contains_iff_mem keptF x).mp this
        · exact f3 x hx
      · intro hx
        rcases f4 x hx with hx2 | hx2
        · exact List.mem_append.mpr (Or.inl hx2)
        · exact List.mem_append.mpr (Or.inr hx2)
    · have hcond2 : (((db.optionIdsOf qid).filter
          (fun x => !(keptF.contains x))).length != 0) = true := by
        rw [bne_iff_ne]
        intro h0
        exact hd (List.length_eq_zero.mp h0)
      simp only [hcond2, if_true]
      refine ⟨p1, p2, p3, p4, ?_, deleteOptionRows_wf _ _ (w1 hwf), ?_,
        fun _ => ⟨?_, k2, hchoice, k1⟩⟩
      · intro q' hq'
        rw [deleteOptionRows_optionIdsOf, p5 q' hq']
        rw [List.filter_eq_self]
        intro a ha
        have hnot : a ∉ (db.optionIdsOf qid).filter (fun y => !(keptF.contains y)) :=
          fun hmem => optionIdsOf_disjoint db hwf hq' a ha (List.mem_of_mem_filter hmem)
        exact not_contains_eq_true _ _ hnot
      · intro op hop
        rcases List.mem_append.mp hop with hop | hop
        · exact o1 op hop
        · rw [List.mem_singleton.mp hop]
          rfl
      · intro x
        rw [deleteOptionRows_optionIdsOf, f1, List.mem_filter]
        constructor
        · rintro ⟨hx, hpx⟩
          rcases List.mem_append.mp hx with hx2 | hx2
          · by_cases hmem : x ∈ keptF
            · exact hmem
            · exfalso
              have hxToDel : x ∈ (db.optionIdsOf qid).filter
                  (fun y => !(keptF.contains y)) := by
                rw [List.mem_filter]
                exact ⟨hx2, by simpa using hmem⟩
              exact not_mem_of_not_contains _ _ hpx hxToDel
          · exact f3 x hx2
        · intro hx
          rcases f4 x hx with hold | hfresh
          · have hxOut : x ∉ (db.optionIdsOf qid).filter
                (fun y => !(keptF.contains y)) := by
              intro hmem
              have h2 := (List.mem_filter.mp hmem).2
              simp only [Bool.not_eq_true'] at h2
              exact absurd ((contains_iff_mem keptF x).mpr hx)
                (by rw [h2]; exact Bool.false_ne_true)
            refine ⟨List.mem_append.mpr (Or.inl hold), not_contains_eq_true _ _ hxOut⟩
          · have hxOut : x ∉ (db.optionIdsOf qid).filter
                (fun y => !(keptF.contains y)) :=
              fun hmem => absurd (hex x (List.mem_of_mem_filter hmem))
                (not_lt.mpr (f2 x hfresh))
            refine ⟨List.mem_append.mpr (Or.inr hfresh), not_contains_eq_true _ _ hxOut⟩

theorem pageIdsOf_congr_table {db db' : DB} (h : db'.pages = db.pages) (z : Nat) :
    db'.pageIdsOf z = db.pageIdsOf z := by
  unfold DB.pageIdsOf
  rw [h]

theorem questionIdsOf_congr_table {db db' : DB} (h : db'.questions = db.questions)
    (z : Nat) : db'.questionIdsOf z = db.questionIdsOf z := by
  unfold DB.questionIdsOf
  rw [h]

theorem optionIdsOf_congr_table {db db' : DB} (h : db'.options = db.options)
    (z : Nat) : db'.optionIdsOf z = db.optionIdsOf z := by
  unfold DB.optionIdsOf
  rw [h]

theorem theoryRowsOf_congr_table {db db' : DB} (h : db'.theory_blocks = db.theory_blocks)
    (z : Nat) : db'.theoryRowsOf z = db.theoryRowsOf z := by
  unfold DB.theoryRowsOf
  rw [h]

theorem optionOp_isQuestionLevelOp (op : Op) (h : op.isOptionOp = true) :
    op.isQuestionLevelOp = true := by
  cases op <;> first | rfl | exact absurd h (by simp [Op.isOptionOp])

theorem questionLevelOp_isPageLevelOp (op : Op) (h : op.isQuestionLevelOp = true) :
    op.isPageLevelOp = true := by
  cases op <;> first | rfl | exact absurd h (by simp [Op.isQuestionLevelOp])

theorem carriedIds_cons {α : Type} (getId : α → Option Nat) (a : α) (l : List α) :
    carriedIds getId (a :: l) = match getId a with
      | some i => i :: carriedIds getId l
      | none => carriedIds getId l := by
  unfold carriedIds
  rw [List.filterMap_cons]
  cases getId a <;> rfl

theorem carriedIds_nodup_tail {α : Type} (getId : α → Option Nat) (a : α) (l : List α)
    (h : (carriedIds getId (a :: l)).Nodup) : (carriedIds getId l).Nodup := by
  rw [carriedIds_cons] at h
  cases hg : getId a with
  | some i =>
    rw [hg] at h
    exact h.of_cons
  | none =>
    rw [hg] at h
    exact h

theorem mem_carriedIds {α : Type} (getId : α → Option Nat) (l : List α) (a : α)
    (i : Nat) (ha : a ∈ l) (hi : getId a = some i) : i ∈ carriedIds getId l := by
  unfold carriedIds
  exact List.mem_filterMap.mpr ⟨a, ha, hi⟩

theorem carriedIds_subset_cons {α : Type} (getId : α → Option Nat) (a : α) (l : List α)
    (x : Nat) (h : x ∈ carriedIds getId l) : x ∈ carriedIds getId (a :: l) := by
  rw [carriedIds_cons]
  cases hg : getId a with
  | some i => exact List.mem_cons_of_mem i h
  | none => exact h

theorem syncQuestionsLoop_spec (ptype : TestType) (pid : Nat) (ex : List Nat) :
    ∀ (qs : List QuestionInput) (db : DB),
      db.wf →
      (∀ x ∈ ex, x < db.nextId) →
      (carriedIds (fun q2 => q2.id) qs).Nodup →
      (syncQuestionsLoop ptype pid ex qs db).1 = none →
      (syncQuestionsLoop ptype pid ex qs db).2.1.pages = db.pages ∧
      (syncQuestionsLoop ptype pid ex qs db).2.1.theory_blocks = db.theory_blocks ∧
      db.nextId ≤ (syncQuestionsLoop ptype pid ex qs db).2.1.nextId ∧
      (syncQuestionsLoop ptype pid ex qs db).2.1.wf ∧
      (∀ p', p' ≠ pid →
        (syncQuestionsLoop ptype pid ex qs db).2.1.questionIdsOf p' =
          db.questionIdsOf p') ∧
      (∃ freshQ,
        (syncQuestionsLoop ptype pid ex qs db).2.1.questionIdsOf pid =
          db.questionIdsOf pid ++ freshQ ∧
        (∀ x ∈ freshQ, db.nextId ≤ x) ∧
        (∀ x ∈ freshQ, ∃ k ∈ (syncQuestionsLoop ptype pid ex qs db).2.2.2, x = k.qid) ∧
        (∀ k ∈ (syncQuestionsLoop ptype pid ex qs db).2.2.2,
          (k.qid ∈ ex ∧ k.qid ∈ carriedIds (fun q2 => q2.id) qs) ∨ k.qid ∈ freshQ)) ∧
      (∀ q'', (∀ k ∈ (syncQuestionsLoop ptype pid ex qs db).2.2.2, q'' ≠ k.qid) →
        (syncQuestionsLoop ptype pid ex qs db).2.1.optionIdsOf q'' =
          db.optionIdsOf q'') ∧
      List.Forall₂ (KeptQOk ptype (syncQuestionsLoop ptype pid ex qs db).2.1) qs
        (syncQuestionsLoop ptype pid ex qs db).2.2.2 ∧
      (∀ op ∈ (syncQuestionsLoop ptype pid ex qs db).2.2.1,
        op.isQuestionLevelOp = true) := by
  intro qs
  induction qs with
  | nil =>
    intro db hwf hex hnd hnone
    exact ⟨rfl, rfl, le_refl _, hwf, fun p' _ => rfl,
      ⟨[], by simp [syncQuestionsLoop], by simp, by simp [syncQuestionsLoop],
        by simp [syncQuestionsLoop]⟩,
      fun q'' _ => rfl, List.Forall₂.nil, by simp [syncQuestionsLoop]⟩
  | cons q rest ih =>
    intro db hwf hex hnd
    cases hm : q.id.bind (fun k => if ex.contains k then some k else none) with
    | some qid =>
      obtain ⟨hqid, hqidex⟩ := bind_match_some qid ex q.id hm
      have hwf1 : (db.updateQuestionRow qid q.question_title (jsOrNull q.explanation)
          q.order_index).wf := updateQuestionRow_wf db qid _ _ _ hwf
      have hfe1 := updateQuestionRow_fetchEq db qid q.question_title
        (jsOrNull q.explanation) q.order_index
      have hS := syncOptions_spec ptype qid q.options
        (db.updateQuestionRow qid q.question_title (jsOrNull q.explanation)
          q.order_index) hwf1
      rcases hsync : syncOptions ptype qid q.options
          (db.updateQuestionRow qid q.question_title (jsOrNull q.explanation)
            q.order_index) with ⟨err2, db2, ops2, keptO⟩
      rw [hsync] at hS
      obtain ⟨s1, s2, s3, s4, s5, s6, s7, s8⟩ := hS
      simp only at s1 s2 s3 s4 s5 s6 s7 s8
      cases err2 with
      | some e =>
        intro hnone
        simp only [syncQuestionsLoop, hm, hsync] at hnone
        exact absurd hnone (by simp)
      | none =>
        obtain ⟨s8a, s8b, s8c, s8d⟩ := s8 rfl
        have hnd' : (carriedIds (fun q2 => q2.id) rest).Nodup :=
          carriedIds_nodup_tail _ q rest hnd
        have hndc : qid ∉ carriedIds (fun q2 => q2.id) rest := by
          have h2 : (qid :: carriedIds (fun q2 => q2.id) rest).Nodup := by
            have h3 := hnd
            rw [carriedIds_cons, hqid] at h3
            exact h3
          exact (List.nodup_cons.mp h2).1
        have hnx1 : db.nextId ≤ db2.nextId := s4
        have ih' := ih db2 s6 (fun x hx => lt_of_lt_of_le (hex x hx) hnx1) hnd'
        rcases hr : syncQuestionsLoop ptype pid ex rest db2 with ⟨err3, db3, ops3, kept3⟩
        rw [hr] at ih'
        cases err3 with
        | some e =>
          intro hnone
          simp only [syncQuestionsLoop, hm, hsync, hr] at hnone
          exact absurd hnone (by simp)
        | none =>
          obtain ⟨p1, p2, p3, p4, p5, ⟨freshQ, f1, f2, f3, f4⟩, L3, FA, OPS⟩ := ih' rfl
          simp only at p1 p2 p3 p4 p5 f1 f3 f4 L3 FA OPS
          simp only [syncQuestionsLoop, hm, hsync, hr]
          intro _
          have hsep : ∀ k ∈ kept3, qid ≠ k.qid := by
            intro k hk
            rcases f4 k hk with ⟨_, hkcar⟩ | hkfr
            · intro heq
              rw [heq] at hndc
              exact hndc hkcar
            · intro heq
              have h1 : qid < db2.nextId := lt_of_lt_of_le (hex qid hqidex) hnx1
              have h2 : db2.nextId ≤ qid := by
                rw [heq]
                exact f2 k.qid hkfr
              exact absurd h1 (not_lt.mpr h2)
          have hQpid : db2.questionIdsOf pid = db.questionIdsOf pid := by
            rw [questionIdsOf_congr_table s2 pid, hfe1.2.1 pid]
          have hnx : db.nextId ≤ db3.nextId := le_trans hnx1 p3
          have hOhead : db3.optionIdsOf qid = db2.optionIdsOf qid := L3 qid hsep
          have hheadOk : KeptQOk ptype db3 q ⟨qid, keptO⟩ := by
            refine ⟨?_, s8b, s8c, lt_of_lt_of_le (hex qid hqidex) hnx, ?_⟩
            · intro x
              rw [hOhead]
              exact s8a x
            · intro x hx
              exact lt_of_lt_of_le (s8d x hx) p3
          refine ⟨by rw [p1, s1]; rfl, by rw [p2, s3]; rfl, hnx, p4, ?_,
            ⟨freshQ, ?_, ?_, ?_, ?_⟩, ?_, List.Forall₂.cons hheadOk FA, ?_⟩
          · intro p' hp'
            rw [p5 p' hp', questionIdsOf_congr_table s2 p', hfe1.2.1 p']
          · rw [f1, hQpid]
          · intro x hx
            exact le_trans hnx1 (f2 x hx)
          · intro x hx
            obtain ⟨k, hk, hkq⟩ := f3 x hx
            exact ⟨k, List.mem_cons_of_mem _ hk, hkq⟩
          · intro k hk
            rcases List.mem_cons.mp hk with rfl | hk
            · exact Or.inl ⟨hqidex,
                mem_carriedIds (fun q2 => q2.id) (q :: rest) q qid
                  (List.mem_cons_self q rest) hqid⟩
            · rcases f4 k hk with ⟨hkex, hkcar⟩ | hkfr
              · exact Or.inl ⟨hkex, carriedIds_subset_cons _ q rest _ hkcar⟩
              · exact Or.inr hkfr
          · intro q'' hq''
            have hq''h : q'' ≠ qid :=
              hq'' ⟨qid, keptO⟩ (List.mem_cons_self _ _)
            have hq''t : ∀ k ∈ kept3, q'' ≠ k.qid :=
              fun k hk => hq'' k (List.mem_cons_of_mem _ hk)
            rw [L3 q'' hq''t, s5 q'' hq''h, hfe1.2.2.1 q'']
          · intro op hop
            rcases List.mem_cons.mp hop with rfl | hop
            · rfl
            · rcases List.mem_append.mp hop with hop | hop
              · exact optionOp_isQuestionLevelOp op (s7 op hop)
              · exact OPS op hop
    | none =>
      have hwf1 : (db.insertQuestionRow pid q.question_title (jsOrNull q.explanation)
          q.order_index).2.wf := insertQuestionRow_wf db pid _ _ _ hwf
      have hfst : (db.insertQuestionRow pid q.question_title (jsOrNull q.explanation)
          q.order_index).1 = db.nextId := rfl
      have hqidsIns := insertQuestionRow_questionIdsOf db pid q.question_title
        (jsOrNull q.explanation) q.order_index
      have hS := syncOptions_spec ptype (db.insertQuestionRow pid q.question_title
          (jsOrNull q.explanation) q.order_index).1 q.options
        (db.insertQuestionRow pid q.question_title (jsOrNull q.explanation)
          q.order_index).2 hwf1
      simp only [hfst] at hS
      rcases hsync : syncOptions ptype db.nextId q.options
          (db.insertQuestionRow pid q.question_title (jsOrNull q.explanation)
            q.order_index).2 with ⟨err2, db2, ops2, keptO⟩
      rw [hsync] at hS
      obtain ⟨s1, s2, s3, s4, s5, s6, s7, s8⟩ := hS
      simp only at s1 s2 s3 s4 s5 s6 s7 s8
      cases err2 with
      | some e =>
        intro hnone
        simp only [syncQuestionsLoop, hm, hfst, hsync] at hnone
        exact absurd hnone (by simp)
      | none =>
        obtain ⟨s8a, s8b, s8c, s8d⟩ := s8 rfl
        have hnd' : (carriedIds (fun q2 => q2.id) rest).Nodup :=
          carriedIds_nodup_tail _ q rest hnd
        have hnx1 : db.nextId + 1 ≤ db2.nextId := s4
        have ih' := ih db2 s6 (fun x hx => lt_of_lt_of_le (hex x hx)
          (le_trans (Nat.le_succ _) hnx1)) hnd'
        rcases hr : syncQuestionsLoop ptype pid ex rest db2 with ⟨err3, db3, ops3, kept3⟩
        rw [hr] at ih'
        cases err3 with
        | some e =>
          intro hnone
          simp only [syncQuestionsLoop, hm, hfst, hsync, hr] at hnone
          exact absurd hnone (by simp)
        | none =>
          obtain ⟨p1, p2, p3, p4, p5, ⟨freshQ, f1, f2, f3, f4⟩, L3, FA, OPS⟩ := ih' rfl
          simp only at p1 p2 p3 p4 p5 f1 f3 f4 L3 FA OPS
          simp only [syncQuestionsLoop, hm, hfst, hsync, hr]
          intro _
          have hsep : ∀ k ∈ kept3, db.nextId ≠ k.qid := by
            intro k hk
            rcases f4 k hk with ⟨hkex, _⟩ | hkfr
            · intro heq
              have h1 := hex k.qid hkex
              rw [← heq] at h1
              exact absurd h1 (lt_irrefl _)
            · intro heq
              have h2 : db2.nextId ≤ db.nextId := by
                rw [heq]
                exact f2 k.qid hkfr
              exact absurd (lt_of_lt_of_le (Nat.lt_succ_self db.nextId) hnx1)
                (not_lt.mpr h2)
          have hQpid : db2.questionIdsOf pid = db.questionIdsOf pid ++ [db.nextId] := by
            rw [questionIdsOf_congr_table s2 pid, hqidsIns pid]
            simp
          have hnx : db.nextId ≤ db3.nextId :=
            le_trans (Nat.le_succ _) (le_trans hnx1 p3)
          have hOhead : db3.optionIdsOf db.nextId = db2.optionIdsOf db.nextId :=
            L3 db.nextId hsep
          have hheadOk : KeptQOk ptype db3 q ⟨db.nextId, keptO⟩ := by
            refine ⟨?_, s8b, s8c, lt_of_le_of_lt (le_refl _)
              (lt_of_lt_of_le (Nat.lt_succ_self _) (le_trans hnx1 p3)), ?_⟩
            · intro x
              rw [hOhead]
              exact s8a x
            · intro x hx
              exact lt_of_lt_of_le (s8d x hx) p3
          refine ⟨by rw [p1, s1]; rfl, by rw [p2, s3]; rfl, hnx, p4, ?_,
            ⟨db.nextId :: freshQ, ?_, ?_, ?_, ?_⟩, ?_, List.Forall₂.cons hheadOk FA, ?_⟩
          · intro p' hp'
            rw [p5 p' hp', questionIdsOf_congr_table s2 p', hqidsIns p']
            have hb : (pid == p') = false := beq_eq_false_iff_ne.mpr (Ne.symm hp')
            simp [hb]
          · rw [f1, hQpid, List.append_assoc]
            rfl
          · intro x hx
            rcases List.mem_cons.mp hx with rfl | hx
            · exact le_refl _
            · exact le_trans (Nat.le_succ _) (le_trans hnx1 (f2 x hx))
          · intro x hx
            rcases List.mem_cons.mp hx with rfl | hx
            · exact ⟨⟨db.nextId, keptO⟩, List.mem_cons_self _ _, rfl⟩
            · obtain ⟨k, hk, hkq⟩ := f3 x hx
              exact ⟨k, List.mem_cons_of_mem _ hk, hkq⟩
          · intro k hk
            rcases List.mem_cons.mp hk with rfl | hk
            · exact Or.inr (List.mem_cons_self _ _)
            · rcases f4 k hk with ⟨hkex, hkcar⟩ | hkfr
              · exact Or.inl ⟨hkex, carriedIds_subset_cons _ q rest _ hkcar⟩
              · exact Or.inr (List.mem_cons_of_mem _ hkfr)
          · intro q'' hq''
            have hq''h : q'' ≠ db.nextId :=
              hq'' ⟨db.nextId, keptO⟩ (List.mem_cons_self _ _)
            have hq''t : ∀ k ∈ kept3, q'' ≠ k.qid :=
              fun k hk => hq'' k (List.mem_cons_of_mem _ hk)
            rw [L3 q'' hq''t, s5 q'' hq''h]
            exact optionIdsOf_congr_table rfl q''
          · intro op hop
            rcases List.mem_cons.mp hop with rfl | hop
            · rfl
            · rcases List.mem_append.mp hop with hop | hop
              · exact optionOp_isQuestionLevelOp op (s7 op hop)
              · exact OPS op hop

theorem forall₂_imp_mem {α β : Type} {R S : α → β → Prop} :
    ∀ {l1 : List α} {l2 : List β}, List.Forall₂ R l1 l2 →
      (∀ a ∈ l1, ∀ b ∈ l2, R a b → S a b) → List.Forall₂ S l1 l2 := by
  intro l1 l2 h
  induction h with
  | nil => exact fun _ => List.Forall₂.nil
  | cons hab _ ih =>
    intro hmem
    exact List.Forall₂.cons
      (hmem _ (List.mem_cons_self _ _) _ (List.mem_cons_self _ _) hab)
      (ih fun a ha b hb => hmem a (List.mem_cons_of_mem _ ha) b
        (List.mem_cons_of_mem _ hb))

theorem syncQuestions_spec (ptype : TestType) (pid : Nat) (qs : List QuestionInput)
    (db : DB) (hwf : db.wf)
    (hnd : (carriedIds (fun q2 => q2.id) qs).Nodup) :
    (syncQuestions ptype pid qs db).1 = none →
      (syncQuestions ptype pid qs db).2.1.pages = db.pages ∧
      (syncQuestions ptype pid qs db).2.1.theory_blocks = db.theory_blocks ∧
      db.nextId ≤ (syncQuestions ptype pid qs db).2.1.nextId ∧
      (syncQuestions ptype pid qs db).2.1.wf ∧
      (∀ p', p' ≠ pid →
        (syncQuestions ptype pid qs db).2.1.questionIdsOf p' = db.questionIdsOf p') ∧
      (∀ x, x ∈ (syncQuestions ptype pid qs db).2.1.questionIdsOf pid ↔
        ∃ k ∈ (syncQuestions ptype pid qs db).2.2.2, x = k.qid) ∧
      (∀ q'', (∀ k ∈ (syncQuestions ptype pid qs db).2.2.2, q'' ≠ k.qid) →
        q'' ∉ db.questionIdsOf pid →
        (syncQuestions ptype pid qs db).2.1.optionIdsOf q'' = db.optionIdsOf q'') ∧
      List.Forall₂ (KeptQOk ptype (syncQuestions ptype pid qs db).2.1) qs
        (syncQuestions ptype pid qs db).2.2.2 ∧
      (∀ k ∈ (syncQuestions ptype pid qs db).2.2.2,
        k.qid ∈ db.questionIdsOf pid ∨ db.nextId ≤ k.qid) ∧
      (∀ op ∈ (syncQuestions ptype pid qs db).2.2.1, op.isQuestionLevelOp = true) := by
  have hexb := questionIdsOf_bound db hwf pid
  have hL := syncQuestionsLoop_spec ptype pid (db.questionIdsOf pid) qs db hwf hexb hnd
  rcases hloop : syncQuestionsLoop ptype pid (db.questionIdsOf pid) qs db with
    ⟨err1, db1, ops1, kept1⟩
  rw [hloop] at hL
  cases err1 with
  | some e =>
    intro hnone
    simp only [syncQuestions, hloop] at hnone
    exact absurd hnone (by simp)
  | none =>
    obtain ⟨p1, p2, p3, p4, p5, ⟨freshQ, f1, f2, f3, f4⟩, L3, FA, OPS⟩ := hL rfl
    simp only at p1 p2 p3 p4 p5 f1 f3 f4 L3 FA OPS
    intro _
    have hkmem : ∀ k ∈ kept1, k.qid ∈ kept1.map (fun k2 => k2.qid) :=
      fun k hk => List.mem_map.mpr ⟨k, hk, rfl⟩
    by_cases hd : ((db.questionIdsOf pid).filter
        (fun x => !((kept1.map (fun k2 => k2.qid)).contains x))) = []
    · simp only [syncQuestions, hloop, hd, List.length_nil, bne_self_eq_false,
        Bool.false_eq_true, if_false]
      refine ⟨p1, p2, p3, p4, p5, ?_, fun q'' hq'' _ => L3 q'' hq'', FA, ?_, OPS⟩
      · intro x
        rw [f1]
        constructor
        · intro hx
          rcases List.mem_append.mp hx with hx | hx
          · have := List.filter_eq_nil_iff.mp hd x hx
            rw [Bool.not_eq_true, Bool.not_eq_false'] at this
            obtain ⟨k, hk, hkq⟩ := List.mem_map.mp ((contains_iff_mem _ x).mp this)
            exact ⟨k, hk, hkq.symm⟩
          · exact f3 x hx
        · rintro ⟨k, hk, rfl⟩
          rcases f4 k hk with ⟨hkex, _⟩ | hkfr
          · exact List.mem_append.mpr (Or.inl hkex)
          · exact List.mem_append.mpr (Or.inr hkfr)
      · intro k hk
        rcases f4 k hk with ⟨hkex, _⟩ | hkfr
        · exact Or.inl hkex
        · exact Or.inr (f2 k.qid hkfr)
    · have hcond2 : (((db.questionIdsOf pid).filter
          (fun x => !((kept1.map (fun k2 => k2.qid)).contains x))).length != 0) = true := by
        rw [bne_iff_ne]
        intro h0
        exact hd (List.length_eq_zero.mp h0)
      simp only [syncQuestions, hloop, hcond2, if_true]
      have htoDelSub : ∀ x ∈ (db.questionIdsOf pid).filter
          (fun x => !((kept1.map (fun k2 => k2.qid)).contains x)), x ∈ db.questionIdsOf pid :=
        fun x hx => List.mem_of_mem_filter hx
      have hkeptNotDel : ∀ k ∈ kept1, k.qid ∉ (db.questionIdsOf pid).filter
          (fun x => !((kept1.map (fun k2 => k2.qid)).contains x)) := by
        intro k hk hmem
        have h2 := (List.mem_filter.mp hmem).2
        rw [Bool.not_eq_true'] at h2
        exact absurd ((contains_iff_mem _ _).mpr (hkmem k hk))
          (by rw [h2]; exact Bool.false_ne_true)
      have hdelO : ∀ k ∈ kept1,
          (db1.deleteQuestionRows ((db.questionIdsOf pid).filter
            (fun x => !((kept1.map (fun k2 => k2.qid)).contains x)))).optionIdsOf k.qid =
            db1.optionIdsOf k.qid := by
        intro k hk
        rw [deleteQuestionRows_optionIdsOf]
        have hcf : (((db.questionIdsOf pid).filter
            (fun x => !((kept1.map (fun k2 => k2.qid)).contains x))).contains k.qid) =
            false := by
          rw [← Bool.not_eq_true]
          intro hc
          exact hkeptNotDel k hk ((contains_iff_mem _ _).mp hc)
        simp only [hcf, Bool.false_eq_true, if_false]
      refine ⟨p1, p2, p3, deleteQuestionRows_wf _ _ p4, ?_, ?_, ?_, ?_, ?_, ?_⟩
      · intro p' hp'
        rw [deleteQuestionRows_questionIdsOf, p5 p' hp']
        rw [List.filter_eq_self]
        intro a ha
        have hnot : a ∉ (db.questionIdsOf pid).filter
            (fun x => !((kept1.map (fun k2 => k2.qid)).contains x)) :=
          fun hmem => questionIdsOf_disjoint db hwf hp' a ha (htoDelSub a hmem)
        exact not_contains_eq_true _ _ hnot
      · intro x
        rw [deleteQuestionRows_questionIdsOf, f1, List.mem_filter]
        constructor
        · rintro ⟨hx, hpx⟩
          rcases List.mem_append.mp hx with hx2 | hx2
          · by_cases hmem : x ∈ kept1.map (fun k2 => k2.qid)
            · obtain ⟨k, hk, hkq⟩ := List.mem_map.mp hmem
              exact ⟨k, hk, hkq.symm⟩
            · exfalso
              have hxToDel : x ∈ (db.questionIdsOf pid).filter
                  (fun y => !((kept1.map (fun k2 => k2.qid)).contains y)) := by
                rw [List.mem_filter]
                exact ⟨hx2, by simpa using hmem⟩
              exact not_mem_of_not_contains _ _ hpx hxToDel
          · exact f3 x hx2
        · rintro ⟨k, hk, rfl⟩
          have hxOut : k.qid ∉ (db.questionIdsOf pid).filter
              (fun y => !((kept1.map (fun k2 => k2.qid)).contains y)) :=
            hkeptNotDel k hk
          rcases f4 k hk with ⟨hkex, _⟩ | hkfr
          · exact ⟨List.mem_append.mpr (Or.inl hkex), not_contains_eq_true _ _ hxOut⟩
          · exact ⟨List.mem_append.mpr (Or.inr hkfr), not_contains_eq_true _ _ hxOut⟩
      · intro q'' hq'' hq''ex
        rw [deleteQuestionRows_optionIdsOf]
        have hcf : (((db.questionIdsOf pid).filter
            (fun x => !((kept1.map (fun k2 => k2.qid)).contains x))).contains q'') =
            false := by
          rw [← Bool.not_eq_true]
          intro hc
          exact hq''ex (htoDelSub q'' ((contains_iff_mem _ _).mp hc))
        simp only [hcf, Bool.false_eq_true, if_false]
        exact L3 q'' hq''
      · refine forall₂_imp_mem FA ?_
        intro q2 _ k hk hOk
        obtain ⟨o1, o2, o3, o4, o5⟩ := hOk
        refine ⟨?_, o2, o3, o4, o5⟩
        intro x
        rw [hdelO k hk]
        exact o1 x
      · intro k hk
        rcases f4 k hk with ⟨hkex, _⟩ | hkfr
        · exact Or.inl hkex
        · exact Or.inr (f2 k.qid hkfr)
      · intro op hop
        rcases List.mem_append.mp hop with hop | hop
        · exact OPS op hop
        · rw [List.mem_singleton.mp hop]
          rfl

theorem syncPagesLoop_spec (quizId : Nat) (ex : List Nat) :
    ∀ (ps : List PageInput) (db : DB),
      db.wf →
      (∀ x ∈ ex, x < db.nextId) →
      (∀ x ∈ ex, x ∈ db.pageIdsOf quizId) →
      (carriedIds (fun p2 => p2.id) ps).Nodup →
      (∀ p2 ∈ ps, (carriedIds (fun q2 => q2.id) p2.questions).Nodup) →
      (syncPagesLoop quizId ex ps db).1 = none →
      (syncPagesLoop quizId ex ps db).2.1.theory_blocks = db.theory_blocks ∧
      db.nextId ≤ (syncPagesLoop quizId ex ps db).2.1.nextId ∧
      (syncPagesLoop quizId ex ps db).2.1.wf ∧
      (∀ z, z ≠ quizId →
        (syncPagesLoop quizId ex ps db).2.1.pageIdsOf z = db.pageIdsOf z) ∧
      (∃ freshP,
        (syncPagesLoop quizId ex ps db).2.1.pageIdsOf quizId =
          db.pageIdsOf quizId ++ freshP ∧
        (∀ x ∈ freshP, db.nextId ≤ x) ∧
        (∀ x ∈ freshP, ∃ k ∈ (syncPagesLoop quizId ex ps db).2.2.2, x = k.pid) ∧
        (∀ k ∈ (syncPagesLoop quizId ex ps db).2.2.2,
          (k.pid ∈ ex ∧ k.pid ∈ carriedIds (fun p2 => p2.id) ps) ∨ k.pid ∈ freshP)) ∧
      (∀ p'', (∀ k ∈ (syncPagesLoop quizId ex ps db).2.2.2, p'' ≠ k.pid) →
        (syncPagesLoop quizId ex ps db).2.1.questionIdsOf p'' =
          db.questionIdsOf p'') ∧
      (∀ q'' z0, q'' ∈ db.questionIdsOf z0 →
        (∀ k ∈ (syncPagesLoop quizId ex ps db).2.2.2, k.pid ≠ z0) →
        (∀ k ∈ (syncPagesLoop quizId ex ps db).2.2.2, ∀ kq ∈ k.questions,
          q'' ≠ kq.qid) →
        (syncPagesLoop quizId ex ps db).2.1.optionIdsOf q'' = db.optionIdsOf q'') ∧
      List.Forall₂ (KeptPOk quizId (syncPagesLoop quizId ex ps db).2.1) ps
        (syncPagesLoop quizId ex ps db).2.2.2 ∧
      (∀ k ∈ (syncPagesLoop quizId ex ps db).2.2.2, ∀ kq ∈ k.questions,
        kq.qid ∈ db.questionIdsOf k.pid ∨ db.nextId ≤ kq.qid) ∧
      (∀ op ∈ (syncPagesLoop quizId ex ps db).2.2.1, op.isPageLevelOp = true) := by
  intro ps
  induction ps with
  | nil =>
    intro db hwf hex hexm hnd hq hnone
    exact ⟨rfl, le_refl _, hwf, fun z _ => rfl,
      ⟨[], by simp [syncPagesLoop], by simp, by simp [syncPagesLoop],
        by simp [syncPagesLoop]⟩,
      fun p'' _ => rfl, fun q'' z0 _ _ _ => rfl, List.Forall₂.nil,
      by simp [syncPagesLoop], by simp [syncPagesLoop]⟩
  | cons p rest ih =>
    intro db hwf hex hexm hnd hq
    cases hm : p.id.bind (fun k => if ex.contains k then some k else none) with
    | some pid =>
      obtain ⟨hpidEq, hpidex⟩ := bind_match_some pid ex p.id hm
      have hwf1 : (db.updatePageRow pid p.type (jsOrNull p.title) p.order_index).wf :=
        updatePageRow_wf db pid _ _ _ hwf
      have hfe1 := updatePageRow_fetchEq db pid p.type (jsOrNull p.title) p.order_index
      have hQ := syncQuestions_spec p.type pid p.questions
        (db.updatePageRow pid p.type (jsOrNull p.title) p.order_index) hwf1
        (hq p (List.mem_cons_self p rest))
      rcases hsync : syncQuestions p.type pid p.questions
          (db.updatePageRow pid p.type (jsOrNull p.title) p.order_index) with
        ⟨err2, db2, ops2, keptQ⟩
      rw [hsync] at hQ
      cases err2 with
      | some e =>
        intro hnone
        simp only [syncPagesLoop, hm, hsync] at hnone
        exact absurd hnone (by simp)
      | none =>
        obtain ⟨t1, t2, t3, t4, t5, t6, t7, t8, t9, t10⟩ := hQ rfl
        simp only at t1 t2 t3 t4 t5 t6 t7 t8 t9 t10
        have hnd' : (carriedIds (fun p2 => p2.id) rest).Nodup :=
          carriedIds_nodup_tail _ p rest hnd
        have hndc : pid ∉ carriedIds (fun p2 => p2.id) rest := by
          have h2 : (pid :: carriedIds (fun p2 => p2.id) rest).Nodup := by
            have h3 := hnd
            rw [carriedIds_cons, hpidEq] at h3
            exact h3
          exact (List.nodup_cons.mp h2).1
        have hnx1 : db.nextId ≤ db2.nextId := t3
        have hP2 : ∀ z, db2.pageIdsOf z = db.pageIdsOf z := fun z => by
          rw [pageIdsOf_congr_table t1 z, hfe1.1 z]
        have hQ1 : ∀ z, (db.updatePageRow pid p.type (jsOrNull p.title)
            p.order_index).questionIdsOf z = db.questionIdsOf z := hfe1.2.1
        have ih' := ih db2 t4 (fun x hx => lt_of_lt_of_le (hex x hx) hnx1)
          (fun x hx => by rw [hP2 quizId]; exact hexm x hx) hnd'
          (fun p2 hp2 => hq p2 (List.mem_cons_of_mem _ hp2))
        rcases hr : syncPagesLoop quizId ex rest db2 with ⟨err3, db3, ops3, kept3⟩
        rw [hr] at ih'
        cases err3 with
        | some e =>
          intro hnone
          simp only [syncPagesLoop, hm, hsync, hr] at hnone
          exact absurd hnone (by simp)
        | none =>
          obtain ⟨r1, r2, r3, r4, ⟨freshP, g1, g2, g3, g4⟩, R1, R2, RFA, RB, ROPS⟩ :=
            ih' rfl
          simp only at r1 r2 r3 r4 g1 g3 g4 R1 R2 RFA RB ROPS
          simp only [syncPagesLoop, hm, hsync, hr]
          intro _
          have hsepP : ∀ k ∈ kept3, pid ≠ k.pid := by
            intro k hk
            rcases g4 k hk with ⟨_, hkcar⟩ | hkfr
            · intro heq
              rw [heq] at hndc
              exact hndc hkcar
            · intro heq
              have h1 : pid < db2.nextId := lt_of_lt_of_le (hex pid hpidex) hnx1
              have h2 : db2.nextId ≤ pid := by
                rw [heq]
                exact g2 k.pid hkfr
              exact absurd h1 (not_lt.mpr h2)
          have hQpidF : db3.questionIdsOf pid = db2.questionIdsOf pid := R1 pid hsepP
          have hheadOk : KeptPOk quizId db3 p ⟨pid, keptQ⟩ := by
            refine ⟨?_, lt_of_lt_of_le (hex pid hpidex) (le_trans hnx1 r2), ?_, ?_⟩
            · rw [g1, hP2 quizId]
              exact List.mem_append.mpr (Or.inl (hexm pid hpidex))
            · intro x
              rw [hQpidF]
              exact t6 x
            · refine forall₂_imp_mem t8 ?_
              intro q2 _ kq hkq hOk
              have hqmem : kq.qid ∈ db2.questionIdsOf pid := (t6 kq.qid).mpr ⟨kq, hkq, rfl⟩
              have hcross : ∀ k ∈ kept3, ∀ kq' ∈ k.questions, kq.qid ≠ kq'.qid := by
                intro k hk kq' hkq'
                rcases RB k hk kq' hkq' with hin | hge
                · intro heq
                  exact questionIdsOf_disjoint db2 t4 (hsepP k hk) kq.qid hqmem
                    (heq ▸ hin)
                · intro heq
                  have hb := questionIdsOf_bound db2 t4 pid kq.qid hqmem
                  rw [heq] at hb
                  exact absurd hb (not_lt.mpr hge)
              have hOE : db3.optionIdsOf kq.qid = db2.optionIdsOf kq.qid :=
                R2 kq.qid pid hqmem (fun k hk => (hsepP k hk).symm) hcross
              obtain ⟨o1, o2, o3, o4, o5⟩ := hOk
              refine ⟨?_, o2, o3, lt_of_lt_of_le o4 r2, ?_⟩
              · intro x
                rw [hOE]
                exact o1 x
              · intro x hx
                exact lt_of_lt_of_le (o5 x hx) r2
          refine ⟨by rw [r1, t2]; rfl, le_trans hnx1 r2, r3, ?_,
            ⟨freshP, by rw [g1, hP2 quizId], fun x hx => le_trans hnx1 (g2 x hx), ?_, ?_⟩,
            ?_, ?_, List.Forall₂.cons hheadOk RFA, ?_, ?_⟩
          · intro z hz
            rw [r4 z hz, hP2 z]
          · intro x hx
            obtain ⟨k, hk, hkq⟩ := g3 x hx
            exact ⟨k, List.mem_cons_of_mem _ hk, hkq⟩
          · intro k hk
            rcases List.mem_cons.mp hk with rfl | hk
            · exact Or.inl ⟨hpidex,
                mem_carriedIds (fun p2 => p2.id) (p :: rest) p pid
                  (List.mem_cons_self p rest) hpidEq⟩
            · rcases g4 k hk with ⟨hkex, hkcar⟩ | hkfr
              · exact Or.inl ⟨hkex, carriedIds_subset_cons _ p rest _ hkcar⟩
              · exact Or.inr hkfr
          · intro p'' hp''
            have hp''h : p'' ≠ pid := hp'' ⟨pid, keptQ⟩ (List.mem_cons_self _ _)
            have hp''t : ∀ k ∈ kept3, p'' ≠ k.pid :=
              fun k hk => hp'' k (List.mem_cons_of_mem _ hk)
            rw [R1 p'' hp''t, t5 p'' hp''h, hQ1 p'']
          · intro q'' z0 hq0 hkp hkq
            have hkpH : pid ≠ z0 := hkp ⟨pid, keptQ⟩ (List.mem_cons_self _ _)
            have hq0' : q'' ∈ (db.updatePageRow pid p.type (jsOrNull p.title)
                p.order_index).questionIdsOf z0 := by
              rw [hQ1 z0]
              exact hq0
            have hnotpid : q'' ∉ (db.updatePageRow pid p.type (jsOrNull p.title)
                p.order_index).questionIdsOf pid := by
              rw [hQ1 pid]
              exact questionIdsOf_disjoint db hwf (Ne.symm hkpH) q'' hq0
            have hOF1 : db2.optionIdsOf q'' = (db.updatePageRow pid p.type
                (jsOrNull p.title) p.order_index).optionIdsOf q'' :=
              t7 q'' (fun kq hkq2 => hkq ⟨pid, keptQ⟩ (List.mem_cons_self _ _) kq hkq2)
                hnotpid
            have hq0'' : q'' ∈ db2.questionIdsOf z0 := by
              rw [t5 z0 (Ne.symm hkpH), hQ1 z0]
              exact hq0
            rw [R2 q'' z0 hq0'' (fun k hk => hkp k (List.mem_cons_of_mem _ hk))
                (fun k hk kq hkq2 => hkq k (List.mem_cons_of_mem _ hk) kq hkq2),
              hOF1, hfe1.2.2.1 q'']
          · intro k hk kq hkq
            rcases List.mem_cons.mp hk with rfl | hk
            · rcases t9 kq hkq with hin | hge
              · rw [hQ1 pid] at hin
                exact Or.inl hin
              · exact Or.inr hge
            · rcases RB k hk kq hkq with hin | hge
              · rw [t5 k.pid (Ne.symm (hsepP k hk)), hQ1 k.pid] at hin
                exact Or.inl hin
              · exact Or.inr (le_trans hnx1 hge)
          · intro op hop
            rcases List.mem_cons.mp hop with rfl | hop
            · rfl
            · rcases List.mem_append.mp hop with hop | hop
              · exact questionLevelOp_isPageLevelOp op (t10 op hop)
              · exact ROPS op hop
    | none =>
      have hwf1 : (db.insertPageRow quizId p.type (jsOrNull p.title)
          p.order_index).2.wf := insertPageRow_wf db quizId _ _ _ hwf
      have hfst : (db.insertPageRow quizId p.type (jsOrNull p.title)
          p.order_index).1 = db.nextId := rfl
      have hpIds := insertPageRow_pageIdsOf db quizId p.type (jsOrNull p.title)
        p.order_index
      have hQ1 : ∀ z, (db.insertPageRow quizId p.type (jsOrNull p.title)
          p.order_index).2.questionIdsOf z = db.questionIdsOf z :=
        fun z => questionIdsOf_congr_table rfl z
      have hO1 : ∀ z, (db.insertPageRow quizId p.type (jsOrNull p.title)
          p.order_index).2.optionIdsOf z = db.optionIdsOf z :=
        fun z => optionIdsOf_congr_table rfl z
      have hQ := syncQuestions_spec p.type (db.insertPageRow quizId p.type
          (jsOrNull p.title) p.order_index).1 p.questions
        (db.insertPageRow quizId p.type (jsOrNull p.title) p.order_index).2 hwf1
        (hq p (List.mem_cons_self p rest))
      simp only [hfst] at hQ
      rcases hsync : syncQuestions p.type db.nextId p.questions
          (db.insertPageRow quizId p.type (jsOrNull p.title) p.order_index).2 with
        ⟨err2, db2, ops2, keptQ⟩
      rw [hsync] at hQ
      cases err2 with
      | some e =>
        intro hnone
        simp only [syncPagesLoop, hm, hfst, hsync] at hnone
        exact absurd hnone (by simp)
      | none =>
        obtain ⟨t1, t2, t3, t4, t5, t6, t7, t8, t9, t10⟩ := hQ rfl
        simp only at t1 t2 t3 t4 t5 t6 t7 t8 t9 t10
        have hnd' : (carriedIds (fun p2 => p2.id) rest).Nodup :=
          carriedIds_nodup_tail _ p rest hnd
        have hnx1 : db.nextId + 1 ≤ db2.nextId := t3
        have hP2 : ∀ z, db2.pageIdsOf z = db.pageIdsOf z ++
            (if quizId == z then [db.nextId] else []) := fun z => by
          rw [pageIdsOf_congr_table t1 z, hpIds z]
        have ih' := ih db2 t4
          (fun x hx => lt_of_lt_of_le (hex x hx) (le_trans (Nat.le_succ _) hnx1))
          (fun x hx => by
            rw [hP2 quizId]
            exact List.mem_append.mpr (Or.inl (hexm x hx))) hnd'
          (fun p2 hp2 => hq p2 (List.mem_cons_of_mem _ hp2))
        rcases hr : syncPagesLoop quizId ex rest db2 with ⟨err3, db3, ops3, kept3⟩
        rw [hr] at ih'
        cases err3 with
        | some e =>
          intro hnone
          simp only [syncPagesLoop, hm, hfst, hsync, hr] at hnone
          exact absurd hnone (by simp)
        | none =>
          obtain ⟨r1, r2, r3, r4, ⟨freshP, g1, g2, g3, g4⟩, R1, R2, RFA, RB, ROPS⟩ :=
            ih' rfl
          simp only at r1 r2 r3 r4 g1 g3 g4 R1 R2 RFA RB ROPS
          simp only [syncPagesLoop, hm, hfst, hsync, hr]
          intro _
          have hsepP : ∀ k ∈ kept3, db.nextId ≠ k.pid := by
            intro k hk
            rcases g4 k hk with ⟨hkex, _⟩ | hkfr
            · intro heq
              have h1 := hex k.pid hkex
              rw [← heq] at h1
              exact absurd h1 (lt_irrefl _)
            · intro heq
              have h2 : db2.nextId ≤ db.nextId := by
                rw [heq]
                exact g2 k.pid hkfr
              exact absurd (lt_of_lt_of_le (Nat.lt_succ_self db.nextId) hnx1)
                (not_lt.mpr h2)
          have hQpidF : db3.questionIdsOf db.nextId = db2.questionIdsOf db.nextId :=
            R1 db.nextId hsepP
          have hpquiz : db2.pageIdsOf quizId = db.pageIdsOf quizId ++ [db.nextId] := by
            rw [hP2 quizId]
            simp
          have hheadOk : KeptPOk quizId db3 p ⟨db.nextId, keptQ⟩ := by
            refine ⟨?_, lt_of_lt_of_le (Nat.lt_succ_self _) (le_trans hnx1 r2), ?_, ?_⟩
            · rw [g1, hpquiz]
              exact List.mem_append.mpr (Or.inl (List.mem_append.mpr (Or.inr
                (List.mem_singleton.mpr rfl))))
            · intro x
              rw [hQpidF]
              exact t6 x
            · refine forall₂_imp_mem t8 ?_
              intro q2 _ kq hkq hOk
              have hqmem : kq.qid ∈ db2.questionIdsOf db.nextId :=
                (t6 kq.qid).mpr ⟨kq, hkq, rfl⟩
              have hcross : ∀ k ∈ kept3, ∀ kq' ∈ k.questions, kq.qid ≠ kq'.qid := by
                intro k hk kq' hkq'
                rcases RB k hk kq' hkq' with hin | hge
                · intro heq
                  exact questionIdsOf_disjoint db2 t4 (hsepP k hk) kq.qid hqmem
                    (heq ▸ hin)
                · intro heq
                  have hb := questionIdsOf_bound db2 t4 db.nextId kq.qid hqmem
                  rw [heq] at hb
                  exact absurd hb (not_lt.mpr hge)
              have hOE : db3.optionIdsOf kq.qid = db2.optionIdsOf kq.qid :=
                R2 kq.qid db.nextId hqmem (fun k hk => (hsepP k hk).symm) hcross
              obtain ⟨o1, o2, o3, o4, o5⟩ := hOk
              refine ⟨?_, o2, o3, lt_of_lt_of_le o4 r2, ?_⟩
              · intro x
                rw [hOE]
                exact o1 x
              · intro x hx
                exact lt_of_lt_of_le (o5 x hx) r2
          refine ⟨by rw [r1, t2]; rfl, le_trans (Nat.le_succ _) (le_trans hnx1 r2), r3, ?_,
            ⟨db.nextId :: freshP, ?_, ?_, ?_, ?_⟩,
            ?_, ?_, List.Forall₂.cons hheadOk RFA, ?_, ?_⟩
          · intro z hz
            rw [r4 z hz, hP2 z]
            have hb : (quizId == z) = false := beq_eq_false_iff_ne.mpr (Ne.symm hz)
            simp [hb]
          · rw [g1, hpquiz, List.append_assoc]
            rfl
          · intro x hx
            rcases List.mem_cons.mp hx with rfl | hx
            · exact le_refl _
            · exact le_trans (Nat.le_succ _) (le_trans hnx1 (g2 x hx))
          · intro x hx
            rcases List.mem_cons.mp hx with rfl | hx
            · exact ⟨⟨db.nextId, keptQ⟩, List.mem_cons_self _ _, rfl⟩
            · obtain ⟨k, hk, hkq⟩ := g3 x hx
              exact ⟨k, List.mem_cons_of_mem _ hk, hkq⟩
          · intro k hk
            rcases List.mem_cons.mp hk with rfl | hk
            · exact Or.inr (List.mem_cons_self _ _)
            · rcases g4 k hk with ⟨hkex, hkcar⟩ | hkfr
              · exact Or.inl ⟨hkex, carriedIds_subset_cons _ p rest _ hkcar⟩
              · exact Or.inr (List.mem_cons_of_mem _ hkfr)
          · intro p'' hp''
            have hp''h : p'' ≠ db.nextId := hp'' ⟨db.nextId, keptQ⟩
              (List.mem_cons_self _ _)
            have hp''t : ∀ k ∈ kept3, p'' ≠ k.pid :=
              fun k hk => hp'' k (List.mem_cons_of_mem _ hk)
            rw [R1 p'' hp''t, t5 p'' hp''h, hQ1 p'']
          · intro q'' z0 hq0 hkp hkq
            have hkpH : db.nextId ≠ z0 := hkp ⟨db.nextId, keptQ⟩
              (List.mem_cons_self _ _)
            have hnotpid : q'' ∉ (db.insertPageRow quizId p.type (jsOrNull p.title)
                p.order_index).2.questionIdsOf db.nextId := by
              rw [hQ1 db.nextId]
              exact questionIdsOf_disjoint db hwf (Ne.symm hkpH) q'' hq0
            have hOF1 : db2.optionIdsOf q'' = (db.insertPageRow quizId p.type
                (jsOrNull p.title) p.order_index).2.optionIdsOf q'' :=
              t7 q'' (fun kq hkq2 => hkq ⟨db.nextId, keptQ⟩
                (List.mem_cons_self _ _) kq hkq2) hnotpid
            have hq0'' : q'' ∈ db2.questionIdsOf z0 := by
              rw [t5 z0 (Ne.symm hkpH), hQ1 z0]
              exact hq0
            rw [R2 q'' z0 hq0'' (fun k hk => hkp k (List.mem_cons_of_mem _ hk))
                (fun k hk kq hkq2 => hkq k (List.mem_cons_of_mem _ hk) kq hkq2),
              hOF1, hO1 q'']
          · intro k hk kq hkq
            rcases List.mem_cons.mp hk with rfl | hk
            · rcases t9 kq hkq with hin | hge
              · rw [hQ1 db.nextId] at hin
                exact Or.inl hin
              · exact Or.inr (le_trans (Nat.le_succ _) hge)
            · rcases RB k hk kq hkq with hin | hge
              · rw [t5 k.pid (Ne.symm (hsepP k hk)), hQ1 k.pid] at hin
                exact Or.inl hin
              · exact Or.inr (le_trans (Nat.le_succ _) (le_trans hnx1 hge))
          · intro op hop
            rcases List.mem_cons.mp hop with rfl | hop
            · rfl
            · rcases List.mem_append.mp hop with hop | hop
              · exact questionLevelOp_isPageLevelOp op (t10 op hop)
              · exact ROPS op hop

theorem syncTheoryLoop_spec (quizId : Nat) (ex : List Nat) :
    ∀ (bs : List TheoryBlockInput) (db : DB),
      (∀ x ∈ ex, x < db.nextId) →
      (syncTheoryLoop quizId ex bs db).1.pages = db.pages ∧
      (syncTheoryLoop quizId ex bs db).1.questions = db.questions ∧
      (syncTheoryLoop quizId ex bs db).1.options = db.options ∧
      db.nextId ≤ (syncTheoryLoop quizId ex bs db).1.nextId ∧
      (∃ freshB,
        ((syncTheoryLoop quizId ex bs db).1.theoryRowsOf quizId).map (fun r => r.id) =
          ((db.theoryRowsOf quizId).map (fun r => r.id)) ++ freshB ∧
        (∀ x ∈ freshB, db.nextId ≤ x) ∧
        (∀ x ∈ freshB, x ∈ (syncTheoryLoop quizId ex bs db).2.2) ∧
        (∀ x ∈ (syncTheoryLoop quizId ex bs db).2.2, x ∈ ex ∨ x ∈ freshB)) ∧
      (∀ x ∈ (syncTheoryLoop quizId ex bs db).2.2,
        x < (syncTheoryLoop quizId ex bs db).1.nextId) ∧
      (syncTheoryLoop quizId ex bs db).2.2.length = bs.length ∧
      (∀ op ∈ (syncTheoryLoop quizId ex bs db).2.1, op.isPageLevelOp = false) ∧
      (db.wf → (syncTheoryLoop quizId ex bs db).1.wf) := by
  intro bs
  induction bs with
  | nil =>
    intro db hex
    exact ⟨rfl, rfl, rfl, le_refl _,
      ⟨[], by simp [syncTheoryLoop], by simp, by simp [syncTheoryLoop],
        by simp [syncTheoryLoop]⟩,
      by simp [syncTheoryLoop], by simp [syncTheoryLoop],
      by simp [syncTheoryLoop], fun h => h⟩
  | cons b rest ih =>
    intro db hex
    cases hm : b.id.bind (fun k => if ex.contains k then some k else none) with
    | some bid =>
      obtain ⟨hbid, hbidex⟩ := bind_match_some bid ex b.id hm
      have hfe := updateTheoryRow_fetchEq db bid b.type
        (if (jsTrim b.content).isEmpty then " ".toList else jsTrim b.content)
        b.order_index
      have ih' := ih (db.updateTheoryRow bid b.type
        (if (jsTrim b.content).isEmpty then " ".toList else jsTrim b.content)
        b.order_index) (fun x hx => hex x hx)
      rcases hr : syncTheoryLoop quizId ex rest
          (db.updateTheoryRow bid b.type
            (if (jsTrim b.content).isEmpty then " ".toList else jsTrim b.content)
            b.order_index) with ⟨dbF, opsF, keptF⟩
      rw [hr] at ih'
      obtain ⟨p1, p2, p3, p4, ⟨fresh, f1, f2, f3, f4⟩, k1, k2, o1, w1⟩ := ih'
      simp only at p1 p2 p3 p4 f1 f3 f4 k1 k2 o1 w1
      simp only [syncTheoryLoop, hm, hr]
      refine ⟨p1, p2, p3, p4, ⟨fresh, ?_, f2, ?_, ?_⟩, ?_, ?_, ?_, ?_⟩
      · rw [f1]
        rw [hfe.2.2.2 quizId]
      · intro x hx
        exact List.mem_cons_of_mem _ (f3 x hx)
      · intro x hx
        rcases List.mem_cons.mp hx with rfl | hx
        · exact Or.inl hbidex
        · exact f4 x hx
      · intro x hx
        rcases List.mem_cons.mp hx with rfl | hx
        · exact lt_of_lt_of_le (hex x hbidex) p4
        · exact k1 x hx
      · simp [k2]
      · intro op hop
        rcases List.mem_cons.mp hop with rfl | hop
        · rfl
        · exact o1 op hop
      · intro hwf
        exact w1 (updateTheoryRow_wf db bid _ _ _ hwf)
    | none =>
      have hids := insertTheoryRow_theoryIdsOf db quizId b.type
        (if (jsTrim b.content).isEmpty then " ".toList else jsTrim b.content)
        b.order_index
      have ih' := ih (db.insertTheoryRow quizId b.type
        (if (jsTrim b.content).isEmpty then " ".toList else jsTrim b.content)
        b.order_index).2
        (fun x hx => Nat.lt_succ_of_lt (hex x hx))
      rcases hr : syncTheoryLoop quizId ex rest
          (db.insertTheoryRow quizId b.type
            (if (jsTrim b.content).isEmpty then " ".toList else jsTrim b.content)
            b.order_index).2 with ⟨dbF, opsF, keptF⟩
      rw [hr] at ih'
      obtain ⟨p1, p2, p3, p4, ⟨fresh, f1, f2, f3, f4⟩, k1, k2, o1, w1⟩ := ih'
      simp only at p1 p2 p3 p4 f1 f3 f4 k1 k2 o1 w1
      simp only [syncTheoryLoop, hm, hr]
      have hnext1 : (db.insertTheoryRow quizId b.type
          (if (jsTrim b.content).isEmpty then " ".toList else jsTrim b.content)
          b.order_index).2.nextId = db.nextId + 1 := rfl
      refine ⟨p1, p2, p3, ?_, ⟨db.nextId :: fresh, ?_, ?_, ?_, ?_⟩, ?_, ?_, ?_, ?_⟩
      · calc db.nextId ≤ db.nextId + 1 := Nat.le_succ _
          _ ≤ dbF.nextId := p4
      · rw [f1, hids quizId]
        simp
      · intro x hx
        rcases List.mem_cons.mp hx with rfl | hx
        · exact le_refl _
        · exact le_trans (Nat.le_succ _) (f2 x hx)
      · intro x hx
        rcases List.mem_cons.mp hx with rfl | hx
        · exact List.mem_cons_self _ _
        · exact List.mem_cons_of_mem _ (f3 x hx)
      · intro x hx
        rcases List.mem_cons.mp hx with rfl | hx
        · exact Or.inr (List.mem_cons_self _ _)
        · rcases f4 x hx with hx2 | hx2
          · exact Or.inl hx2
          · exact Or.inr (List.mem_cons_of_mem _ hx2)
      · intro x hx
        rcases List.mem_cons.mp hx with rfl | hx
        · exact lt_of_lt_of_le (Nat.lt_succ_self _) p4
        · exact k1 x hx
      · simp [k2]
      · intro op hop
        rcases List.mem_cons.mp hop with rfl | hop
        · rfl
        · exact o1 op hop
      · intro hwf
        exact w1 (insertTheoryRow_wf db quizId _ _ _ hwf)

theorem mem_filter_map_unique {α : Type} (getId : α → Nat) (p q2 : α → Bool)
    (l : List α) (hnd : (l.map getId).Nodup) (a : Nat)
    (h1 : a ∈ (l.filter p).map getId) (h2 : a ∈ (l.filter q2).map getId) :
    ∃ r ∈ l, p r = true ∧ q2 r = true ∧ getId r = a := by
  obtain ⟨r1, hr1, hid1⟩ := List.mem_map.mp h1
  obtain ⟨r2, hr2, hid2⟩ := List.mem_map.mp h2
  obtain ⟨hr1l, hp1⟩ := List.mem_filter.mp hr1
  obtain ⟨hr2l, hp2⟩ := List.mem_filter.mp hr2
  have heq : r1 = r2 :=
    List.inj_on_of_nodup_map hnd hr1l hr2l (by rw [hid1, hid2])
  refine ⟨r1, hr1l, hp1, ?_, hid1⟩
  rw [heq]
  exact hp2

theorem KeptQOk_mono {db db' : DB} (ho : db'.options = db.options)
    (hn : db.nextId ≤ db'.nextId) (ptype : TestType) {q : QuestionInput}
    {k : KeptQuestion} (h : KeptQOk ptype db q k) : KeptQOk ptype db' q k := by
  obtain ⟨o1, o2, o3, o4, o5⟩ := h
  refine ⟨?_, o2, o3, lt_of_lt_of_le o4 hn, fun x hx => lt_of_lt_of_le (o5 x hx) hn⟩
  intro x
  rw [optionIdsOf_congr_table ho k.qid]
  exact o1 x

theorem KeptPOk_mono {db db' : DB} (hp : db'.pages = db.pages)
    (hq : db'.questions = db.questions) (ho : db'.options = db.options)
    (hn : db.nextId ≤ db'.nextId) (quizId : Nat) {p : PageInput} {k : KeptPage}
    (h : KeptPOk quizId db p k) : KeptPOk quizId db' p k := by
  obtain ⟨m1, m2, m3, m4⟩ := h
  refine ⟨?_, lt_of_lt_of_le m2 hn, ?_, ?_⟩
  · rw [pageIdsOf_congr_table hp quizId]
    exact m1
  · intro x
    rw [questionIdsOf_congr_table hq k.pid]
    exact m3 x
  · exact List.Forall₂.imp (fun a b hab => KeptQOk_mono ho hn p.type hab) m4

theorem updateQuiz_run1 (env : Env) (data : UpdateQuizInput) (db : DB)
    (hwf : db.wf) (hdata : data.wf)
    (hok : (updateQuiz env data db).err = none) :
    KeptOk data (updateQuiz env data db).db (updateQuiz env data db).kept ∧
    (updateQuiz env data db).db.wf := by
  obtain ⟨hndP, hndQ, _, hndB⟩ := hdata
  have hwf0 : (db.writeQuizRow data.quizId data.title (jsStrOrNull data.description)
      (jsTrim data.slug)).wf := writeQuizRow_wf db _ _ _ _ hwf
  have hLP := syncPagesLoop_spec data.quizId
    ((db.writeQuizRow data.quizId data.title (jsStrOrNull data.description)
      (jsTrim data.slug)).pageIdsOf data.quizId) data.pages
    (db.writeQuizRow data.quizId data.title (jsStrOrNull data.description)
      (jsTrim data.slug)) hwf0
    (pageIdsOf_bound _ hwf0 data.quizId) (fun x hx => hx) hndP hndQ
  rcases hloop : syncPagesLoop data.quizId
      ((db.writeQuizRow data.quizId data.title (jsStrOrNull data.description)
        (jsTrim data.slug)).pageIdsOf data.quizId) data.pages
      (db.writeQuizRow data.quizId data.title (jsStrOrNull data.description)
        (jsTrim data.slug)) with ⟨err1, db1, ops1, keptP⟩
  rw [hloop] at hLP
  cases err1 with
  | some e =>
    exfalso
    unfold updateQuiz at hok
    simp only [hloop] at hok
    exact absurd hok (by simp)
  | none =>
    unfold updateQuiz at hok ⊢
    simp only [hloop] at hok ⊢
    obtain ⟨r1, r2, r3, r4, ⟨freshP, g1, g2, g3, g4⟩, R1, R2, RFA, RB, ROPS⟩ := hLP rfl
    simp only at r1 r2 r3 r4 g1 g3 g4 R1 R2 RFA RB ROPS
    have hkeptNotDelP : ∀ kp ∈ keptP, kp.pid ∉
        ((db.writeQuizRow data.quizId data.title (jsStrOrNull data.description)
          (jsTrim data.slug)).pageIdsOf data.quizId).filter
          (fun x => !((keptP.map (fun k2 => k2.pid)).contains x)) := by
      intro kp hkp hmem
      have h2 := (List.mem_filter.mp hmem).2
      rw [Bool.not_eq_true'] at h2
      have : kp.pid ∈ keptP.map (fun k2 => k2.pid) := List.mem_map.mpr ⟨kp, hkp, rfl⟩
      exact absurd ((contains_iff_mem _ _).mpr this)
        (by rw [h2]; exact Bool.false_ne_true)
    have hPiff : ∀ x, x ∈ (if ((((db.writeQuizRow data.quizId data.title
          (jsStrOrNull data.description) (jsTrim data.slug)).pageIdsOf
          data.quizId).filter (fun x => !((keptP.map (fun k2 => k2.pid)).contains
          x))).length != 0) = true then
          db1.deletePageRows (((db.writeQuizRow data.quizId data.title
            (jsStrOrNull data.description) (jsTrim data.slug)).pageIdsOf
            data.quizId).filter (fun x => !((keptP.map (fun k2 => k2.pid)).contains x)))
        else db1).pageIdsOf data.quizId ↔ ∃ kp ∈ keptP, x = kp.pid := by
      intro x
      by_cases hdP : (((db.writeQuizRow data.quizId data.title
          (jsStrOrNull data.description) (jsTrim data.slug)).pageIdsOf
          data.quizId).filter (fun x => !((keptP.map (fun k2 => k2.pid)).contains x))) = []
      · simp only [hdP, List.length_nil, bne_self_eq_false, Bool.false_eq_true, if_false]
        rw [g1]
        constructor
        · intro hx
          rcases List.mem_append.mp hx with hx | hx
          · have := List.filter_eq_nil_iff.mp hdP x hx
            rw [Bool.not_eq_true, Bool.not_eq_false'] at this
            obtain ⟨kp, hkp, hkq⟩ := List.mem_map.mp ((contains_iff_mem _ x).mp this)
            exact ⟨kp, hkp, hkq.symm⟩
          · obtain ⟨kp, hkp, hkq⟩ := g3 x hx
            exact ⟨kp, hkp, hkq⟩
        · rintro ⟨kp, hkp, rfl⟩
          rcases g4 kp hkp with ⟨hkex, _⟩ | hkfr
          · exact List.mem_append.mpr (Or.inl hkex)
          · exact List.mem_append.mpr (Or.inr hkfr)
      · have hcondP : ((((db.writeQuizRow data.quizId data.title
            (jsStrOrNull data.description) (jsTrim data.slug)).pageIdsOf
            data.quizId).filter (fun x => !((keptP.map (fun k2 => k2.pid)).contains
            x))).length != 0) = true := by
          rw [bne_iff_ne]
          intro h0
          exact hdP (List.length_eq_zero.mp h0)
        simp only [hcondP, if_true]
        rw [deletePageRows_pageIdsOf, g1, List.mem_filter]
        constructor
        · rintro ⟨hx, hpx⟩
          rcases List.mem_append.mp hx with hx2 | hx2
          · by_cases hmem : x ∈ keptP.map (fun k2 => k2.pid)
            · obtain ⟨kp, hkp, hkq⟩ := List.mem_map.mp hmem
              exact ⟨kp, hkp, hkq.symm⟩
            · exfalso
              have hxToDel : x ∈ ((db.writeQuizRow data.quizId data.title
                  (jsStrOrNull data.description) (jsTrim data.slug)).pageIdsOf
                  data.quizId).filter
                  (fun y => !((keptP.map (fun k2 => k2.pid)).contains y)) := by
                rw [List.mem_filter]
                exact ⟨hx2, by simpa using hmem⟩
              exact not_mem_of_not_contains _ _ hpx hxToDel
          · obtain ⟨kp, hkp, hkq⟩ := g3 x hx2
            exact ⟨kp, hkp, hkq⟩
        · rintro ⟨kp, hkp, rfl⟩
          have hxOut := hkeptNotDelP kp hkp
          rcases g4 kp hkp with ⟨hkex, _⟩ | hkfr
          · exact ⟨List.mem_append.mpr (Or.inl hkex), not_contains_eq_true _ _ hxOut⟩
          · exact ⟨List.mem_append.mpr (Or.inr hkfr), not_contains_eq_true _ _ hxOut⟩
    have hdb2wf : (if ((((db.writeQuizRow data.quizId data.title
          (jsStrOrNull data.description) (jsTrim data.slug)).pageIdsOf
          data.quizId).filter (fun x => !((keptP.map (fun k2 => k2.pid)).contains
          x))).length != 0) = true then
          db1.deletePageRows (((db.writeQuizRow data.quizId data.title
            (jsStrOrNull data.description) (jsTrim data.slug)).pageIdsOf
            data.quizId).filter (fun x => !((keptP.map (fun k2 => k2.pid)).contains x)))
        else db1).wf := by
      by_cases hdP : ((((db.writeQuizRow data.quizId data.title
          (jsStrOrNull data.description) (jsTrim data.slug)).pageIdsOf
          data.quizId).filter (fun x => !((keptP.map (fun k2 => k2.pid)).contains
          x))).length != 0) = true
      · simp only [hdP, if_true]
        exact deletePageRows_wf _ _ r3
      · rw [Bool.not_eq_true] at hdP
        simp only [hdP, Bool.false_eq_true, if_false]
        exact r3
    have hnx2 : db1.nextId ≤ (if ((((db.writeQuizRow data.quizId data.title
          (jsStrOrNull data.description) (jsTrim data.slug)).pageIdsOf
          data.quizId).filter (fun x => !((keptP.map (fun k2 => k2.pid)).contains
          x))).length != 0) = true then
          db1.deletePageRows (((db.writeQuizRow data.quizId data.title
            (jsStrOrNull data.description) (jsTrim data.slug)).pageIdsOf
            data.quizId).filter (fun x => !((keptP.map (fun k2 => k2.pid)).contains x)))
        else db1).nextId := by
      by_cases hdP : ((((db.writeQuizRow data.quizId data.title
          (jsStrOrNull data.description) (jsTrim data.slug)).pageIdsOf
          data.quizId).filter (fun x => !((keptP.map (fun k2 => k2.pid)).contains
          x))).length != 0) = true
      · simp only [hdP, if_true]
        exact le_refl _
      · rw [Bool.not_eq_true] at hdP
        simp only [hdP, Bool.false_eq_true, if_false]
        exact le_refl _
    have hKP2 : List.Forall₂ (KeptPOk data.quizId
        (if ((((db.writeQuizRow data.quizId data.title
          (jsStrOrNull data.description) (jsTrim data.slug)).pageIdsOf
          data.quizId).filter (fun x => !((keptP.map (fun k2 => k2.pid)).contains
          x))).length != 0) = true then
          db1.deletePageRows (((db.writeQuizRow data.quizId data.title
            (jsStrOrNull data.description) (jsTrim data.slug)).pageIdsOf
            data.quizId).filter (fun x => !((keptP.map (fun k2 => k2.pid)).contains x)))
        else db1)) data.pages keptP := by
      by_cases hdP : ((((db.writeQuizRow data.quizId data.title
          (jsStrOrNull data.description) (jsTrim data.slug)).pageIdsOf
          data.quizId).filter (fun x => !((keptP.map (fun k2 => k2.pid)).contains
          x))).length != 0) = true
      · simp only [hdP, if_true]
        refine forall₂_imp_mem RFA ?_
        intro p2 _ kp hkp hOk
        obtain ⟨m1, m2, m3, m4⟩ := hOk
        have hnotDel : ((((db.writeQuizRow data.quizId data.title
            (jsStrOrNull data.description) (jsTrim data.slug)).pageIdsOf
            data.quizId).filter (fun x => !((keptP.map (fun k2 => k2.pid)).contains
            x))).contains kp.pid) = false := by
          rw [← Bool.not_eq_true]
          intro hc
          exact hkeptNotDelP kp hkp ((contains_iff_mem _ _).mp hc)
        refine ⟨?_, m2, ?_, ?_⟩
        · rw [deletePageRows_pageIdsOf, List.mem_filter]
          exact ⟨m1, by rw [hnotDel]; rfl⟩
        · intro x
          rw [deletePageRows_questionIdsOf]
          simp only [hnotDel, Bool.false_eq_true, if_false]
          exact m3 x
        · refine forall₂_imp_mem m4 ?_
          intro q2 _ kq hkq hQOk
          obtain ⟨o1, o2, o3, o4, o5⟩ := hQOk
          refine ⟨?_, o2, o3, o4, o5⟩
          intro x
          rw [deletePageRows_optionIdsOf]
          have hnotCas : ((db1.questions.filter (fun q =>
              (((db.writeQuizRow data.quizId data.title (jsStrOrNull data.description)
                (jsTrim data.slug)).pageIdsOf data.quizId).filter
                (fun x => !((keptP.map (fun k2 => k2.pid)).contains x))).contains
                q.page_id)).map (fun q => q.id)).contains kq.qid = false := by
            rw [← Bool.not_eq_true]
            intro hc
            have hmemCas := (contains_iff_mem _ _).mp hc
            have hmemQ : kq.qid ∈ db1.questionIdsOf kp.pid := (m3 kq.qid).mpr ⟨kq, hkq, rfl⟩
            unfold DB.questionIdsOf at hmemQ
            obtain ⟨r, _, hrp, hrc, _⟩ := mem_filter_map_unique (fun q => q.id)
              (fun q => q.page_id == kp.pid)
              (fun q => (((db.writeQuizRow data.quizId data.title
                (jsStrOrNull data.description) (jsTrim data.slug)).pageIdsOf
                data.quizId).filter
                (fun x => !((keptP.map (fun k2 => k2.pid)).contains x))).contains
                q.page_id) db1.questions r3.2.1 kq.qid hmemQ hmemCas
            have hpid : r.page_id = kp.pid := eq_of_beq hrp
            rw [hpid] at hrc
            exact hkeptNotDelP kp hkp ((contains_iff_mem _ _).mp hrc)
          simp only [hnotCas, Bool.false_eq_true, if_false]
          exact o1 x
      · rw [Bool.not_eq_true] at hdP
        simp only [hdP, Bool.false_eq_true, if_false]
        exact RFA
    rcases hth : syncTheoryLoop data.quizId
        (((if ((((db.writeQuizRow data.quizId data.title
          (jsStrOrNull data.description) (jsTrim data.slug)).pageIdsOf
          data.quizId).filter (fun x => !((keptP.map (fun k2 => k2.pid)).contains
          x))).length != 0) = true then
          db1.deletePageRows (((db.writeQuizRow data.quizId data.title
            (jsStrOrNull data.description) (jsTrim data.slug)).pageIdsOf
            data.quizId).filter (fun x => !((keptP.map (fun k2 => k2.pid)).contains x)))
        else db1).theoryRowsOf data.quizId).map (fun b => b.id)) data.theoryBlocks
        (if ((((db.writeQuizRow data.quizId data.title
          (jsStrOrNull data.description) (jsTrim data.slug)).pageIdsOf
          data.quizId).filter (fun x => !((keptP.map (fun k2 => k2.pid)).contains
          x))).length != 0) = true then
          db1.deletePageRows (((db.writeQuizRow data.quizId data.title
            (jsStrOrNull data.description) (jsTrim data.slug)).pageIdsOf
            data.quizId).filter (fun x => !((keptP.map (fun k2 => k2.pid)).contains x)))
        else db1) with ⟨db3, ops3, kept3⟩
    have hLT := syncTheoryLoop_spec data.quizId
      (((if ((((db.writeQuizRow data.quizId data.title
          (jsStrOrNull data.description) (jsTrim data.slug)).pageIdsOf
          data.quizId).filter (fun x => !((keptP.map (fun k2 => k2.pid)).contains
          x))).length != 0) = true then
          db1.deletePageRows (((db.writeQuizRow data.quizId data.title
            (jsStrOrNull data.description) (jsTrim data.slug)).pageIdsOf
            data.quizId).filter (fun x => !((keptP.map (fun k2 => k2.pid)).contains x)))
        else db1).theoryRowsOf data.quizId).map (fun b => b.id)) data.theoryBlocks
      (if ((((db.writeQuizRow data.quizId data.title
          (jsStrOrNull data.description) (jsTrim data.slug)).pageIdsOf
          data.quizId).filter (fun x => !((keptP.map (fun k2 => k2.pid)).contains
          x))).length != 0) = true then
          db1.deletePageRows (((db.writeQuizRow data.quizId data.title
            (jsStrOrNull data.description) (jsTrim data.slug)).pageIdsOf
            data.quizId).filter (fun x => !((keptP.map (fun k2 => k2.pid)).contains x)))
        else db1)
      (theoryIdsOf_bound _ hdb2wf data.quizId)
    rw [hth] at hLT
    obtain ⟨u1, u2, u3, u4, ⟨freshB, e1, e2, e3, e4⟩, ub, ulen, uops, uwf⟩ := hLT
    simp only at u1 u2 u3 u4 e1 e3 e4 ub ulen uops
    rw [hth] at hok ⊢
    have hK1 : ∀ x, x ∈ db3.pageIdsOf data.quizId ↔ ∃ kp ∈ keptP, x = kp.pid := by
      intro x
      rw [pageIdsOf_congr_table u1 data.quizId]
      exact hPiff x
    have hK2 : List.Forall₂ (KeptPOk data.quizId db3) data.pages keptP :=
      List.Forall₂.imp (fun a b hab => KeptPOk_mono u1 u2 u3 u4 data.quizId hab) hKP2
    by_cases hdB : (((if ((((db.writeQuizRow data.quizId data.title
          (jsStrOrNull data.description) (jsTrim data.slug)).pageIdsOf
          data.quizId).filter (fun x => !((keptP.map (fun k2 => k2.pid)).contains
          x))).length != 0) = true then
          db1.deletePageRows (((db.writeQuizRow data.quizId data.title
            (jsStrOrNull data.description) (jsTrim data.slug)).pageIdsOf
            data.quizId).filter (fun x => !((keptP.map (fun k2 => k2.pid)).contains x)))
        else db1).theoryRowsOf data.quizId).filter
          (fun x => !(kept3.contains x.id))) = []
    · simp only [hdB, List.length_nil, bne_self_eq_false, Bool.false_eq_true,
        if_false] at hok ⊢
      refine ⟨⟨hK1, hK2, ?_, ulen⟩, uwf hdb2wf⟩
      intro x
      rw [e1]
      constructor
      · intro hx
        rcases List.mem_append.mp hx with hx | hx
        · obtain ⟨r, hr, hrid⟩ := List.mem_map.mp hx
          have := List.filter_eq_nil_iff.mp hdB r hr
          rw [Bool.not_eq_true, Bool.not_eq_false'] at this
          rw [← hrid]
          exact (contains_iff_mem _ r.id).mp this
        · exact e3 x hx
      · intro hx
        rcases e4 x hx with hx2 | hx2
        · exact List.mem_append.mpr (Or.inl hx2)
        · exact List.mem_append.mpr (Or.inr hx2)
    · have hcondB : ((((if ((((db.writeQuizRow data.quizId data.title
          (jsStrOrNull data.description) (jsTrim data.slug)).pageIdsOf
          data.quizId).filter (fun x => !((keptP.map (fun k2 => k2.pid)).contains
          x))).length != 0) = true then
          db1.deletePageRows (((db.writeQuizRow data.quizId data.title
            (jsStrOrNull data.description) (jsTrim data.slug)).pageIdsOf
            data.quizId).filter (fun x => !((keptP.map (fun k2 => k2.pid)).contains x)))
        else db1).theoryRowsOf data.quizId).filter
          (fun x => !(kept3.contains x.id))).length != 0) = true := by
        rw [bne_iff_ne]
        intro h0
        exact hdB (List.length_eq_zero.mp h0)
      simp only [hcondB, if_true] at hok ⊢
      have hdelmap : (((if ((((db.writeQuizRow data.quizId data.title
          (jsStrOrNull data.description) (jsTrim data.slug)).pageIdsOf
          data.quizId).filter (fun x => !((keptP.map (fun k2 => k2.pid)).contains
          x))).length != 0) = true then
          db1.deletePageRows (((db.writeQuizRow data.quizId data.title
            (jsStrOrNull data.description) (jsTrim data.slug)).pageIdsOf
            data.quizId).filter (fun x => !((keptP.map (fun k2 => k2.pid)).contains x)))
        else db1).theoryRowsOf data.quizId).filter
          (fun x => !(kept3.contains x.id))).map (fun x => x.id) =
          (((if ((((db.writeQuizRow data.quizId data.title
          (jsStrOrNull data.description) (jsTrim data.slug)).pageIdsOf
          data.quizId).filter (fun x => !((keptP.map (fun k2 => k2.pid)).contains
          x))).length != 0) = true then
          db1.deletePageRows (((db.writeQuizRow data.quizId data.title
            (jsStrOrNull data.description) (jsTrim data.slug)).pageIdsOf
            data.quizId).filter (fun x => !((keptP.map (fun k2 => k2.pid)).contains x)))
        else db1).theoryRowsOf data.quizId).map (fun x => x.id)).filter
          (fun x => !(kept3.contains x)) :=
        map_filter_comm (fun x : TheoryRow => x.id) (fun x => !(kept3.contains x)) _
      have hmainDel : (KeptOk data (db3.deleteTheoryRows
          ((((if ((((db.writeQuizRow data.quizId data.title
          (jsStrOrNull data.description) (jsTrim data.slug)).pageIdsOf
          data.quizId).filter (fun x => !((keptP.map (fun k2 => k2.pid)).contains
          x))).length != 0) = true then
          db1.deletePageRows (((db.writeQuizRow data.quizId data.title
            (jsStrOrNull data.description) (jsTrim data.slug)).pageIdsOf
            data.quizId).filter (fun x => !((keptP.map (fun k2 => k2.pid)).contains x)))
        else db1).theoryRowsOf data.quizId).filter
          (fun x => !(kept3.contains x.id))).map (fun x => x.id)))
          ⟨keptP, kept3⟩) ∧ (db3.deleteTheoryRows
          ((((if ((((db.writeQuizRow data.quizId data.title
          (jsStrOrNull data.description) (jsTrim data.slug)).pageIdsOf
          data.quizId).filter (fun x => !((keptP.map (fun k2 => k2.pid)).contains
          x))).length != 0) = true then
          db1.deletePageRows (((db.writeQuizRow data.quizId data.title
            (jsStrOrNull data.description) (jsTrim data.slug)).pageIdsOf
            data.quizId).filter (fun x => !((keptP.map (fun k2 => k2.pid)).contains x)))
        else db1).theoryRowsOf data.quizId).filter
          (fun x => !(kept3.contains x.id))).map (fun x => x.id))).wf := by
        refine ⟨⟨?_, ?_, ?_, ulen⟩, deleteTheoryRows_wf _ _ (uwf hdb2wf)⟩
        · intro x
          rw [pageIdsOf_congr_table (rfl :
            (db3.deleteTheoryRows _).pages = db3.pages) data.quizId]
          exact hK1 x
        · exact List.Forall₂.imp (fun a b hab => KeptPOk_mono rfl rfl rfl
            (le_refl db3.nextId) data.quizId hab) hK2
        · intro x
          rw [deleteTheoryRows_theoryIdsOf, hdelmap, e1, List.mem_filter]
          constructor
          · rintro ⟨hx, hpx⟩
            rcases List.mem_append.mp hx with hx2 | hx2
            · by_cases hmem : x ∈ kept3
              · exact hmem
              · exfalso
                have hxToDel : x ∈ (((if ((((db.writeQuizRow data.quizId data.title
                    (jsStrOrNull data.description) (jsTrim data.slug)).pageIdsOf
                    data.quizId).filter (fun x => !((keptP.map
                    (fun k2 => k2.pid)).contains x))).length != 0) = true then
                    db1.deletePageRows (((db.writeQuizRow data.quizId data.title
                      (jsStrOrNull data.description) (jsTrim data.slug)).pageIdsOf
                      data.quizId).filter (fun x => !((keptP.map
                      (fun k2 => k2.pid)).contains x)))
                  else db1).theoryRowsOf data.quizId).map (fun x => x.id)).filter
                    (fun x => !(kept3.contains x)) := by
                  rw [List.mem_filter]
                  exact ⟨hx2, by simpa using hmem⟩
                exact not_mem_of_not_contains _ _ hpx hxToDel
            · exact e3 x hx2
          · intro hx
            have hxOut : x ∉ ((((if ((((db.writeQuizRow data.quizId data.title
                (jsStrOrNull data.description) (jsTrim data.slug)).pageIdsOf
                data.quizId).filter (fun x => !((keptP.map
                (fun k2 => k2.pid)).contains x))).length != 0) = true then
                db1.deletePageRows (((db.writeQuizRow data.quizId data.title
                  (jsStrOrNull data.description) (jsTrim data.slug)).pageIdsOf
                  data.quizId).filter (fun x => !((keptP.map
                  (fun k2 => k2.pid)).contains x)))
              else db1).theoryRowsOf data.quizId).map (fun x => x.id)).filter
                (fun x => !(kept3.contains x))) := by
              intro hmem
              have h2 := (List.mem_filter.mp hmem).2
              rw [Bool.not_eq_true'] at h2
              exact absurd ((contains_iff_mem kept3 x).mpr hx)
                (by rw [h2]; exact Bool.false_ne_true)
            rcases e4 x hx with hx2 | hx2
            · exact ⟨List.mem_append.mpr (Or.inl hx2), not_contains_eq_true _ _ hxOut⟩
            · exact ⟨List.mem_append.mpr (Or.inr hx2), not_contains_eq_true _ _ hxOut⟩
      by_cases hpl : (((((if ((((db.writeQuizRow data.quizId data.title
          (jsStrOrNull data.description) (jsTrim data.slug)).pageIdsOf
          data.quizId).filter (fun x => !((keptP.map (fun k2 => k2.pid)).contains
          x))).length != 0) = true then
          db1.deletePageRows (((db.writeQuizRow data.quizId data.title
            (jsStrOrNull data.description) (jsTrim data.slug)).pageIdsOf
            data.quizId).filter (fun x => !((keptP.map (fun k2 => k2.pid)).contains x)))
        else db1).theoryRowsOf data.quizId).filter
          (fun x => !(kept3.contains x.id))).filterMap (fun b =>
            if b.type == TheoryBlockType.image && !b.content.isEmpty then
              getStoragePathFromPublicUrl env b.content THEORY_IMAGES_BUCKET
            else none)).length != 0) = true
      · simp only [hpl, if_true] at hok ⊢
        cases hsr : env.storageRemove (((((if ((((db.writeQuizRow data.quizId data.title
            (jsStrOrNull data.description) (jsTrim data.slug)).pageIdsOf
            data.quizId).filter (fun x => !((keptP.map (fun k2 => k2.pid)).contains
            x))).length != 0) = true then
            db1.deletePageRows (((db.writeQuizRow data.quizId data.title
              (jsStrOrNull data.description) (jsTrim data.slug)).pageIdsOf
              data.quizId).filter (fun x => !((keptP.map (fun k2 => k2.pid)).contains x)))
          else db1).theoryRowsOf data.quizId).filter
            (fun x => !(kept3.contains x.id))).filterMap (fun b =>
              if b.type == TheoryBlockType.image && !b.content.isEmpty then
                getStoragePathFromPublicUrl env b.content THEORY_IMAGES_BUCKET
              else none))) with
        | some e =>
          rw [hsr] at hok
          exact absurd hok (by simp)
        | none =>
          rw [hsr] at hok
          exact hmainDel
      · rw [Bool.not_eq_true] at hpl
        simp only [hpl, Bool.false_eq_true, if_false] at hok ⊢
        exact hmainDel

theorem map_zipWith_right {α β γ δ : Type} (f : α → β → γ) (g : γ → δ) (m : β → δ)
    (hfg : ∀ a b2, g (f a b2) = m b2) :
    ∀ (as : List α) (bs : List β), as.length = bs.length →
      (List.zipWith f as bs).map g = bs.map m := by
  intro as
  induction as with
  | nil =>
    intro bs h
    cases bs with
    | nil => rfl
    | cons b bt => simp at h
  | cons a t ih =>
    intro bs h
    cases bs with
    | nil => simp at h
    | cons b bt =>
      simp only [List.zipWith_cons_cons, List.map_cons, hfg]
      rw [ih bt (by simpa using h)]

theorem mem_zipWith {α β γ : Type} (f : α → β → γ) :
    ∀ (as : List α) (bs : List β) (x : γ), x ∈ List.zipWith f as bs →
      ∃ a ∈ as, ∃ b2 ∈ bs, x = f a b2 := by
  intro as
  induction as with
  | nil =>
    intro bs x hx
    rw [List.zipWith_nil_left] at hx
    exact absurd hx (List.not_mem_nil x)
  | cons a t ih =>
    intro bs x hx
    cases bs with
    | nil =>
      rw [List.zipWith_nil_right] at hx
      exact absurd hx (List.not_mem_nil x)
    | cons b bt =>
      rw [List.zipWith_cons_cons] at hx
      rcases List.mem_cons.mp hx with rfl | hx
      · exact ⟨a, List.mem_cons_self _ _, b, List.mem_cons_self _ _, rfl⟩
      · obtain ⟨a2, ha2, b2, hb2, heq⟩ := ih bt x hx
        exact ⟨a2, List.mem_cons_of_mem _ ha2, b2, List.mem_cons_of_mem _ hb2, heq⟩

theorem mem_zipWith_of_forall₂ {α β γ : Type} {R : α → β → Prop} (f : α → β → γ) :
    ∀ {as : List α} {bs : List β}, List.Forall₂ R as bs →
      ∀ x ∈ List.zipWith f as bs,
        ∃ a b2, a ∈ as ∧ b2 ∈ bs ∧ R a b2 ∧ x = f a b2 := by
  intro as bs h
  induction h with
  | nil =>
    intro x hx
    exact absurd hx (List.not_mem_nil x)
  | cons hab _ ih =>
    intro x hx
    rw [List.zipWith_cons_cons] at hx
    rcases List.mem_cons.mp hx with rfl | hx
    · exact ⟨_, _, List.mem_cons_self _ _, List.mem_cons_self _ _, hab, rfl⟩
    · obtain ⟨a2, b3, ha2, hb3, hr, heq⟩ := ih x hx
      exact ⟨a2, b3, List.mem_cons_of_mem _ ha2, List.mem_cons_of_mem _ hb3, hr, heq⟩

theorem canonOptions_synced_ids (ptype : TestType) (opts : List OptionInput)
    (ks : List Nat) (hlen : ks.length = (optionsToSyncOf ptype opts).length) :
    (optionsToSyncOf ptype (canonOptions ptype opts ks)).map (fun o => o.id) =
      ks.map some := by
  by_cases h1 : (ptype == TestType.input) = true
  · have hg : (ptype == TestType.input || ptype == TestType.select_gaps) = true := by
      rw [h1]
      rfl
    have hlen' : (opts.filter (fun o => !(jsTrim o.option_text).isEmpty)).length =
        ks.length := by
      rw [hlen]
      unfold optionsToSyncOf
      simp [h1]
    unfold canonOptions optionsToSyncOf
    simp only [hg, h1, Bool.true_or, if_true]
    have hfi : (List.zipWith setOptionId
        (opts.filter (fun o => !(jsTrim o.option_text).isEmpty)) ks).filter
        (fun o => !(jsTrim o.option_text).isEmpty) =
        List.zipWith setOptionId
          (opts.filter (fun o => !(jsTrim o.option_text).isEmpty)) ks := by
      rw [List.filter_eq_self]
      intro x hx
      obtain ⟨o, ho, k2, _, rfl⟩ := mem_zipWith setOptionId _ _ x hx
      exact (List.mem_filter.mp ho).2
    rw [hfi, List.map_map]
    exact map_zipWith_right setOptionId _ some (fun a b2 => rfl) _ _ hlen'
  · by_cases h2 : (ptype == TestType.select_gaps) = true
    · have hg : (ptype == TestType.input || ptype == TestType.select_gaps) = true := by
        rw [h2]
        simp
      have hlen' : (opts.filter (fun o => !(jsTrim o.option_text).isEmpty)).length =
          ks.length := by
        rw [hlen]
        unfold optionsToSyncOf
        simp only [h1, Bool.false_eq_true, if_false, h2, if_true, List.length_map]
      unfold canonOptions optionsToSyncOf
      simp only [hg, h1, h2, Bool.false_or, Bool.or_true, if_true, Bool.false_eq_true,
        if_false]
      have hfi : (List.zipWith setOptionId
          (opts.filter (fun o => !(jsTrim o.option_text).isEmpty)) ks).filter
          (fun o => !(jsTrim o.option_text).isEmpty) =
          List.zipWith setOptionId
            (opts.filter (fun o => !(jsTrim o.option_text).isEmpty)) ks := by
        rw [List.filter_eq_self]
        intro x hx
        obtain ⟨o, ho, k2, _, rfl⟩ := mem_zipWith setOptionId _ _ x hx
        exact (List.mem_filter.mp ho).2
      rw [hfi, List.map_map]
      exact map_zipWith_right setOptionId _ some (fun a b2 => rfl) _ _ hlen'
    · have hg : (ptype == TestType.input || ptype == TestType.select_gaps) = false := by
        rw [Bool.not_eq_true] at h1 h2
        rw [h1, h2]
        rfl
      have hlen' : opts.length = ks.length := by
        rw [hlen]
        unfold optionsToSyncOf
        rw [Bool.not_eq_true] at h1 h2
        simp only [h1, h2, Bool.false_eq_true, if_false]
      unfold canonOptions optionsToSyncOf
      rw [Bool.not_eq_true] at h1 h2
      simp only [hg, h1, h2, Bool.false_or, Bool.false_eq_true, if_false]
      exact map_zipWith_right setOptionId _ some (fun a b2 => rfl) _ _ hlen'

theorem keptOk_inputAligned (data : UpdateQuizInput) (db : DB) (k : KeptQuiz)
    (h : KeptOk data db k) : InputAligned (canonInput data k) db := by
  obtain ⟨K1, K2, K3, K4⟩ := h
  refine ⟨?_, ?_, ?_, ?_⟩
  · intro p' hp'
    obtain ⟨p, kp, hpmem, hkpmem, hPOk, heqp⟩ :=
      mem_zipWith_of_forall₂ canonPage K2 p' hp'
    obtain ⟨m1, m2, m3, m4⟩ := hPOk
    rw [heqp]
    refine ⟨kp.pid, rfl, m1, ?_, ?_⟩
    · intro q' hq'
      obtain ⟨q, kq, hqmem, hkqmem, hQOk, heqq⟩ :=
        mem_zipWith_of_forall₂ (canonQuestion p.type) m4 q' hq'
      obtain ⟨o1, o2, o3, o4, o5⟩ := hQOk
      rw [heqq]
      have hids := canonOptions_synced_ids p.type q.options kq.opts o2
      refine ⟨kq.qid, rfl, (m3 kq.qid).mpr ⟨kq, hkqmem, rfl⟩, ?_, ?_, ?_⟩
      · intro o' ho'
        have hmem : o'.id ∈ (optionsToSyncOf p.type
            (canonOptions p.type q.options kq.opts)).map (fun o => o.id) :=
          List.mem_map_of_mem _ ho'
        rw [hids] at hmem
        obtain ⟨k2, hk2, hk2id⟩ := List.mem_map.mp hmem
        exact ⟨k2, hk2id.symm, (o1 k2).mpr hk2⟩
      · intro x hxdb
        have hxk : x ∈ kq.opts := (o1 x).mp hxdb
        have hmem : some x ∈ (optionsToSyncOf p.type
            (canonOptions p.type q.options kq.opts)).map (fun o => o.id) := by
          rw [hids]
          exact List.mem_map_of_mem _ hxk
        obtain ⟨o', ho', hid⟩ := List.mem_map.mp hmem
        exact ⟨o', ho', hid⟩
      · intro hgb
        have hne := o3 hgb
        intro hempty
        apply hne
        have hempty2 : optionsToSyncOf p.type
            (canonOptions p.type q.options kq.opts) = ([] : List OptionInput) := hempty
        have hmapnil : (optionsToSyncOf p.type
            (canonOptions p.type q.options kq.opts)).map (fun o => o.id) = [] := by
          rw [hempty2]
          rfl
        rw [hids] at hmapnil
        exact List.map_eq_nil_iff.mp hmapnil
    · intro x hx
      obtain ⟨kq, hkq, rfl⟩ := (m3 x).mp hx
      have hmapq : (List.zipWith (canonQuestion p.type) p.questions kp.questions).map
          (fun q => q.id) = kp.questions.map (fun kq2 => some kq2.qid) :=
        map_zipWith_right (canonQuestion p.type) _ _ (fun a b2 => rfl) _ _ m4.length_eq
      have hmem : some kq.qid ∈ (List.zipWith (canonQuestion p.type) p.questions
          kp.questions).map (fun q => q.id) := by
        rw [hmapq]
        exact List.mem_map_of_mem _ hkq
      obtain ⟨q', hq', hid⟩ := List.mem_map.mp hmem
      exact ⟨q', hq', hid⟩
  · intro x hx
    obtain ⟨kp, hkp, rfl⟩ := (K1 x).mp hx
    have hmapp : (List.zipWith canonPage data.pages k.pages).map (fun p => p.id) =
        k.pages.map (fun kp2 => some kp2.pid) :=
      map_zipWith_right canonPage _ _ (fun a b2 => rfl) _ _ K2.length_eq
    have hmem : some kp.pid ∈ (List.zipWith canonPage data.pages k.pages).map
        (fun p => p.id) := by
      rw [hmapp]
      exact List.mem_map_of_mem _ hkp
    obtain ⟨p', hp', hid⟩ := List.mem_map.mp hmem
    exact ⟨p', hp', hid⟩
  · intro b' hb'
    obtain ⟨b, hb, kb, hkb, heqb⟩ := mem_zipWith setBlockId _ _ b' hb'
    refine ⟨kb, ?_, (K3 kb).mpr hkb⟩
    rw [heqb]
    rfl
  · intro x hx
    have hxk : x ∈ k.blocks := (K3 x).mp hx
    have hmapb : (List.zipWith setBlockId data.theoryBlocks k.blocks).map
        (fun b => b.id) = k.blocks.map some :=
      map_zipWith_right setBlockId _ some (fun a b2 => rfl) _ _ K4.symm
    have hmem : some x ∈ (List.zipWith setBlockId data.theoryBlocks k.blocks).map
        (fun b => b.id) := by
      rw [hmapb]
      exact List.mem_map_of_mem _ hxk
    obtain ⟨b', hb', hid⟩ := List.mem_map.mp hmem
    exact ⟨b', hb', hid⟩

/-- **C4** — Reconciler idempotence: after a successful `updateQuiz` run on a
well-formed store with a tree-shaped desired input, applying `updateQuiz` a
second time with the same desired tree carrying the identifiers kept or
produced by the first call (and any environment) succeeds and issues only
update statements — zero inserts and zero deletes at every entity level
(pages, questions, options, theory blocks), and no storage call. -/
theorem updateQuiz_idempotent (env env2 : Env) (data : UpdateQuizInput) (db : DB)
    (hwf : db.wf) (hdata : data.wf)
    (hok : (updateQuiz env data db).err = none) :
    (updateQuiz env2 (canonInput data (updateQuiz env data db).kept)
      (updateQuiz env data db).db).err = none ∧
    ((updateQuiz env2 (canonInput data (updateQuiz env data db).kept)
      (updateQuiz env data db).db).trace.all Op.isUpdate) = true := by
  obtain ⟨hK, _⟩ := updateQuiz_run1 env data db hwf hdata hok
  exact updateQuiz_aligned env2 _ _ (keptOk_inputAligned data _ _ hK)

theorem updateQuiz_idempotent_witness :
    demoDb.wf ∧ demoData.wf ∧ (updateQuiz demoEnv demoData demoDb).err = none ∧
    ((updateQuiz demoEnv (canonInput demoData
        (updateQuiz demoEnv demoData demoDb).kept)
      (updateQuiz demoEnv demoData demoDb).db).err = none ∧
    ((updateQuiz demoEnv (canonInput demoData
        (updateQuiz demoEnv demoData demoDb).kept)
      (updateQuiz demoEnv demoData demoDb).db).trace.all Op.isUpdate) = true) :=
  ⟨by decide, by decide, by decide,
    updateQuiz_idempotent demoEnv demoEnv demoData demoDb (by decide) (by decide)
      (by decide)⟩

theorem contains_singleton (y z : Nat) : ([z] : List Nat).contains y = (y == z) := by
  by_cases h : y = z
  · subst h
    simp [contains_iff_mem]
  · have hb : (y == z) = false := beq_eq_false_iff_ne.mpr h
    rw [hb, ← Bool.not_eq_true]
    intro hc
    exact h (List.mem_singleton.mp ((contains_iff_mem _ _).mp hc))

/-- **C5** — Reconciler delete with identifier preservation: on a well-formed
store whose quiz has exactly the two pages `a` and `b`, a successful
`updateQuiz` whose desired tree contains only one page carrying identifier
`a` updates that page in place (an `updatePage a` statement is issued, no
`insertPage` statement appears anywhere in the run) and deletes the omitted
page: a `deletePages [b]` statement is issued, the final store keeps exactly
page `a` under the quiz, and page `b`'s questions and their options are gone. -/
theorem updateQuiz_two_page_delete (env : Env) (data : UpdateQuizInput) (db : DB)
    (a b : Nat) (P : PageInput) (hwf : db.wf) (hdata : data.wf)
    (hpages : data.pages = [P]) (hPid : P.id = some a)
    (hex : db.pageIdsOf data.quizId = [a, b]) (hab : a ≠ b)
    (hok : (updateQuiz env data db).err = none) :
    Op.updatePage a ∈ (updateQuiz env data db).trace ∧
    (∀ i, Op.insertPage i ∉ (updateQuiz env data db).trace) ∧
    Op.deletePages [b] ∈ (updateQuiz env data db).trace ∧
    (updateQuiz env data db).db.pageIdsOf data.quizId = [a] ∧
    (updateQuiz env data db).db.questionIdsOf b = [] ∧
    (∀ x ∈ db.questionIdsOf b, (updateQuiz env data db).db.optionIdsOf x = []) := by
  obtain ⟨_, hndQ, _, _⟩ := hdata
  have hndP : (carriedIds (fun q2 => q2.id) P.questions).Nodup := by
    refine hndQ P ?_
    rw [hpages]
    exact List.mem_cons_self P []
  have hwf0 : (db.writeQuizRow data.quizId data.title (jsStrOrNull data.description)
      (jsTrim data.slug)).wf := writeQuizRow_wf db _ _ _ _ hwf
  have hex0 : (db.writeQuizRow data.quizId data.title (jsStrOrNull data.description)
      (jsTrim data.slug)).pageIdsOf data.quizId = [a, b] := hex
  have hbind : P.id.bind (fun k => if ([a, b] : List Nat).contains k then
      some k else none) = some a := by
    rw [hPid]
    simp
  have hwf0' : ((db.writeQuizRow data.quizId data.title (jsStrOrNull data.description)
      (jsTrim data.slug)).updatePageRow a P.type (jsOrNull P.title)
      P.order_index).wf := updatePageRow_wf _ a _ _ _ hwf0
  have hfe1 := updatePageRow_fetchEq (db.writeQuizRow data.quizId data.title
    (jsStrOrNull data.description) (jsTrim data.slug)) a P.type (jsOrNull P.title)
    P.order_index
  have hQ := syncQuestions_spec P.type a P.questions
    ((db.writeQuizRow data.quizId data.title (jsStrOrNull data.description)
      (jsTrim data.slug)).updatePageRow a P.type (jsOrNull P.title) P.order_index)
    hwf0' hndP
  rcases hsync : syncQuestions P.type a P.questions
      ((db.writeQuizRow data.quizId data.title (jsStrOrNull data.description)
        (jsTrim data.slug)).updatePageRow a P.type (jsOrNull P.title) P.order_index)
    with ⟨err2, db2, ops2, keptQ⟩
  rw [hsync] at hQ
  unfold updateQuiz at hok ⊢
  simp only [hpages, hex0] at hok ⊢
  cases err2 with
  | some e =>
    exfalso
    simp only [syncPagesLoop, hbind, hsync] at hok
    exact absurd hok (by simp)
  | none =>
    obtain ⟨t1, t2, t3, t4, t5, t6, t7, t8, t9, t10⟩ := hQ rfl
    simp only at t1 t2 t3 t4 t5 t6 t7 t8 t9 t10
    simp only [syncPagesLoop, hbind, hsync] at hok ⊢
    have htoDelP : (([a, b] : List Nat).filter (fun x =>
        !((([(⟨a, keptQ⟩ : KeptPage)] : List KeptPage).map
          (fun k => k.pid)).contains x))) = [b] := by
      have hca : (([a] : List Nat).contains a) = true := by
        rw [contains_singleton]
        simp
      have hcb : (([a] : List Nat).contains b) = false := by
        rw [contains_singleton]
        exact beq_eq_false_iff_ne.mpr (Ne.symm hab)
      simp only [List.map_cons, List.map_nil, List.filter_cons, List.filter_nil,
        hca, hcb, Bool.not_true, Bool.not_false, Bool.false_eq_true, if_false, if_true]
    rw [htoDelP] at hok ⊢
    have hlen1 : ((([b] : List Nat).length != 0) = true) := rfl
    rw [hlen1] at hok ⊢
    simp only [if_true] at hok ⊢
    have hwf2 : db2.wf := t4
    have hwf2' : (db2.deletePageRows [b]).wf := deletePageRows_wf _ _ hwf2
    have hLT := syncTheoryLoop_spec data.quizId
      (((db2.deletePageRows [b]).theoryRowsOf data.quizId).map (fun b2 => b2.id))
      data.theoryBlocks (db2.deletePageRows [b])
      (theoryIdsOf_bound _ hwf2' data.quizId)
    rcases hth : syncTheoryLoop data.quizId
        (((db2.deletePageRows [b]).theoryRowsOf data.quizId).map (fun b2 => b2.id))
        data.theoryBlocks (db2.deletePageRows [b]) with ⟨db3, ops3, kept3⟩
    rw [hth] at hLT hok ⊢
    obtain ⟨u1, u2, u3, u4, _, _, _, uops, _⟩ := hLT
    simp only at u1 u2 u3 u4 uops
    have hP2' : (db2.deletePageRows [b]).pageIdsOf data.quizId = [a] := by
      rw [deletePageRows_pageIdsOf]
      have hq2 : db2.pageIdsOf data.quizId = [a, b] := by
        rw [pageIdsOf_congr_table t1 data.quizId, hfe1.1 data.quizId]
        exact hex0
      rw [hq2]
      have hca : (([b] : List Nat).contains a) = false := by
        rw [contains_singleton]
        exact beq_eq_false_iff_ne.mpr hab
      have hcb : (([b] : List Nat).contains b) = true := by
        rw [contains_singleton]
        simp
      simp only [List.filter_cons, List.filter_nil, hca, hcb, Bool.not_true,
        Bool.not_false, Bool.false_eq_true, if_false, if_true]
    have hQ2b : (db2.deletePageRows [b]).questionIdsOf b = [] := by
      rw [deletePageRows_questionIdsOf]
      have hcb : (([b] : List Nat).contains b) = true := by
        rw [contains_singleton]
        simp
      simp only [hcb, if_true]
    have hOx : ∀ x ∈ db.questionIdsOf b,
        (db2.deletePageRows [b]).optionIdsOf x = [] := by
      intro x hx
      have hxb : x ∈ db2.questionIdsOf b := by
        rw [t5 b (Ne.symm hab), hfe1.2.1 b]
        exact hx
      rw [deletePageRows_optionIdsOf]
      have hfc : db2.questions.filter (fun q => ([b] : List Nat).contains q.page_id) =
          db2.questions.filter (fun q => q.page_id == b) := by
        refine List.filter_congr ?_
        intro q _
        rw [contains_singleton]
      have hxcas : ((db2.questions.filter (fun q =>
          ([b] : List Nat).contains q.page_id)).map (fun q => q.id)).contains x =
          true := by
        rw [hfc]
        exact (contains_iff_mem _ x).mpr hxb
      simp only [hxcas, if_true]
    have hops2no : ∀ i, Op.insertPage i ∉ ops2 := by
      intro i hi
      have := t10 _ hi
      simp [Op.isQuestionLevelOp] at this
    have hops3no : ∀ i, Op.insertPage i ∉ ops3 := by
      intro i hi
      have := uops _ hi
      simp [Op.isPageLevelOp] at this
    by_cases hdB : (((db2.deletePageRows [b]).theoryRowsOf data.quizId).filter
        (fun x => !(kept3.contains x.id))) = []
    · simp only [hdB, List.length_nil, bne_self_eq_false, Bool.false_eq_true,
        if_false] at hok ⊢
      refine ⟨?_, ?_, ?_, ?_, ?_, ?_⟩
      · exact List.mem_cons_of_mem _ (List.mem_cons_self _ _)
      · intro i hi
        rcases List.mem_cons.mp hi with heq | hi
        · exact Op.noConfusion heq
        · rcases List.mem_append.mp hi with hi | hi
          · rcases List.mem_cons.mp hi with heq | hi
            · exact Op.noConfusion heq
            · rcases List.mem_append.mp hi with hi | hi
              · rcases List.mem_append.mp hi with hi | hi
                · exact hops2no i hi
                · exact absurd hi (List.not_mem_nil _)
              · rcases List.mem_singleton.mp hi with heq
                exact Op.noConfusion heq
          · exact hops3no i hi
      · refine List.mem_cons_of_mem _ (List.mem_cons_of_mem _ ?_)
        exact List.mem_append.mpr (Or.inl (List.mem_append.mpr (Or.inr
          (List.mem_singleton.mpr rfl))))
      · rw [pageIdsOf_congr_table u1 data.quizId]
        exact hP2'
      · rw [questionIdsOf_congr_table u2 b]
        exact hQ2b
      · intro x hx
        rw [optionIdsOf_congr_table u3 x]
        exact hOx x hx
    · have hcondB : ((((db2.deletePageRows [b]).theoryRowsOf data.quizId).filter
          (fun x => !(kept3.contains x.id))).length != 0) = true := by
        rw [bne_iff_ne]
        intro h0
        exact hdB (List.length_eq_zero.mp h0)
      simp only [hcondB, if_true] at hok ⊢
      have hdelPages : (db3.deleteTheoryRows
          ((((db2.deletePageRows [b]).theoryRowsOf data.quizId).filter
            (fun x => !(kept3.contains x.id))).map (fun x => x.id))).pages =
          db3.pages := rfl
      have hdelQs : (db3.deleteTheoryRows
          ((((db2.deletePageRows [b]).theoryRowsOf data.quizId).filter
            (fun x => !(kept3.contains x.id))).map (fun x => x.id))).questions =
          db3.questions := rfl
      have hdelOs : (db3.deleteTheoryRows
          ((((db2.deletePageRows [b]).theoryRowsOf data.quizId).filter
            (fun x => !(kept3.contains x.id))).map (fun x => x.id))).options =
          db3.options := rfl
      have hmain : Op.updatePage a ∈ (Op.updateQuizRow data.quizId ::
            (Op.updatePage a :: ops2 ++ []) ++ [Op.deletePages [b]]) ∧
          Op.deletePages [b] ∈ (Op.updateQuizRow data.quizId ::
            (Op.updatePage a :: ops2 ++ []) ++ [Op.deletePages [b]]) := by
        constructor
        · exact List.mem_cons_of_mem _ (List.mem_append.mpr (Or.inl
            (List.mem_cons_self _ _)))
        · exact List.mem_cons_of_mem _ (List.mem_append.mpr (Or.inr
            (List.mem_singleton.mpr rfl)))
      have hnoInsCore : ∀ i, Op.insertPage i ∉ (Op.updateQuizRow data.quizId ::
          (Op.updatePage a :: ops2 ++ []) ++ [Op.deletePages [b]]) := by
        intro i hi
        rcases List.mem_cons.mp hi with heq | hi
        · exact Op.noConfusion heq
        · rcases List.mem_append.mp hi with hi | hi
          · rcases List.mem_cons.mp hi with heq | hi
            · exact Op.noConfusion heq
            · rcases List.mem_append.mp hi with hi | hi
              · exact hops2no i hi
              · exact absurd hi (List.not_mem_nil _)
          · rcases List.mem_singleton.mp hi with heq
            exact Op.noConfusion heq
      by_cases hpl : ((((((db2.deletePageRows [b]).theoryRowsOf
          data.quizId).filter (fun x => !(kept3.contains x.id))).filterMap (fun b2 =>
            if b2.type == TheoryBlockType.image && !b2.content.isEmpty then
              getStoragePathFromPublicUrl env b2.content THEORY_IMAGES_BUCKET
            else none)).length != 0) = true)
      · simp only [hpl, if_true] at hok ⊢
        cases hsr : env.storageRemove (((((db2.deletePageRows [b]).theoryRowsOf
            data.quizId).filter (fun x => !(kept3.contains x.id))).filterMap (fun b2 =>
              if b2.type == TheoryBlockType.image && !b2.content.isEmpty then
                getStoragePathFromPublicUrl env b2.content THEORY_IMAGES_BUCKET
              else none))) with
        | some e =>
          rw [hsr] at hok
          exact absurd hok (by simp)
        | none =>
          rw [hsr] at hok
          refine ⟨?_, ?_, ?_, ?_, ?_, ?_⟩
          · refine List.mem_append.mpr (Or.inl (List.mem_append.mpr (Or.inl ?_)))
            exact hmain.1
          · intro i hi
            rcases List.mem_append.mp hi with hi | hi
            · rcases List.mem_append.mp hi with hi | hi
              · exact hnoInsCore i hi
              · exact hops3no i hi
            · rcases List.mem_cons.mp hi with heq | hi
              · exact Op.noConfusion heq
              · rcases List.mem_singleton.mp hi with heq
                exact Op.noConfusion heq
          · refine List.mem_append.mpr (Or.inl (List.mem_append.mpr (Or.inl ?_)))
            exact hmain.2
          · rw [pageIdsOf_congr_table hdelPages data.quizId,
              pageIdsOf_congr_table u1 data.quizId]
            exact hP2'
          · rw [questionIdsOf_congr_table hdelQs b, questionIdsOf_congr_table u2 b]
            exact hQ2b
          · intro x hx
            rw [optionIdsOf_congr_table hdelOs x, optionIdsOf_congr_table u3 x]
            exact hOx x hx
      · rw [Bool.not_eq_true] at hpl
        simp only [hpl, Bool.false_eq_true, if_false] at hok ⊢
        refine ⟨?_, ?_, ?_, ?_, ?_, ?_⟩
        · refine List.mem_append.mpr (Or.inl (List.mem_append.mpr (Or.inl ?_)))
          exact hmain.1
        · intro i hi
          rcases List.mem_append.mp hi with hi | hi
          · rcases List.mem_append.mp hi with hi | hi
            · exact hnoInsCore i hi
            · exact hops3no i hi
          · rcases List.mem_singleton.mp hi with heq
            exact Op.noConfusion heq
        · refine List.mem_append.mpr (Or.inl (List.mem_append.mpr (Or.inl ?_)))
          exact hmain.2
        · rw [pageIdsOf_congr_table hdelPages data.quizId,
            pageIdsOf_congr_table u1 data.quizId]
          exact hP2'
        · rw [questionIdsOf_congr_table hdelQs b, questionIdsOf_congr_table u2 b]
          exact hQ2b
        · intro x hx
          rw [optionIdsOf_congr_table hdelOs x, optionIdsOf_congr_table u3 x]
          exact hOx x hx

theorem updateQuiz_two_page_delete_witness :
    twoPageDb.wf ∧ keepPage1Data.wf ∧
    keepPage1Data.pages = [PageInput.mk (some 1) TestType.single none 0
      [QuestionInput.mk none "q".toList none 0
        [OptionInput.mk none "o".toList true none]]] ∧
    twoPageDb.pageIdsOf keepPage1Data.quizId = [1, 2] ∧
    (updateQuiz demoEnv keepPage1Data twoPageDb).err = none ∧
    (Op.updatePage 1 ∈ (updateQuiz demoEnv keepPage1Data twoPageDb).trace ∧
    (∀ i, Op.insertPage i ∉ (updateQuiz demoEnv keepPage1Data twoPageDb).trace) ∧
    Op.deletePages [2] ∈ (updateQuiz demoEnv keepPage1Data twoPageDb).trace ∧
    (updateQuiz demoEnv keepPage1Data twoPageDb).db.pageIdsOf
      keepPage1Data.quizId = [1] ∧
    (updateQuiz demoEnv keepPage1Data twoPageDb).db.questionIdsOf 2 = [] ∧
    (∀ x ∈ twoPageDb.questionIdsOf 2,
      (updateQuiz demoEnv keepPage1Data twoPageDb).db.optionIdsOf x = [])) :=
  ⟨by decide, by decide, by decide, by decide, by decide,
    updateQuiz_two_page_delete demoEnv keepPage1Data twoPageDb 1 2
      (PageInput.mk (some 1) TestType.single none 0
        [QuestionInput.mk none "q".toList none 0
          [OptionInput.mk none "o".toList true none]])
      (by decide) (by decide) (by decide) (by decide) (by decide) (by decide)
      (by decide)⟩

end Quiz
